import Mathlib

/-!
# Vectorised Viterbi kernel of hh-suite (`src/hhviterbialgorithm.cpp`)

Shallow embedding of `Viterbi::AlignWithOutCellOff` / `Viterbi::AlignWithCellOff`
(one function body, compiled twice, with and without `VITERBI_CELLOFF`), SSE build
(four 32-bit lanes per vector).

Modelling decisions.
* Scores (`float` in the source) live in an arbitrary linearly ordered ring `F`
  (for instance the integers or the rationals); rounding is not modelled.
  `FLT_MAX` is a parameter of type `F`.
* A `simd_float` is a function from the four lanes to `F`, a `simd_int` is a function
  from the four lanes to a 32-bit pattern (a natural number below `2 ^ 32`).
  Every vector instruction of the source is a definition of the same name.
* `log2f4 (ScalarProd20Vec (q->p[i], t->p[j]))` is not part of the translated file; it is
  the parameter `colScore i j`.
* Mutable variables of the function body, the rolling row buffer
  `sMM_DG_MI_GD_IM_vec` and the backtrace matrix form the record `KState`; the
  loops are iterations of their bodies over that record.
-/

set_option linter.unusedSectionVars false

namespace HHViterbi

/-! ## Vector primitives -/

/-- Lane index of an SSE vector (`VEC_SIZE = 4`). -/
abbrev Lane : Type := Fin 4

/-- Four packed scores. -/
abbrev simd_float (F : Type) : Type := Lane → F

/-- Four packed 32-bit integers, each given by its unsigned bit pattern. -/
abbrev simd_int : Type := Lane → Nat

/-- Bit pattern of a lane in which a comparison holds. -/
def allOnes : Nat := 4294967295

section Primitives

variable {F : Type} [LinearOrderedRing F]

/-- Broadcast of one score to every lane. -/
def simdf32_set (x : F) : simd_float F := fun _ => x

/-- Lane-wise addition. -/
def simdf32_add (a b : simd_float F) : simd_float F := fun k => a k + b k

/-- Lane-wise maximum. -/
def simdf32_max (a b : simd_float F) : simd_float F := fun k => max (a k) (b k)

/-- Lane-wise `a > b`, as a mask (already cast to `simd_int`). -/
def simdf32_gt (a b : simd_float F) : simd_int := fun k => if b k < a k then allOnes else 0

/-- Lane-wise `a < b`, as a mask. -/
def simdf32_lt (a b : simd_float F) : simd_int := fun k => if a k < b k then allOnes else 0

/-- Lane-wise `a == b`, as a mask. -/
def simdf32_eq (a b : simd_float F) : simd_int := fun k => if a k = b k then allOnes else 0

/-- Bitwise and-not of a comparison mask with a vector of scores, read back as scores:
a lane whose mask is clear keeps its score, a lane whose mask is set becomes `0`. -/
def simdi_andnot_f (mask : simd_int) (x : simd_float F) : simd_float F :=
  fun k => if mask k = 0 then x k else 0

end Primitives

/-- Broadcast of a non-negative `int` to every lane. -/
def simdi32_set (n : Nat) : simd_int := fun _ => n % 4294967296

/-- Lane-wise bitwise and. -/
def simdi_and (a b : simd_int) : simd_int := fun k => a k &&& b k

/-- Lane-wise bitwise exclusive or. -/
def simdi_xor (a b : simd_int) : simd_int := fun k => a k ^^^ b k

/-- Lane-wise 32-bit addition. -/
def simdi32_add (a b : simd_int) : simd_int := fun k => (a k + b k) % 4294967296

/-- Signed value of a 32-bit pattern. -/
def toInt32 (x : Nat) : Int := if x < 2147483648 then (x : Int) else (x : Int) - 4294967296

/-- Lane-wise signed `a > b`, as a mask. -/
def simdi32_gt (a b : simd_int) : simd_int :=
  fun k => if toInt32 (b k) < toInt32 (a k) then allOnes else 0

/-- Maximum of two 32-bit patterns taken byte by byte (unsigned). -/
def ui8max (a b : Nat) : Nat :=
  max (a % 256) (b % 256)
    + 256 * max (a / 256 % 256) (b / 256 % 256)
    + 65536 * max (a / 65536 % 256) (b / 65536 % 256)
    + 16777216 * max (a / 16777216 % 256) (b / 16777216 % 256)

/-- Lane-wise unsigned byte maximum. -/
def simdui8_max (a b : simd_int) : simd_int := fun k => ui8max (a k) (b k)

/-- One lane of `_mm_packs_epi32`: a signed 32-bit value saturated to a signed 16-bit
pattern. -/
def packs_epi32_lane (x : Nat) : Nat :=
  if x < 2147483648 then min x 32767
  else if 4294934528 ≤ x then x - 4294901760 else 32768

/-- One lane of `_mm_packus_epi16`: a signed 16-bit value saturated to an unsigned byte. -/
def packus_epi16_lane (y : Nat) : Nat :=
  if y < 32768 then min y 255 else 0

/-- Low 32 bits of `_mm_packus_epi16 (_mm_packs_epi32 (x, x), ...)`: byte `k` of the word
is the doubly saturated lane `k`. -/
def mm_cvtsi128_si32_packed (x : simd_int) : Nat :=
  packus_epi16_lane (packs_epi32_lane (x 0))
    + 256 * packus_epi16_lane (packs_epi32_lane (x 1))
    + 65536 * packus_epi16_lane (packs_epi32_lane (x 2))
    + 16777216 * packus_epi16_lane (packs_epi32_lane (x 3))

/-- Byte `k` of a stored 32-bit word. -/
def wordByte (w : Nat) (k : Lane) : Nat := w / 256 ^ k.val % 256

/-! ## Data -/

/-- The part of `HMMSimd` the kernel reads: the length and the flat transition table,
seven vectors per column. -/
structure HMMSimd (F : Type) where
  L : Nat
  tr : Nat → simd_float F

/-- The members of `Viterbi` the kernel reads, and the constant `FLT_MAX`. -/
structure Viterbi (F : Type) where
  local_mode : Bool
  penalty_gap_query : F
  penalty_gap_template : F
  shift : F
  FLT_MAX : F

/-- Mutable state of one kernel invocation. -/
structure KState (F : Type) where
  sMM_DG_MI_GD_IM_vec : Nat → simd_float F
  matrix : Nat → Nat → Nat
  i : Nat
  j : Nat
  i2_vec : simd_int
  j2_vec : simd_int
  sMM_i_j : simd_float F
  sMI_i_j : simd_float F
  sIM_i_j : simd_float F
  sGD_i_j : simd_float F
  sDG_i_j : simd_float F
  Si_vec : simd_float F
  sMM_i_1_j_1 : simd_float F
  sMI_i_1_j_1 : simd_float F
  sIM_i_1_j_1 : simd_float F
  sGD_i_1_j_1 : simd_float F
  sDG_i_1_j_1 : simd_float F
  score_vec : simd_float F
  byte_result_vec : simd_int

/-- The arrays of `ViterbiResult`. -/
structure ViterbiResult (F : Type) where
  score : Nat → F
  i : Nat → Nat
  j : Nat → Nat

/-- Store of one vector into the flat rolling buffer. -/
def storeVec {F : Type} (buf : Nat → simd_float F) (idx : Nat) (x : simd_float F) :
    Nat → simd_float F :=
  fun n => if n = idx then x else buf n

/-- Store of one word into row `i`, column `j` of the backtrace matrix. -/
def storeWord (m : Nat → Nat → Nat) (i j : Nat) (w : Nat) : Nat → Nat → Nat :=
  fun a b => if a = i ∧ b = j then w else m a b

section Kernel

variable {F : Type} [LinearOrderedRing F]

/-! ## Constants of the function body -/

/-- Line 61: `smin = (this->local ? 0 : -FLT_MAX)`. -/
def smin (v : Viterbi F) : F := if v.local_mode then 0 else -v.FLT_MAX

def mm_vec : simd_int := simdi32_set 2
def gd_vec : simd_int := simdi32_set 3
def im_vec : simd_int := simdi32_set 4
def dg_vec : simd_int := simdi32_set 5
def mi_vec : simd_int := simdi32_set 6
def gd_mm_vec : simd_int := simdi32_set 8
def im_mm_vec : simd_int := simdi32_set 16
def dg_mm_vec : simd_int := simdi32_set 32
def mi_mm_vec : simd_int := simdi32_set 64

/-- Line 81 and 95: lane `k` holds `0x40 << 8k`. -/
def co_vec : simd_int := fun k => 64 * 256 ^ k.val

/-! ## Transition loads (lines 157-165 and 176-185) -/

def q_m2m (q : HMMSimd F) (i : Nat) : simd_float F := q.tr ((i - 1) * 7 + 2)
def q_m2d (q : HMMSimd F) (i : Nat) : simd_float F := q.tr ((i - 1) * 7 + 3)
def q_d2m (q : HMMSimd F) (i : Nat) : simd_float F := q.tr ((i - 1) * 7 + 4)
def q_d2d (q : HMMSimd F) (i : Nat) : simd_float F := q.tr ((i - 1) * 7 + 5)
def q_i2m (q : HMMSimd F) (i : Nat) : simd_float F := q.tr ((i - 1) * 7 + 6)
def q_i2i (q : HMMSimd F) (i : Nat) : simd_float F := q.tr (i * 7)
def q_m2i (q : HMMSimd F) (i : Nat) : simd_float F := q.tr (i * 7 + 1)

def t_m2m (t : HMMSimd F) (j : Nat) : simd_float F := t.tr ((j - 1) * 7 + 2)
def t_m2d (t : HMMSimd F) (j : Nat) : simd_float F := t.tr ((j - 1) * 7 + 3)
def t_d2m (t : HMMSimd F) (j : Nat) : simd_float F := t.tr ((j - 1) * 7 + 4)
def t_d2d (t : HMMSimd F) (j : Nat) : simd_float F := t.tr ((j - 1) * 7 + 5)
def t_i2m (t : HMMSimd F) (j : Nat) : simd_float F := t.tr ((j - 1) * 7 + 6)
def t_i2i (t : HMMSimd F) (j : Nat) : simd_float F := t.tr (j * 7)
def t_m2i (t : HMMSimd F) (j : Nat) : simd_float F := t.tr (j * 7 + 1)

/-! ## The five candidates of the MM state (lines 200-204) -/

def mm_m2m_m2m_vec (q t : HMMSimd F) (st : KState F) : simd_float F :=
  simdf32_add (simdf32_add st.sMM_i_1_j_1 (q_m2m q st.i)) (t_m2m t st.j)

def gd_m2m_d2m_vec (q t : HMMSimd F) (st : KState F) : simd_float F :=
  simdf32_add (simdf32_add st.sGD_i_1_j_1 (q_m2m q st.i)) (t_d2m t st.j)

def im_m2m_d2m_vec (q t : HMMSimd F) (st : KState F) : simd_float F :=
  simdf32_add (simdf32_add st.sIM_i_1_j_1 (q_i2m q st.i)) (t_m2m t st.j)

def dg_m2m_d2m_vec (q t : HMMSimd F) (st : KState F) : simd_float F :=
  simdf32_add (simdf32_add st.sDG_i_1_j_1 (q_d2m q st.i)) (t_m2m t st.j)

def mi_m2m_d2m_vec (q t : HMMSimd F) (st : KState F) : simd_float F :=
  simdf32_add (simdf32_add st.sMI_i_1_j_1 (q_m2m q st.i)) (t_i2m t st.j)

/-- Lines 206-210: `sMM_i_j` before the column score is added. -/
def sMM_max6 (v : Viterbi F) (q t : HMMSimd F) (st : KState F) : simd_float F :=
  let smin_vec := simdf32_set (smin v)
  let max1 := simdf32_max smin_vec (mm_m2m_m2m_vec q t st)
  let max2 := simdf32_max (gd_m2m_d2m_vec q t st) (im_m2m_d2m_vec q t st)
  let max3 := simdf32_max (dg_m2m_d2m_vec q t st) (mi_m2m_d2m_vec q t st)
  let max4 := simdf32_max max1 max2
  simdf32_max max4 max3

/-- Lines 188 and 212-227: `byte_result_vec` after the MM code has been selected. -/
def byte_result_mm (v : Viterbi F) (q t : HMMSimd F) (st : KState F) : simd_int :=
  let byte_result_vec := simdi_xor st.byte_result_vec st.byte_result_vec
  let sMM_i_j := sMM_max6 v q t st
  let res1 := simdi_and mm_vec (simdf32_eq (mm_m2m_m2m_vec q t st) sMM_i_j)
  let res3 := simdi_and im_vec (simdf32_eq (im_m2m_d2m_vec q t st) sMM_i_j)
  let res2 := simdi_and gd_vec (simdf32_eq (gd_m2m_d2m_vec q t st) sMM_i_j)
  let res4 := simdi_and dg_vec (simdf32_eq (dg_m2m_d2m_vec q t st) sMM_i_j)
  let res5 := simdi_and mi_vec (simdf32_eq (mi_m2m_d2m_vec q t st) sMM_i_j)
  let res1 := simdui8_max res1 res2
  let res3 := simdui8_max res3 res4
  let res5 := simdui8_max res1 res5
  let res4 := simdui8_max res5 res3
  simdui8_max res4 byte_result_vec

/-! ## Reads of the rolling buffer (lines 263-270) and gap candidates -/

def sMM_j_1 (st : KState F) : simd_float F := st.sMM_DG_MI_GD_IM_vec ((st.j - 1) * 5 + 0)
def sGD_j_1 (st : KState F) : simd_float F := st.sMM_DG_MI_GD_IM_vec ((st.j - 1) * 5 + 3)
def sIM_j_1 (st : KState F) : simd_float F := st.sMM_DG_MI_GD_IM_vec ((st.j - 1) * 5 + 4)
def sMM_j (st : KState F) : simd_float F := st.sMM_DG_MI_GD_IM_vec (st.j * 5 + 0)
def sDG_j (st : KState F) : simd_float F := st.sMM_DG_MI_GD_IM_vec (st.j * 5 + 1)
def sMI_j (st : KState F) : simd_float F := st.sMM_DG_MI_GD_IM_vec (st.j * 5 + 2)

/-- Line 284. -/
def mm_gd_vec (t : HMMSimd F) (st : KState F) : simd_float F :=
  simdf32_add (sMM_j_1 st) (t_m2d t st.j)

/-- Line 285. -/
def gd_gd_vec (t : HMMSimd F) (st : KState F) : simd_float F :=
  simdf32_add (sGD_j_1 st) (t_d2d t st.j)

/-- Line 301. -/
def mm_mm_vec (q t : HMMSimd F) (st : KState F) : simd_float F :=
  simdf32_add (simdf32_add (sMM_j_1 st) (q_m2i q st.i)) (t_m2m t st.j)

/-- Line 302. -/
def im_im_vec (q t : HMMSimd F) (st : KState F) : simd_float F :=
  simdf32_add (simdf32_add (sIM_j_1 st) (q_i2i q st.i)) (t_m2m t st.j)

/-- Line 317. -/
def mm_dg_vec (q : HMMSimd F) (st : KState F) : simd_float F :=
  simdf32_add (sMM_j st) (q_m2d q st.i)

/-- Line 318. -/
def dg_dg_vec (q : HMMSimd F) (st : KState F) : simd_float F :=
  simdf32_add (sDG_j st) (q_d2d q st.i)

/-- Line 335. -/
def mm_mi_vec (q t : HMMSimd F) (st : KState F) : simd_float F :=
  simdf32_add (simdf32_add (sMM_j st) (q_m2m q st.i)) (t_m2i t st.j)

/-- Line 336. -/
def mi_mi_vec (q t : HMMSimd F) (st : KState F) : simd_float F :=
  simdf32_add (simdf32_add (sMI_j st) (q_m2m q st.i)) (t_i2i t st.j)

/-- Lines 6-9: the macro `MAX2_SET_MASK`. -/
def MAX2_SET_MASK (vec1 vec2 : simd_float F) (vec3 res : simd_int) : simd_int :=
  let res_gt_vec := simdf32_gt vec1 vec2
  let index_vec := simdi_and res_gt_vec vec3
  simdi_xor res index_vec

/-- The value of `byte_result_vec` after the four uses of `MAX2_SET_MASK`
(lines 287, 304, 320, 338). -/
def byte_result_all (v : Viterbi F) (q t : HMMSimd F) (st : KState F) : simd_int :=
  let b := byte_result_mm v q t st
  let b := MAX2_SET_MASK (mm_gd_vec t st) (gd_gd_vec t st) gd_mm_vec b
  let b := MAX2_SET_MASK (mm_mm_vec q t st) (im_im_vec q t st) im_mm_vec b
  let b := MAX2_SET_MASK (mm_dg_vec q st) (dg_dg_vec q st) dg_mm_vec b
  MAX2_SET_MASK (mm_mi_vec q t st) (mi_mi_vec q t st) mi_mm_vec b

/-- Lines 361-366 under `VITERBI_CELLOFF`; without it nothing is added, which is the
vector of zeros here. -/
def cell_off_float_min_vec (celloff : Bool) (v : Viterbi F) (st : KState F) : simd_float F :=
  if celloff then
    let matrix_vec := simdi32_set (st.matrix st.i st.j >>> 1)
    let cell_off_vec := simdi_and matrix_vec co_vec
    let res_eq_co_vec := simdi32_gt co_vec cell_off_vec
    let float_min_vec : simd_float F := simdf32_set (-v.FLT_MAX)
    simdi_andnot_f res_eq_co_vec float_min_vec
  else simdf32_set 0

/-- Lines 374-378: the addition of the cell-off vector exists only under
`VITERBI_CELLOFF`. -/
def addCellOff (celloff : Bool) (x off : simd_float F) : simd_float F :=
  if celloff then simdf32_add x off else x

/-- Lines 415-431, and again lines 444-460: update of the running best score and of
its coordinates from `sMM_i_j`, with the current values of `i` and `j`. -/
def updateBest (st : KState F) : KState F :=
  let lookup_mask_hi := simdf32_gt st.sMM_i_j st.score_vec
  let lookup_mask_lo := simdf32_lt st.sMM_i_j st.score_vec
  let curr_pos_j := simdi32_set st.j
  let new_j_pos_hi := simdi_and lookup_mask_hi curr_pos_j
  let old_j_pos_lo := simdi_and lookup_mask_lo st.j2_vec
  let j2_vec := simdi32_add new_j_pos_hi old_j_pos_lo
  let curr_pos_i := simdi32_set st.i
  let new_i_pos_hi := simdi_and lookup_mask_hi curr_pos_i
  let old_i_pos_lo := simdi_and lookup_mask_lo st.i2_vec
  let i2_vec := simdi32_add new_i_pos_hi old_i_pos_lo
  { st with j2_vec := j2_vec, i2_vec := i2_vec,
            score_vec := simdf32_max st.sMM_i_j st.score_vec }

/-- Body of the loop over `j` (lines 172-436). -/
def cellStep (celloff : Bool) (v : Viterbi F) (q t : HMMSimd F)
    (colScore : Nat → Nat → simd_float F) (st : KState F) : KState F :=
  let shift_vec := simdf32_set v.shift
  let Si_vec := simdf32_add (colScore st.i st.j) shift_vec
  let sMM_i_j := simdf32_add (sMM_max6 v q t st) Si_vec
  let index_pos_j := st.j * 5
  let buf := st.sMM_DG_MI_GD_IM_vec
  let sGD_i_j := simdf32_max (mm_gd_vec t st) (gd_gd_vec t st)
  let sIM_i_j := simdf32_max (mm_mm_vec q t st) (im_im_vec q t st)
  let sDG_i_j := simdf32_max (mm_dg_vec q st) (dg_dg_vec q st)
  let sMI_i_j := simdf32_max (mm_mi_vec q t st) (mi_mi_vec q t st)
  let off := cell_off_float_min_vec celloff v st
  let sMM_i_j := addCellOff celloff sMM_i_j off
  let sGD_i_j := addCellOff celloff sGD_i_j off
  let sIM_i_j := addCellOff celloff sIM_i_j off
  let sDG_i_j := addCellOff celloff sDG_i_j off
  let sMI_i_j := addCellOff celloff sMI_i_j off
  let buf1 := storeVec buf (index_pos_j + 0) sMM_i_j
  let buf2 := storeVec buf1 (index_pos_j + 1) sDG_i_j
  let buf3 := storeVec buf2 (index_pos_j + 2) sMI_i_j
  let buf4 := storeVec buf3 (index_pos_j + 3) sGD_i_j
  let buf5 := storeVec buf4 (index_pos_j + 4) sIM_i_j
  let byte_result_vec := byte_result_all v q t st
  let int_result := mm_cvtsi128_si32_packed byte_result_vec
  let st1 : KState F :=
    { st with
      sMM_DG_MI_GD_IM_vec := buf5
      matrix := storeWord st.matrix st.i st.j int_result
      sMM_i_j := sMM_i_j
      sMI_i_j := sMI_i_j
      sIM_i_j := sIM_i_j
      sGD_i_j := sGD_i_j
      sDG_i_j := sDG_i_j
      Si_vec := Si_vec
      sMM_i_1_j_1 := buf (index_pos_j + 0)
      sDG_i_1_j_1 := buf (index_pos_j + 1)
      sMI_i_1_j_1 := buf (index_pos_j + 2)
      sGD_i_1_j_1 := buf (index_pos_j + 3)
      sIM_i_1_j_1 := buf (index_pos_j + 4)
      byte_result_vec := fun _ => int_result }
  let findMaxInnerLoop := v.local_mode || decide (st.i = q.L)
  if findMaxInnerLoop then updateBest st1 else st1

/-- Iteration of a loop body over the counter `j`: `for (j = start; ...; ++j)` with
`n` executions of the body. After the loop `j` is `start + n`. -/
def forLoop_j (body : KState F → KState F) (start : Nat) : Nat → KState F → KState F
  | 0, st => { st with j := start }
  | n + 1, st =>
    let s := body (forLoop_j body start n st)
    { s with j := s.j + 1 }

/-- Iteration of a loop body over the counter `i`. -/
def forLoop_i (body : KState F → KState F) (start : Nat) : Nat → KState F → KState F
  | 0, st => { st with i := start }
  | n + 1, st =>
    let s := body (forLoop_i body start n st)
    { s with i := s.i + 1 }

/-- Body of the initialisation loop of the top row (lines 122-127). -/
def topRowBody (v : Viterbi F) (st : KState F) : KState F :=
  let index_pos_j := st.j * 5
  let buf := st.sMM_DG_MI_GD_IM_vec
  let buf := storeVec buf (index_pos_j + 0)
    (simdf32_set (((-(st.j : Int) : Int) : F) * v.penalty_gap_template))
  let buf := storeVec buf (index_pos_j + 1) (simdf32_set (-v.FLT_MAX))
  let buf := storeVec buf (index_pos_j + 2) (simdf32_set (-v.FLT_MAX))
  let buf := storeVec buf (index_pos_j + 3) (simdf32_set (-v.FLT_MAX))
  let buf := storeVec buf (index_pos_j + 4) (simdf32_set (-v.FLT_MAX))
  { st with sMM_DG_MI_GD_IM_vec := buf }

/-- Lines 138-150: initialisation of the cells `(i-1,0)` and `(i,0)` at the start of
row `i`. -/
def rowInit (v : Viterbi F) (st : KState F) : KState F :=
  let index_pos_i := 0 * 5
  let buf := st.sMM_DG_MI_GD_IM_vec
  let buf := storeVec buf (index_pos_i + 0)
    (simdf32_set (((-(st.i : Int) : Int) : F) * v.penalty_gap_query))
  let buf := storeVec buf (index_pos_i + 1) (simdf32_set (-v.FLT_MAX))
  let buf := storeVec buf (index_pos_i + 2) (simdf32_set (-v.FLT_MAX))
  let buf := storeVec buf (index_pos_i + 3) (simdf32_set (-v.FLT_MAX))
  let buf := storeVec buf (index_pos_i + 4) (simdf32_set (-v.FLT_MAX))
  { st with
    sMM_i_1_j_1 := simdf32_set (((-((st.i : Int) - 1) : Int) : F) * v.penalty_gap_query)
    sIM_i_1_j_1 := simdf32_set (-v.FLT_MAX)
    sMI_i_1_j_1 := simdf32_set (-v.FLT_MAX)
    sDG_i_1_j_1 := simdf32_set (-v.FLT_MAX)
    sGD_i_1_j_1 := simdf32_set (-v.FLT_MAX)
    sMM_DG_MI_GD_IM_vec := buf }

/-- Body of the loop over `i` (lines 134-462). -/
def rowBody (celloff : Bool) (v : Viterbi F) (q t : HMMSimd F)
    (colScore : Nat → Nat → simd_float F) (st : KState F) : KState F :=
  let s1 := rowInit v st
  let targetLength := t.L
  let s2 := forLoop_j (cellStep celloff v q t colScore) 1 targetLength s1
  if !v.local_mode then updateBest s2 else s2

/-- Lines 100-116: initial values of the variables declared with an initialiser; the
other variables, the rolling buffer and the backtrace matrix keep what memory held
(`st0`). -/
def declInit (v : Viterbi F) (st0 : KState F) : KState F :=
  { st0 with
    i2_vec := simdi32_set 0
    j2_vec := simdi32_set 0
    sMM_i_j := simdf32_set 0
    score_vec := simdf32_set (-v.FLT_MAX)
    byte_result_vec := simdi32_set 0 }

/-- State after the top-row loop (lines 119-129). -/
def afterTopRow (v : Viterbi F) (t : HMMSimd F) (st0 : KState F) : KState F :=
  forLoop_j (topRowBody v) 0 (t.L + 1) (declInit v st0)

/-- State after `n` executions of the body of the loop over `i`. -/
def afterRows (celloff : Bool) (v : Viterbi F) (q t : HMMSimd F)
    (colScore : Nat → Nat → simd_float F) (st0 : KState F) (n : Nat) : KState F :=
  forLoop_i (rowBody celloff v q t colScore) 1 n (afterTopRow v t st0)

/-- State of the whole function body before the results are copied out. -/
def runKernel (celloff : Bool) (v : Viterbi F) (q t : HMMSimd F)
    (colScore : Nat → Nat → simd_float F) (st0 : KState F) : KState F :=
  let queryLength := q.L
  afterRows celloff v q t colScore st0 queryLength

/-- Lines 464-468: lanes `0 .. maxres-1` are copied to the result arrays (a vector has
`VEC_SIZE = 4` lanes; other entries keep `res0`). -/
def extractResult (maxres : Nat) (st : KState F) (res0 : ViterbiResult F) :
    ViterbiResult F :=
  { score := fun s => if h : s < maxres ∧ s < 4 then st.score_vec ⟨s, h.2⟩ else res0.score s
    i := fun s => if h : s < maxres ∧ s < 4 then st.i2_vec ⟨s, h.2⟩ else res0.i s
    j := fun s => if h : s < maxres ∧ s < 4 then st.j2_vec ⟨s, h.2⟩ else res0.j s }

/-- The kernel compiled without `VITERBI_CELLOFF`: the result arrays and the final
state (which holds the backtrace matrix). -/
def AlignWithOutCellOff (v : Viterbi F) (q t : HMMSimd F)
    (colScore : Nat → Nat → simd_float F) (maxres : Nat) (st0 : KState F)
    (res0 : ViterbiResult F) : ViterbiResult F × KState F :=
  let st := runKernel false v q t colScore st0
  (extractResult maxres st res0, st)

/-- The kernel compiled with `VITERBI_CELLOFF`. -/
def AlignWithCellOff (v : Viterbi F) (q t : HMMSimd F)
    (colScore : Nat → Nat → simd_float F) (maxres : Nat) (st0 : KState F)
    (res0 : ViterbiResult F) : ViterbiResult F × KState F :=
  let st := runKernel true v q t colScore st0
  (extractResult maxres st res0, st)

/-- The function body for either value of the compile-time flag: `alignKernel false` is
`AlignWithOutCellOff`, `alignKernel true` is `AlignWithCellOff`. -/
def alignKernel (celloff : Bool) (v : Viterbi F) (q t : HMMSimd F)
    (colScore : Nat → Nat → simd_float F) (maxres : Nat) (st0 : KState F)
    (res0 : ViterbiResult F) : ViterbiResult F × KState F :=
  if celloff then AlignWithCellOff v q t colScore maxres st0 res0
  else AlignWithOutCellOff v q t colScore maxres st0 res0

/-- State at the start of the loop over `j` in row `i` (`1 ≤ i`). -/
def stateAtRowStart (celloff : Bool) (v : Viterbi F) (q t : HMMSimd F)
    (colScore : Nat → Nat → simd_float F) (st0 : KState F) (i : Nat) : KState F :=
  rowInit v (afterRows celloff v q t colScore st0 (i - 1))

/-- State right after the body of the loop over `j` has been executed for cell `(i,j)`
(for `j = 0`: before the first cell of row `i`). -/
def stateAtCell (celloff : Bool) (v : Viterbi F) (q t : HMMSimd F)
    (colScore : Nat → Nat → simd_float F) (st0 : KState F) (i j : Nat) : KState F :=
  forLoop_j (cellStep celloff v q t colScore) 1 j
    (stateAtRowStart celloff v q t colScore st0 i)

end Kernel

/-! ## The full-matrix recurrence of the specification, one lane at a time -/

section Reference

variable {F : Type} [LinearOrderedRing F]

/-- The five scores of one cell of one lane, in the order of the rolling buffer. -/
structure Cell5 (F : Type) where
  MM : F
  DG : F
  MI : F
  GD : F
  IM : F

/-- Transition values of column `c`, lane `k`, by name. -/
def M2M (h : HMMSimd F) (c : Nat) (k : Lane) : F := h.tr (c * 7 + 2) k
def M2D (h : HMMSimd F) (c : Nat) (k : Lane) : F := h.tr (c * 7 + 3) k
def D2M (h : HMMSimd F) (c : Nat) (k : Lane) : F := h.tr (c * 7 + 4) k
def D2D (h : HMMSimd F) (c : Nat) (k : Lane) : F := h.tr (c * 7 + 5) k
def I2M (h : HMMSimd F) (c : Nat) (k : Lane) : F := h.tr (c * 7 + 6) k
def I2I (h : HMMSimd F) (c : Nat) (k : Lane) : F := h.tr (c * 7) k
def M2I (h : HMMSimd F) (c : Nat) (k : Lane) : F := h.tr (c * 7 + 1) k

/-- Column score plus shift, `S(i,j)` of the specification. -/
def Sij (v : Viterbi F) (colScore : Nat → Nat → simd_float F) (k : Lane) (i j : Nat) : F :=
  colScore i j k + v.shift

/-- A boundary cell: the given MM score, the sentinel in the four other states. -/
def boundaryCell (v : Viterbi F) (x : F) : Cell5 F :=
  { MM := x, DG := -v.FLT_MAX, MI := -v.FLT_MAX, GD := -v.FLT_MAX, IM := -v.FLT_MAX }

/-- The recurrence of the specification at cell `(i,j)`, from the cells `(i-1,j-1)`
(`diag`), `(i-1,j)` (`up`) and `(i,j-1)` (`left`). -/
def recCell (v : Viterbi F) (q t : HMMSimd F) (colScore : Nat → Nat → simd_float F)
    (k : Lane) (i j : Nat) (diag up left : Cell5 F) : Cell5 F :=
  { MM := max (smin v)
            (max (diag.MM + M2M q (i - 1) k + M2M t (j - 1) k)
            (max (diag.GD + M2M q (i - 1) k + D2M t (j - 1) k)
            (max (diag.IM + I2M q (i - 1) k + M2M t (j - 1) k)
            (max (diag.DG + D2M q (i - 1) k + M2M t (j - 1) k)
                 (diag.MI + M2M q (i - 1) k + I2M t (j - 1) k)))))
          + Sij v colScore k i j
    GD := max (left.MM + M2D t (j - 1) k) (left.GD + D2D t (j - 1) k)
    IM := max (left.MM + M2I q i k + M2M t (j - 1) k) (left.IM + I2I q i k + M2M t (j - 1) k)
    DG := max (up.MM + M2D q (i - 1) k) (up.DG + D2D q (i - 1) k)
    MI := max (up.MM + M2M q (i - 1) k + M2I t j k) (up.MI + M2M q (i - 1) k + I2I t j k) }

/-- Row `i` (`1 ≤ i`) of the full matrix from row `i-1`. -/
def fullRow (v : Viterbi F) (q t : HMMSimd F) (colScore : Nat → Nat → simd_float F)
    (k : Lane) (i : Nat) (prev : Nat → Cell5 F) : Nat → Cell5 F
  | 0 => boundaryCell v (((-(i : Int) : Int) : F) * v.penalty_gap_query)
  | j + 1 => recCell v q t colScore k i (j + 1) (prev j) (prev (j + 1))
      (fullRow v q t colScore k i prev j)

/-- The full `(Lq+1) x (Lt+1)` matrix of the specification (no rolling buffer), lane `k`. -/
def fullMatrix (v : Viterbi F) (q t : HMMSimd F) (colScore : Nat → Nat → simd_float F)
    (k : Lane) : Nat → Nat → Cell5 F
  | 0 => fun j => boundaryCell v (((-(j : Int) : Int) : F) * v.penalty_gap_template)
  | i + 1 => fullRow v q t colScore k (i + 1) (fullMatrix v q t colScore k i)

/-- Cell `j` of the rolling buffer, lane `k`. -/
def bufCell (buf : Nat → simd_float F) (j : Nat) (k : Lane) : Cell5 F :=
  { MM := buf (j * 5 + 0) k, DG := buf (j * 5 + 1) k, MI := buf (j * 5 + 2) k,
    GD := buf (j * 5 + 3) k, IM := buf (j * 5 + 4) k }

/-- The variables `sXX_i_1_j_1`, lane `k`. -/
def diagCell (st : KState F) (k : Lane) : Cell5 F :=
  { MM := st.sMM_i_1_j_1 k, DG := st.sDG_i_1_j_1 k, MI := st.sMI_i_1_j_1 k,
    GD := st.sGD_i_1_j_1 k, IM := st.sIM_i_1_j_1 k }

/-- The variables `sXX_i_j`, lane `k`. -/
def curCell (st : KState F) (k : Lane) : Cell5 F :=
  { MM := st.sMM_i_j k, DG := st.sDG_i_j k, MI := st.sMI_i_j k,
    GD := st.sGD_i_j k, IM := st.sIM_i_j k }

end Reference

/-! ## A concrete instance over the integers -/

section Example

/-- Transition table with `M2M = 0` and every gap transition `-1`. -/
def exTr : Nat → simd_float Int := fun n => fun _ => if n % 7 = 2 then 0 else -1

def exHMM (L : Nat) : HMMSimd Int := { L := L, tr := exTr }

/-- The value of `FLT_MAX` as an integer. -/
def exFLT_MAX : Int := 340282346638528859811704183484516925440

def exViterbi (loc : Bool) : Viterbi Int :=
  { local_mode := loc, penalty_gap_query := 1, penalty_gap_template := 1, shift := 0,
    FLT_MAX := exFLT_MAX }

/-- Column score `2` on the diagonal and `0` elsewhere. -/
def exDiag : Nat → Nat → simd_float Int := fun i j => fun _ => if i = j then 2 else 0

/-- Column score `5` in every cell. -/
def exFlat : Nat → Nat → simd_float Int := fun _ _ => fun _ => 5

/-- Column score `5 - j`, the same in every row. -/
def exSlope : Nat → Nat → simd_float Int := fun _ j => fun _ => 5 - (j : Int)

/-- Some memory contents before the call. -/
def exState0 : KState Int :=
  { sMM_DG_MI_GD_IM_vec := fun _ _ => 7, matrix := fun _ _ => 0, i := 0, j := 0,
    i2_vec := fun _ => 9, j2_vec := fun _ => 9,
    sMM_i_j := fun _ => 7, sMI_i_j := fun _ => 7, sIM_i_j := fun _ => 7,
    sGD_i_j := fun _ => 7, sDG_i_j := fun _ => 7, Si_vec := fun _ => 7,
    sMM_i_1_j_1 := fun _ => 7, sMI_i_1_j_1 := fun _ => 7, sIM_i_1_j_1 := fun _ => 7,
    sGD_i_1_j_1 := fun _ => 7, sDG_i_1_j_1 := fun _ => 7, score_vec := fun _ => 7,
    byte_result_vec := fun _ => 9 }

def exRes0 : ViterbiResult Int := { score := fun _ => 0, i := fun _ => 0, j := fun _ => 0 }

/-- Memory contents before a second pass: the exclusion bit of lane 0 is set in the word
of cell `(2,2)`, the exclusion bit of lane 1 in the word of cell `(1,1)`. -/
def exStateX : KState Int :=
  { exState0 with
    matrix := fun i j => if i = 2 ∧ j = 2 then 128 else if i = 1 ∧ j = 1 then 32768 else 0 }

/-- Transition table that agrees with `exTr` in lane 0 and has gap transitions `-2` in
the other lanes. -/
def exTrLanes : Nat → simd_float Int :=
  fun n => fun k => if n % 7 = 2 then 0 else if k = 0 then -1 else -2

def exHMMLanes (L : Nat) : HMMSimd Int := { L := L, tr := exTrLanes }

/-- Global-mode engine whose end-gap penalty of the query is `FLT_MAX`. -/
def exViterbiBig : Viterbi Int :=
  { local_mode := false, penalty_gap_query := exFLT_MAX, penalty_gap_template := 1,
    shift := 0, FLT_MAX := exFLT_MAX }

/-- Column score `-FLT_MAX` in every cell. -/
def exSink : Nat → Nat → simd_float Int := fun _ _ => fun _ => -exFLT_MAX

end Example

/-! ## Notions used in the statements on the best score -/

section BestDefs

variable {F : Type} [LinearOrderedRing F]

/-- The MM score of cell `(i,j)`, lane `k`, as the kernel holds it in `sMM_i_j` right
after the loop body of that cell. -/
def kMM (celloff : Bool) (v : Viterbi F) (q t : HMMSimd F)
    (colScore : Nat → Nat → simd_float F) (st0 : KState F) (k : Lane) (i j : Nat) : F :=
  (stateAtCell celloff v q t colScore st0 i j).sMM_i_j k

/-- The value `x` is the maximum of `bot` and of the values `f a b` over the cells
selected by `P`. -/
def IsBestOver (f : Nat → Nat → F) (bot : F) (P : Nat → Nat → Prop) (x : F) : Prop :=
  bot ≤ x ∧ (∀ a b, P a b → f a b ≤ x) ∧ (x = bot ∨ ∃ a b, P a b ∧ x = f a b)

/-- Candidate cells of the running maximum: every cell in local mode, the last row
and the last column in global mode. -/
def isCand (loc : Bool) (Lq Lt a b : Nat) : Prop :=
  1 ≤ a ∧ a ≤ Lq ∧ 1 ≤ b ∧ b ≤ Lt ∧ (loc = true ∨ a = Lq ∨ b = Lt)

/-- Candidate cells compared so far when the first `n` rows are done. -/
def seenRows (loc : Bool) (Lq Lt n a b : Nat) : Prop :=
  a ≤ n ∧ isCand loc Lq Lt a b

/-- Candidate cells compared so far right after the loop body of cell `(i,j)`. -/
def seenCell (loc : Bool) (Lq Lt i j a b : Nat) : Prop :=
  (a < i ∧ isCand loc Lq Lt a b) ∨ (a = i ∧ 1 ≤ b ∧ b ≤ j ∧ (loc = true ∨ i = Lq))

/-- The word that the loop body of cell `(i,j)` stores in the backtrace matrix. -/
def writtenWord (celloff : Bool) (v : Viterbi F) (q t : HMMSimd F)
    (colScore : Nat → Nat → simd_float F) (st0 : KState F) (i j : Nat) : Nat :=
  mm_cvtsi128_si32_packed
    (byte_result_all v q t (stateAtCell celloff v q t colScore st0 i (j - 1)))

/-- The exclusion (cell-off) bit of lane `k` in a stored word: bit 7 of byte `k`. -/
def exclBit (w : Nat) (k : Lane) : Bool := Nat.testBit w (8 * k.val + 7)

/-- One lane of the coordinate update of lines 422-429: `x` is the new MM score, `score`
the running best, `pos` the current counter and `old` the coordinate kept so far. -/
def coordUpdate (x score : F) (pos old : Nat) : Nat :=
  (((if score < x then allOnes else 0) &&& (pos % 4294967296))
    + ((if x < score then allOnes else 0) &&& old)) % 4294967296

/-- Lane `a` of the state `s1` and lane `b` of the state `s2` agree on everything the
kernel still reads, between two rows (`L` is the template length). -/
structure RowRel (L : Nat) (a b : Lane) (s1 s2 : KState F) : Prop where
  i_eq : s1.i = s2.i
  buf_eq : ∀ n, n < (L + 1) * 5 → s1.sMM_DG_MI_GD_IM_vec n a = s2.sMM_DG_MI_GD_IM_vec n b
  cMM_eq : s1.sMM_i_j a = s2.sMM_i_j b
  score_eq : s1.score_vec a = s2.score_vec b
  i2_eq : s1.i2_vec a = s2.i2_vec b
  j2_eq : s1.j2_vec a = s2.j2_vec b

/-- Lane `a` of the state `s1` and lane `b` of the state `s2` agree on everything the
kernel still reads, inside a row. -/
structure LaneRel (L : Nat) (a b : Lane) (s1 s2 : KState F) extends
    RowRel L a b s1 s2 : Prop where
  j_eq : s1.j = s2.j
  dMM_eq : s1.sMM_i_1_j_1 a = s2.sMM_i_1_j_1 b
  dMI_eq : s1.sMI_i_1_j_1 a = s2.sMI_i_1_j_1 b
  dIM_eq : s1.sIM_i_1_j_1 a = s2.sIM_i_1_j_1 b
  dGD_eq : s1.sGD_i_1_j_1 a = s2.sGD_i_1_j_1 b
  dDG_eq : s1.sDG_i_1_j_1 a = s2.sDG_i_1_j_1 b

/-- The same engine with the alignment mode set to `loc`. -/
def withMode (v : Viterbi F) (loc : Bool) : Viterbi F := { v with local_mode := loc }

/-- Lane `k` of every score held by the state `sg` is at most that of `sl`, at the same
position of the two loops. -/
structure ScoreLe (k : Lane) (sg sl : KState F) : Prop where
  i_eq : sg.i = sl.i
  j_eq : sg.j = sl.j
  buf_le : ∀ n, sg.sMM_DG_MI_GD_IM_vec n k ≤ sl.sMM_DG_MI_GD_IM_vec n k
  dMM_le : sg.sMM_i_1_j_1 k ≤ sl.sMM_i_1_j_1 k
  dMI_le : sg.sMI_i_1_j_1 k ≤ sl.sMI_i_1_j_1 k
  dIM_le : sg.sIM_i_1_j_1 k ≤ sl.sIM_i_1_j_1 k
  dGD_le : sg.sGD_i_1_j_1 k ≤ sl.sGD_i_1_j_1 k
  dDG_le : sg.sDG_i_1_j_1 k ≤ sl.sDG_i_1_j_1 k
  cMM_le : sg.sMM_i_j k ≤ sl.sMM_i_j k
  score_le : sg.score_vec k ≤ sl.score_vec k

end BestDefs

section TrackDefs

variable {F : Type} [LinearOrderedRing F]

/-- The score that the running maximum compares when it records the coordinates
`(a,b)`: the loop body of cell `(a,b)` records `(i,j) = (a,b)` for `b ≤ Lt`; the check
after row `a` reads `sMM_i_j` of the last cell `(a,Lt)` of the row and records the loop
variable after the loop, `b = Lt + 1`. -/
def evVal (celloff : Bool) (v : Viterbi F) (q t : HMMSimd F)
    (colScore : Nat → Nat → simd_float F) (st0 : KState F) (k : Lane) (a b : Nat) : F :=
  kMM celloff v q t colScore st0 k a (min b t.L)

/-- Coordinates at which a comparison of the running maximum is made in one run: the
cells of every row in local mode, the cells of the last row in global mode, and in
global mode the position `(a, Lt + 1)` of the check after each row. -/
def isEv (loc : Bool) (Lq Lt a b : Nat) : Prop :=
  1 ≤ a ∧ a ≤ Lq ∧ ((1 ≤ b ∧ b ≤ Lt ∧ (loc = true ∨ a = Lq)) ∨ (b = Lt + 1 ∧ loc = false))

/-- Comparisons made when the first `n` rows are done. -/
def seenEvRows (loc : Bool) (Lq Lt n a b : Nat) : Prop :=
  a ≤ n ∧ isEv loc Lq Lt a b

/-- Comparisons made right after the loop body of cell `(i,j)`. -/
def seenEvCell (loc : Bool) (Lq Lt i j a b : Nat) : Prop :=
  (a < i ∧ isEv loc Lq Lt a b) ∨ (a = i ∧ 1 ≤ b ∧ b ≤ j ∧ (loc = true ∨ i = Lq))

/-- What the running best score `s` and the running coordinates `(a,b)` of one lane are,
after the comparisons at the positions selected by `P` with the values `val`: `s` is
the maximum; the coordinates are 32-bit values; they are `(0,0)` while the score is the
initial one; they are the position of the comparison that attains `s` when there is
exactly one such comparison; and they are `(0,0)` when two comparisons attain `s`. -/
structure TrackInv (val : Nat → Nat → F) (bot : F) (P : Nat → Nat → Prop) (s : F)
    (a b : Nat) : Prop where
  best : IsBestOver val bot P s
  a_lt : a < 4294967296
  b_lt : b < 4294967296
  bot_zero : s = bot → a = 0 ∧ b = 0
  unique_pos : ∀ i j, P i j → val i j = s → bot < s →
    (∀ i1 j1, P i1 j1 → val i1 j1 = s → i1 = i ∧ j1 = j) →
    a = i % 4294967296 ∧ b = j % 4294967296
  tie_zero : ∀ i j i1 j1, P i j → val i j = s → P i1 j1 → val i1 j1 = s →
    ¬ (i1 = i ∧ j1 = j) → a = 0 ∧ b = 0

end TrackDefs

/-! ## The command line of `hhsearch` (`hhsearch.cpp`) -/

section CommandLine

/-- A value of a C floating-point variable: a NaN, an infinity or a finite number (every
finite `float` and `double` is a rational; the rounding of decimal literals is not
modelled). -/
inductive CFloat where
  | nan : CFloat
  | ninf : CFloat
  | fin (x : ℚ) : CFloat
  | pinf : CFloat
deriving DecidableEq

/-- The C comparison `a <= b`: false as soon as one operand is a NaN. -/
def CFloat.le : CFloat → CFloat → Bool
  | .nan, _ => false
  | _, .nan => false
  | .ninf, _ => true
  | _, .pinf => true
  | .fin x, .fin y => decide (x ≤ y)
  | .fin _, .ninf => false
  | .pinf, .ninf => false
  | .pinf, .fin _ => false

/-- The C comparison `a < b`: false as soon as one operand is a NaN. -/
def CFloat.lt : CFloat → CFloat → Bool
  | .nan, _ => false
  | _, .nan => false
  | .ninf, .ninf => false
  | .ninf, _ => true
  | .fin x, .fin y => decide (x < y)
  | .fin _, .pinf => true
  | .fin _, .ninf => false
  | .pinf, _ => false

/-- The C comparison `a >= b`. -/
def CFloat.ge (a b : CFloat) : Bool := CFloat.le b a

/-- The C comparison `a > b`. -/
def CFloat.gt (a b : CFloat) : Bool := CFloat.lt b a

/-- The fields of the global `par` that the command-line code below reads or that hold
the file names given on the command line. Assignments to other fields of `par` and to
the verbosity `v` are not modelled. -/
structure Par where
  readdefaultsfile : Bool
  infile : String
  dbfiles : Option String
  outfile : String
  pairwisealisfile : String
  alnfile : String
  hhmfile : String
  psifile : String
  scorefile : String
  alitabfile : String
  clusterfile : String
  exclstr : Option String
  append : Nat
  outformat : Nat
  loc : Nat
  mact : CFloat
  macins : CFloat
deriving DecidableEq

/-- The test `argv[i][0] == '-'`. -/
def startsDash (s : String) : Bool := s.toList.head? == some '-'

/-- The test `!strncmp(s, pat, n)`: the first `n` characters of the two strings agree
(a string that ends earlier agrees only with a string that ends at the same place). -/
def strncmp0 (s pat : String) (n : Nat) : Bool := s.toList.take n == pat.toList.take n

/-- The test `i < argc - 1`: an argument follows `argv[i]`. -/
def hasNext (rest : List String) : Bool := !rest.isEmpty

/-- The argument `argv[i + 1]`. -/
def nextArg (rest : List String) : String := rest.headD ""

/-- The pattern `if (++i >= argc || argv[i][0] == '-') { help(); ...; exit(4); } else
<store argv[i]>`: exit code 4, or the new `par` and the fact that `i` was advanced. -/
def needValue (rest : List String) (store : String → Par) : Except Nat (Par × Bool) :=
  match rest with
  | [] => .error 4
  | b :: _ => if startsDash b then .error 4 else .ok (store b, true)

/-- Body of the loop of `ProcessArguments` (lines 453-806) for `argv[i] = a`, with `rest`
the arguments after it. The result is the exit code of `exit`, or the new value of `par`
together with `true` when the body advanced `i` over `argv[i + 1]`. -/
def argStep (atof : String → CFloat) (par : Par) (a : String) (rest : List String) :
    Except Nat (Par × Bool) :=
  if a == "-i" then needValue rest (fun s => { par with infile := s })
  else if a == "-d" then needValue rest (fun s => { par with dbfiles := some s })
  else if a == "-o" then
    needValue rest (fun s => { par with append := 0, outfile := s })
  else if a == "-Ofas" then
    needValue rest (fun s => { par with append := 0, outformat := 1, pairwisealisfile := s })
  else if a == "-Oa2m" then
    needValue rest (fun s => { par with append := 0, outformat := 2, pairwisealisfile := s })
  else if a == "-Oa3m" then
    needValue rest (fun s => { par with append := 0, outformat := 3, pairwisealisfile := s })
  else if a == "-oa3m" then needValue rest (fun s => { par with alnfile := s })
  else if a == "-ohhm" then needValue rest (fun s => { par with hhmfile := s })
  else if a == "-opsi" then needValue rest (fun s => { par with psifile := s })
  else if a == "-scores" then needValue rest (fun s => { par with scorefile := s })
  else if a == "-atab" || a == "-Aliout" then
    needValue rest (fun s => { par with alitabfile := s })
  else if a == "-h" || a == "-help" then .error 0
  else if a == "-excl" then
    match rest with
    | [] => .error 4
    | b :: _ => .ok ({ par with exclstr := some b }, true)
  else if a == "-v" && hasNext rest && !startsDash (nextArg rest) then .ok (par, true)
  else if a == "-v" then .ok (par, false)
  else if a == "-v0" then .ok (par, false)
  else if a == "-v1" then .ok (par, false)
  else if a == "-p" && hasNext rest then .ok (par, true)
  else if a == "-P" && hasNext rest then .ok (par, true)
  else if a == "-E" && hasNext rest then .ok (par, true)
  else if a == "-b" && hasNext rest then .ok (par, true)
  else if a == "-B" && hasNext rest then .ok (par, true)
  else if a == "-z" && hasNext rest then .ok (par, true)
  else if a == "-Z" && hasNext rest then .ok (par, true)
  else if a == "-e" && hasNext rest then .ok (par, true)
  else if strncmp0 a "-nocons" 7 then .ok (par, false)
  else if strncmp0 a "-nopred" 7 then .ok (par, false)
  else if strncmp0 a "-nodssp" 7 then .ok (par, false)
  else if strncmp0 a "-ssconf" 7 then .ok (par, false)
  else if strncmp0 a "-cons" 5 then .ok (par, false)
  else if strncmp0 a "-mark" 5 then .ok (par, false)
  else if a == "-seq" && hasNext rest then .ok (par, true)
  else if a == "-aliw" && hasNext rest then .ok (par, true)
  else if a == "-id" && hasNext rest then .ok (par, true)
  else if a == "-qid" && hasNext rest then .ok (par, true)
  else if a == "-qsc" && hasNext rest then .ok (par, true)
  else if a == "-cov" && hasNext rest then .ok (par, true)
  else if a == "-diff" && hasNext rest then .ok (par, true)
  else if a == "-neff" && hasNext rest then .ok (par, true)
  else if a == "-Neff" && hasNext rest then .ok (par, true)
  else if a == "-Gonnet" then .ok (par, false)
  else if strncmp0 a "-BLOSUM" 7 || strncmp0 a "-Blosum" 7 then .ok (par, false)
  else if a == "-wg" then .ok (par, false)
  else if a == "-pcm" && hasNext rest then .ok (par, true)
  else if a == "-pca" && hasNext rest then .ok (par, true)
  else if a == "-pcb" && hasNext rest then .ok (par, true)
  else if a == "-pcc" && hasNext rest then .ok (par, true)
  else if a == "-gapb" && hasNext rest then .ok (par, true)
  else if a == "-gapd" && hasNext rest then .ok (par, true)
  else if a == "-gape" && hasNext rest then .ok (par, true)
  else if a == "-gapf" && hasNext rest then .ok (par, true)
  else if a == "-gapg" && hasNext rest then .ok (par, true)
  else if a == "-gaph" && hasNext rest then .ok (par, true)
  else if a == "-gapi" && hasNext rest then .ok (par, true)
  else if a == "-egq" && hasNext rest then .ok (par, true)
  else if a == "-egt" && hasNext rest then .ok (par, true)
  else if a == "-ssgap" then .ok (par, false)
  else if a == "-ssgapd" && hasNext rest then .ok (par, true)
  else if a == "-ssgape" && hasNext rest then .ok (par, true)
  else if a == "-ssgapi" && hasNext rest then .ok (par, true)
  else if a == "-ssm" && hasNext rest then .ok (par, true)
  else if a == "-ssw" && hasNext rest then .ok (par, true)
  else if a == "-ssw_mac" && hasNext rest then .ok (par, true)
  else if a == "-ssa" && hasNext rest then .ok (par, true)
  else if a == "-realign" then .ok (par, false)
  else if a == "-norealign" then .ok (par, false)
  else if a == "-mac" || a == "-MAC" then .ok (par, false)
  else if a == "-map" || a == "-MAP" then .ok (par, false)
  else if a == "-vit" then .ok (par, false)
  else if strncmp0 a "-glo" 3 then
    .ok ({ par with
           loc := 0
           mact := if CFloat.gt par.mact (.fin (35 / 100)) &&
                      CFloat.lt par.mact (.fin (3502 / 10000)) then .fin 0
                   else par.mact }, false)
  else if strncmp0 a "-loc" 4 then .ok ({ par with loc := 1 }, false)
  else if strncmp0 a "-alt" 4 && hasNext rest then .ok (par, true)
  else if a == "-M" && hasNext rest then .ok (par, true)
  else if a == "-cal" then .ok (par, false)
  else if a == "-calm" && hasNext rest then .ok (par, true)
  else if a == "-shift" && hasNext rest then .ok (par, true)
  else if (a == "-mact" || a == "-mapt") && hasNext rest then
    .ok ({ par with mact := atof (nextArg rest) }, true)
  else if a == "-macins" && hasNext rest then
    .ok ({ par with macins := atof (nextArg rest) }, true)
  else if a == "-sc" && hasNext rest then .ok (par, true)
  else if a == "-scwin" && hasNext rest then .ok (par, true)
  else if a == "-maxres" && hasNext rest then .ok (par, true)
  else if strncmp0 a "-cpu" 4 && hasNext rest then .ok (par, true)
  else if a == "-maxmem" && hasNext rest then .ok (par, true)
  else if a == "-corr" && hasNext rest then .ok (par, true)
  else if a == "-ovlp" && hasNext rest then .ok (par, true)
  else if a == "-dbstrlen" && hasNext rest then .ok (par, true)
  else if a == "-tags" then .ok (par, false)
  else if a == "-notags" then .ok (par, false)
  else if strncmp0 a "-idummy" 7 && hasNext rest then .ok (par, true)
  else if strncmp0 a "-premerge" 9 && hasNext rest then .ok (par, true)
  else if strncmp0 a "-fdummy" 7 && hasNext rest then .ok (par, true)
  else if a == "-nocontxt" then .ok (par, false)
  else if a == "-csb" && hasNext rest then .ok (par, true)
  else if a == "-csw" && hasNext rest then .ok (par, true)
  else if a == "-contxt" || a == "-cs" then
    needValue rest (fun s => { par with clusterfile := s })
  else .ok (par, false)

/-- The function `ProcessArguments` on the arguments `argv[1], argv[2], ...`: the exit
code of `exit`, or the value of `par` when the function returns. -/
def ProcessArguments (atof : String → CFloat) : Par → List String → Except Nat Par
  | par, [] => .ok par
  | par, a :: rest =>
    match argStep atof par a rest with
    | .error c => .error c
    | .ok (par1, false) => ProcessArguments atof par1 rest
    | .ok (par1, true) =>
      match rest with
      | [] => .ok par1
      | _ :: rest1 => ProcessArguments atof par1 rest1

/-- The states in which the loop of `ProcessArguments` tests its condition: the value of
`par` and the arguments from `argv[i]` on. -/
def loopHeads (atof : String → CFloat) : Par → List String → List (Par × List String)
  | par, [] => [(par, [])]
  | par, a :: rest =>
    (par, a :: rest) ::
      (match argStep atof par a rest with
       | .error _ => []
       | .ok (par1, false) => loopHeads atof par1 rest
       | .ok (par1, true) =>
         match rest with
         | [] => []
         | _ :: rest1 => loopHeads atof par1 rest1)

/-- The statements of lines 1316-1319, and of lines 1320-1323, on one parameter. -/
def macRange (x : CFloat) : CFloat :=
  if CFloat.ge x (.fin 1) then .fin (999 / 1000)
  else if CFloat.lt x (.fin 0) then .fin 0
  else x

/-- The first loop of `main` (lines 1252-1261), which looks for `-def`; the verbosity
that it also sets is not modelled. -/
def scanDef (par0 : Par) (args : List String) : Par :=
  args.foldl (fun p a => if a == "-def" then { p with readdefaultsfile := true } else p) par0

/-- Lines 1266-1273 of `main`: the optional call of `ProcessArguments` on the arguments
`conf` of the defaults file, then the call on the command line. The result is the exit
code of `exit`, or the value of `par` after parsing. -/
def parsed (atof : String → CFloat) (conf : List String) (par0 : Par)
    (argv : List String) : Except Nat Par :=
  let par1 := scanDef par0 argv.tail
  match (if par1.readdefaultsfile then ProcessArguments atof par1 conf else .ok par1) with
  | .error c => .error c
  | .ok par2 => ProcessArguments atof par2 argv.tail

/-- The function `main` up to the end of the option checks (lines 1252-1323): the exit
code of `exit`, or the value of `par` with which the search goes on. `conf` holds the
arguments that `ReadDefaultsFile` returns. Of the option checks, those on `mact` and
`macins` are modelled. -/
def hhsearchMain (atof : String → CFloat) (conf : List String) (par0 : Par)
    (argv : List String) : Except Nat Par :=
  match parsed atof conf par0 argv with
  | .error c => .error c
  | .ok par3 =>
    if par3.infile == "" then .error 4
    else if par3.dbfiles.isNone then .error 4
    else .ok { par3 with mact := macRange par3.mact, macins := macRange par3.macins }

/-- Values of `par` before `main` runs, for the examples. -/
def exPar0 : Par :=
  { readdefaultsfile := false, infile := "", dbfiles := none, outfile := "",
    pairwisealisfile := "", alnfile := "", hhmfile := "", psifile := "", scorefile := "",
    alitabfile := "", clusterfile := "", exclstr := none, append := 0, outformat := 0,
    loc := 1, mact := .fin (3501 / 10000), macins := .fin 0 }

/-- Values of `atof` on the strings of the examples: `strtod` reads "nan" as a NaN. -/
def exAtof (s : String) : CFloat :=
  if s == "nan" then .nan
  else if s == "2" then .fin 2
  else if s == "0.5" then .fin (1 / 2)
  else if s == "-3" then .fin (-3)
  else .fin 0

end CommandLine

/-! ## Basic facts about the loop bodies -/

section Basic

variable {F : Type} [LinearOrderedRing F]

theorem updateBest_frame (st : KState F) :
    (updateBest st).i = st.i ∧ (updateBest st).j = st.j ∧
    (updateBest st).sMM_DG_MI_GD_IM_vec = st.sMM_DG_MI_GD_IM_vec ∧
    (updateBest st).matrix = st.matrix ∧
    (∀ k, curCell (updateBest st) k = curCell st k) ∧
    (∀ k, diagCell (updateBest st) k = diagCell st k) :=
  ⟨rfl, rfl, rfl, rfl, fun _ => rfl, fun _ => rfl⟩

theorem updateBest_score (st : KState F) (k : Lane) :
    (updateBest st).score_vec k = max (st.sMM_i_j k) (st.score_vec k) := rfl

theorem cellStep_i (celloff : Bool) (v : Viterbi F) (q t : HMMSimd F)
    (colScore : Nat → Nat → simd_float F) (st : KState F) :
    (cellStep celloff v q t colScore st).i = st.i := by
  unfold cellStep
  dsimp only
  split <;> rfl

theorem cellStep_j (celloff : Bool) (v : Viterbi F) (q t : HMMSimd F)
    (colScore : Nat → Nat → simd_float F) (st : KState F) :
    (cellStep celloff v q t colScore st).j = st.j := by
  unfold cellStep
  dsimp only
  split <;> rfl

/-- The score of state MM that the loop body computes, lane `k`. -/
theorem cellStep_sMM (celloff : Bool) (v : Viterbi F) (q t : HMMSimd F)
    (colScore : Nat → Nat → simd_float F) (st : KState F) :
    (cellStep celloff v q t colScore st).sMM_i_j =
      addCellOff celloff
        (simdf32_add (sMM_max6 v q t st)
          (simdf32_add (colScore st.i st.j) (simdf32_set v.shift)))
        (cell_off_float_min_vec celloff v st) := by
  unfold cellStep
  dsimp only
  split <;> rfl

theorem cellStep_buf (celloff : Bool) (v : Viterbi F) (q t : HMMSimd F)
    (colScore : Nat → Nat → simd_float F) (st : KState F) (n : Nat)
    (hn : n < st.j * 5 ∨ st.j * 5 + 5 ≤ n) :
    (cellStep celloff v q t colScore st).sMM_DG_MI_GD_IM_vec n =
      st.sMM_DG_MI_GD_IM_vec n := by
  have h0 : n ≠ st.j * 5 := by omega
  have h1 : n ≠ st.j * 5 + 1 := by omega
  have h2 : n ≠ st.j * 5 + 2 := by omega
  have h3 : n ≠ st.j * 5 + 3 := by omega
  have h4 : n ≠ st.j * 5 + 4 := by omega
  unfold cellStep
  dsimp only
  split <;> simp [updateBest, storeVec, h0, h1, h2, h3, h4]

theorem cellStep_bufCell_other (celloff : Bool) (v : Viterbi F) (q t : HMMSimd F)
    (colScore : Nat → Nat → simd_float F) (st : KState F) (j : Nat) (k : Lane)
    (hj : j ≠ st.j) :
    bufCell (cellStep celloff v q t colScore st).sMM_DG_MI_GD_IM_vec j k =
      bufCell st.sMM_DG_MI_GD_IM_vec j k := by
  have h : ∀ c, c < 5 → (cellStep celloff v q t colScore st).sMM_DG_MI_GD_IM_vec (j * 5 + c)
      = st.sMM_DG_MI_GD_IM_vec (j * 5 + c) := by
    intro c hc
    apply cellStep_buf
    omega
  simp only [bufCell]
  rw [h 0 (by omega), h 1 (by omega), h 2 (by omega), h 3 (by omega), h 4 (by omega)]

theorem cellStep_bufCell_cur (celloff : Bool) (v : Viterbi F) (q t : HMMSimd F)
    (colScore : Nat → Nat → simd_float F) (st : KState F) (k : Lane) :
    bufCell (cellStep celloff v q t colScore st).sMM_DG_MI_GD_IM_vec st.j k =
      curCell (cellStep celloff v q t colScore st) k := by
  unfold cellStep
  dsimp only
  split <;> simp [updateBest, storeVec, bufCell, curCell]

theorem cellStep_diag (celloff : Bool) (v : Viterbi F) (q t : HMMSimd F)
    (colScore : Nat → Nat → simd_float F) (st : KState F) (k : Lane) :
    diagCell (cellStep celloff v q t colScore st) k =
      bufCell st.sMM_DG_MI_GD_IM_vec st.j k := by
  unfold cellStep
  dsimp only
  split <;> rfl

theorem cellStep_gaps (celloff : Bool) (v : Viterbi F) (q t : HMMSimd F)
    (colScore : Nat → Nat → simd_float F) (st : KState F) :
    (cellStep celloff v q t colScore st).sGD_i_j =
      addCellOff celloff (simdf32_max (mm_gd_vec t st) (gd_gd_vec t st))
        (cell_off_float_min_vec celloff v st) ∧
    (cellStep celloff v q t colScore st).sIM_i_j =
      addCellOff celloff (simdf32_max (mm_mm_vec q t st) (im_im_vec q t st))
        (cell_off_float_min_vec celloff v st) ∧
    (cellStep celloff v q t colScore st).sDG_i_j =
      addCellOff celloff (simdf32_max (mm_dg_vec q st) (dg_dg_vec q st))
        (cell_off_float_min_vec celloff v st) ∧
    (cellStep celloff v q t colScore st).sMI_i_j =
      addCellOff celloff (simdf32_max (mm_mi_vec q t st) (mi_mi_vec q t st))
        (cell_off_float_min_vec celloff v st) := by
  unfold cellStep
  dsimp only
  split <;> exact ⟨rfl, rfl, rfl, rfl⟩

/-- Without `VITERBI_CELLOFF`, the five scores the loop body computes are the
recurrence of the specification applied to the diagonal variables and to the cells
`j` and `j-1` of the rolling buffer. -/
theorem cellStep_curCell (v : Viterbi F) (q t : HMMSimd F)
    (colScore : Nat → Nat → simd_float F) (st : KState F) (k : Lane) :
    curCell (cellStep false v q t colScore st) k =
      recCell v q t colScore k st.i st.j (diagCell st k)
        (bufCell st.sMM_DG_MI_GD_IM_vec st.j k)
        (bufCell st.sMM_DG_MI_GD_IM_vec (st.j - 1) k) := by
  obtain ⟨hGD, hIM, hDG, hMI⟩ := cellStep_gaps false v q t colScore st
  simp only [curCell, cellStep_sMM, hGD, hIM, hDG, hMI]
  simp only [recCell, diagCell, bufCell, addCellOff, sMM_max6,
      simdf32_add, simdf32_max, simdf32_set, mm_m2m_m2m_vec, gd_m2m_d2m_vec,
      im_m2m_d2m_vec, dg_m2m_d2m_vec, mi_m2m_d2m_vec, mm_gd_vec, gd_gd_vec, mm_mm_vec,
      im_im_vec, mm_dg_vec, dg_dg_vec, mm_mi_vec, mi_mi_vec, sMM_j_1, sGD_j_1, sIM_j_1,
      sMM_j, sDG_j, sMI_j, q_m2m, q_m2d, q_d2m, q_d2d, q_i2m, q_i2i, q_m2i, t_m2m, t_m2d,
      t_d2m, t_d2d, t_i2m, t_i2i, t_m2i, M2M, M2D, D2M, D2D, I2M, I2I, M2I, Sij, max_assoc,
      Bool.false_eq_true, if_false]

end Basic

/-! ## Loop counters -/

section Loops

variable {F : Type} [LinearOrderedRing F]

theorem forLoop_j_j (body : KState F → KState F) (hb : ∀ s, (body s).j = s.j)
    (start n : Nat) (st : KState F) : (forLoop_j body start n st).j = start + n := by
  induction n with
  | zero => rfl
  | succ n ih =>
    show (body (forLoop_j body start n st)).j + 1 = start + (n + 1)
    rw [hb, ih]
    omega

theorem forLoop_j_i (body : KState F → KState F) (hb : ∀ s, (body s).i = s.i)
    (start n : Nat) (st : KState F) : (forLoop_j body start n st).i = st.i := by
  induction n with
  | zero => rfl
  | succ n ih =>
    show (body (forLoop_j body start n st)).i = st.i
    rw [hb, ih]

theorem forLoop_i_i (body : KState F → KState F) (hb : ∀ s, (body s).i = s.i)
    (start n : Nat) (st : KState F) : (forLoop_i body start n st).i = start + n := by
  induction n with
  | zero => rfl
  | succ n ih =>
    show (body (forLoop_i body start n st)).i + 1 = start + (n + 1)
    rw [hb, ih]
    omega

theorem rowBody_i (celloff : Bool) (v : Viterbi F) (q t : HMMSimd F)
    (colScore : Nat → Nat → simd_float F) (st : KState F) :
    (rowBody celloff v q t colScore st).i = st.i := by
  unfold rowBody
  dsimp only
  have h : (forLoop_j (cellStep celloff v q t colScore) 1 t.L (rowInit v st)).i = st.i :=
    forLoop_j_i _ (cellStep_i celloff v q t colScore) 1 t.L (rowInit v st)
  split
  · exact h
  · exact h

theorem afterRows_i (celloff : Bool) (v : Viterbi F) (q t : HMMSimd F)
    (colScore : Nat → Nat → simd_float F) (st0 : KState F) (n : Nat) :
    (afterRows celloff v q t colScore st0 n).i = n + 1 := by
  unfold afterRows
  rw [forLoop_i_i _ (rowBody_i celloff v q t colScore)]
  omega

theorem afterRows_succ (celloff : Bool) (v : Viterbi F) (q t : HMMSimd F)
    (colScore : Nat → Nat → simd_float F) (st0 : KState F) (n : Nat) :
    afterRows celloff v q t colScore st0 (n + 1) =
      { rowBody celloff v q t colScore (afterRows celloff v q t colScore st0 n) with
        i := (rowBody celloff v q t colScore (afterRows celloff v q t colScore st0 n)).i + 1 } :=
  rfl

/-- The body of the loop over `i`, seen from the state after the last cell of the row. -/
theorem rowBody_eq (celloff : Bool) (v : Viterbi F) (q t : HMMSimd F)
    (colScore : Nat → Nat → simd_float F) (st0 : KState F) (n : Nat) :
    rowBody celloff v q t colScore (afterRows celloff v q t colScore st0 n) =
      if !v.local_mode then updateBest (stateAtCell celloff v q t colScore st0 (n + 1) t.L)
      else stateAtCell celloff v q t colScore st0 (n + 1) t.L := rfl

theorem stateAtCell_succ (celloff : Bool) (v : Viterbi F) (q t : HMMSimd F)
    (colScore : Nat → Nat → simd_float F) (st0 : KState F) (i j : Nat) :
    stateAtCell celloff v q t colScore st0 i (j + 1) =
      { cellStep celloff v q t colScore (stateAtCell celloff v q t colScore st0 i j) with
        j := (cellStep celloff v q t colScore
                (stateAtCell celloff v q t colScore st0 i j)).j + 1 } := rfl

theorem stateAtCell_zero (celloff : Bool) (v : Viterbi F) (q t : HMMSimd F)
    (colScore : Nat → Nat → simd_float F) (st0 : KState F) (i : Nat) :
    stateAtCell celloff v q t colScore st0 i 0 =
      { stateAtRowStart celloff v q t colScore st0 i with j := 1 } := rfl

theorem stateAtCell_ij (celloff : Bool) (v : Viterbi F) (q t : HMMSimd F)
    (colScore : Nat → Nat → simd_float F) (st0 : KState F) (i j : Nat) (hi : 1 ≤ i) :
    (stateAtCell celloff v q t colScore st0 i j).i = i ∧
    (stateAtCell celloff v q t colScore st0 i j).j = j + 1 := by
  constructor
  · unfold stateAtCell
    rw [forLoop_j_i _ (cellStep_i celloff v q t colScore)]
    show (afterRows celloff v q t colScore st0 (i - 1)).i = i
    rw [afterRows_i]
    omega
  · unfold stateAtCell
    rw [forLoop_j_j _ (cellStep_j celloff v q t colScore)]
    omega

/-- The top-row loop changes only `j` and the rolling buffer, and leaves the boundary
row in the buffer. -/
theorem forLoop_topRow (v : Viterbi F) (st : KState F) (n : Nat) :
    ∃ buf : Nat → simd_float F,
      forLoop_j (topRowBody v) 0 n st = { st with j := n, sMM_DG_MI_GD_IM_vec := buf } ∧
      ∀ (k : Lane) (j : Nat), j < n →
        bufCell buf j k =
          boundaryCell v (((-(j : Int) : Int) : F) * v.penalty_gap_template) := by
  induction n with
  | zero => exact ⟨st.sMM_DG_MI_GD_IM_vec, rfl, fun _ j hj => absurd hj (Nat.not_lt_zero j)⟩
  | succ n ih =>
    obtain ⟨buf, hst, hbuf⟩ := ih
    refine ⟨(topRowBody v { st with j := n, sMM_DG_MI_GD_IM_vec := buf }).sMM_DG_MI_GD_IM_vec,
      ?_, ?_⟩
    · show ({ topRowBody v (forLoop_j (topRowBody v) 0 n st) with
              j := (topRowBody v (forLoop_j (topRowBody v) 0 n st)).j + 1 } : KState F) = _
      rw [hst]
      rfl
    · intro k j hj
      by_cases hjn : j = n
      · subst hjn
        simp [topRowBody, storeVec, bufCell, boundaryCell, simdf32_set]
      · have hlt : j < n := by omega
        rw [← hbuf k j hlt]
        have h0 : j * 5 ≠ n * 5 := by omega
        have h1 : j * 5 ≠ n * 5 + 1 := by omega
        have h2 : j * 5 ≠ n * 5 + 2 := by omega
        have h3 : j * 5 ≠ n * 5 + 3 := by omega
        have h4 : j * 5 ≠ n * 5 + 4 := by omega
        have g1 : ∀ c, c < 5 → j * 5 + c ≠ n * 5 := by omega
        have g2 : ∀ c, c < 5 → j * 5 + c ≠ n * 5 + 1 := by omega
        have g3 : ∀ c, c < 5 → j * 5 + c ≠ n * 5 + 2 := by omega
        have g4 : ∀ c, c < 5 → j * 5 + c ≠ n * 5 + 3 := by omega
        have g5 : ∀ c, c < 5 → j * 5 + c ≠ n * 5 + 4 := by omega
        simp [topRowBody, storeVec, bufCell, h0, h1, h2, h3, h4,
          g1 1, g1 2, g1 3, g1 4, g2 1, g2 2, g2 3, g2 4, g3 1, g3 2, g3 3, g3 4,
          g4 1, g4 2, g4 3, g4 4, g5 1, g5 2, g5 3, g5 4]

end Loops

/-! ## The rolling buffer holds the full matrix -/

section Refinement

variable {F : Type} [LinearOrderedRing F]

theorem afterTopRow_bufCell (v : Viterbi F) (t : HMMSimd F) (st0 : KState F) (k : Lane)
    (j : Nat) (hj : j ≤ t.L) :
    bufCell (afterTopRow v t st0).sMM_DG_MI_GD_IM_vec j k =
      boundaryCell v (((-(j : Int) : Int) : F) * v.penalty_gap_template) := by
  obtain ⟨buf, hst, hbuf⟩ := forLoop_topRow v (declInit v st0) (t.L + 1)
  unfold afterTopRow
  rw [hst]
  exact hbuf k j (by omega)

theorem rowInit_bufCell_zero (v : Viterbi F) (st : KState F) (k : Lane) :
    bufCell (rowInit v st).sMM_DG_MI_GD_IM_vec 0 k =
      boundaryCell v (((-(st.i : Int) : Int) : F) * v.penalty_gap_query) := by
  simp [rowInit, storeVec, bufCell, boundaryCell, simdf32_set]

theorem bufCell_storeVec (buf : Nat → simd_float F) (idx : Nat) (x : simd_float F)
    (j : Nat) (k : Lane) (h : idx < j * 5 ∨ j * 5 + 5 ≤ idx) :
    bufCell (storeVec buf idx x) j k = bufCell buf j k := by
  have e : ∀ c, c < 5 → storeVec buf idx x (j * 5 + c) = buf (j * 5 + c) :=
    fun c hc => if_neg (by omega)
  simp only [bufCell]
  rw [e 0 (by omega), e 1 (by omega), e 2 (by omega), e 3 (by omega), e 4 (by omega)]

theorem rowInit_bufCell_pos (v : Viterbi F) (st : KState F) (k : Lane) (j : Nat)
    (hj : 1 ≤ j) :
    bufCell (rowInit v st).sMM_DG_MI_GD_IM_vec j k = bufCell st.sMM_DG_MI_GD_IM_vec j k := by
  simp only [rowInit]
  rw [bufCell_storeVec _ _ _ _ _ (by omega), bufCell_storeVec _ _ _ _ _ (by omega),
    bufCell_storeVec _ _ _ _ _ (by omega), bufCell_storeVec _ _ _ _ _ (by omega),
    bufCell_storeVec _ _ _ _ _ (by omega)]

theorem rowInit_diagCell (v : Viterbi F) (st : KState F) (k : Lane) :
    diagCell (rowInit v st) k =
      boundaryCell v (((-((st.i : Int) - 1) : Int) : F) * v.penalty_gap_query) := rfl

/-- The cell `(i,0)` of the full matrix as the row initialisation computes cell
`(i-1,0)`: for `i = 0` both boundary formulas give zero. -/
theorem fullMatrix_col_zero (v : Viterbi F) (q t : HMMSimd F)
    (colScore : Nat → Nat → simd_float F) (k : Lane) (i : Nat) :
    fullMatrix v q t colScore k i 0 =
      boundaryCell v (((-(i : Int) : Int) : F) * v.penalty_gap_query) := by
  cases i with
  | zero => simp [fullMatrix]
  | succ n => rfl

/-- Invariant of the loop over `j` in row `i+1`, given that the buffer held row `i` of
the full matrix when the row started. -/
theorem row_invariant (v : Viterbi F) (q t : HMMSimd F)
    (colScore : Nat → Nat → simd_float F) (st0 : KState F) (k : Lane) (i : Nat)
    (hprev : ∀ j, j ≤ t.L →
      bufCell (afterRows false v q t colScore st0 i).sMM_DG_MI_GD_IM_vec j k =
        fullMatrix v q t colScore k i j)
    (j : Nat) (hj : j ≤ t.L) :
    (∀ j1, j1 ≤ j →
      bufCell (stateAtCell false v q t colScore st0 (i + 1) j).sMM_DG_MI_GD_IM_vec j1 k =
        fullMatrix v q t colScore k (i + 1) j1) ∧
    (∀ j1, j < j1 → j1 ≤ t.L →
      bufCell (stateAtCell false v q t colScore st0 (i + 1) j).sMM_DG_MI_GD_IM_vec j1 k =
        fullMatrix v q t colScore k i j1) ∧
    diagCell (stateAtCell false v q t colScore st0 (i + 1) j) k =
      fullMatrix v q t colScore k i j ∧
    (1 ≤ j → curCell (stateAtCell false v q t colScore st0 (i + 1) j) k =
      fullMatrix v q t colScore k (i + 1) j) := by
  induction j with
  | zero =>
    have hi : (afterRows false v q t colScore st0 i).i = i + 1 := afterRows_i _ _ _ _ _ _ _
    rw [stateAtCell_zero]
    refine ⟨?_, ?_, ?_, ?_⟩
    · intro j1 hj1
      have : j1 = 0 := by omega
      subst this
      show bufCell (rowInit v (afterRows false v q t colScore st0 (i + 1 - 1))).sMM_DG_MI_GD_IM_vec
        0 k = _
      rw [rowInit_bufCell_zero, Nat.add_sub_cancel, hi]
      rfl
    · intro j1 h1 h2
      show bufCell (rowInit v (afterRows false v q t colScore st0 (i + 1 - 1))).sMM_DG_MI_GD_IM_vec
        j1 k = _
      rw [rowInit_bufCell_pos v _ k j1 (by omega), Nat.add_sub_cancel]
      exact hprev j1 h2
    · show diagCell (rowInit v (afterRows false v q t colScore st0 (i + 1 - 1))) k = _
      have e : (-(((i + 1 : Nat) : Int) - 1) : Int) = -(i : Int) := by
        push_cast
        ring
      rw [rowInit_diagCell, Nat.add_sub_cancel, hi, fullMatrix_col_zero, e]
    · intro h
      omega
  | succ j ih =>
    obtain ⟨ih1, ih2, ih3, _⟩ := ih (by omega)
    obtain ⟨hsi, hsj⟩ := stateAtCell_ij false v q t colScore st0 (i + 1) j (by omega)
    rw [stateAtCell_succ]
    have hcur : curCell (cellStep false v q t colScore
        (stateAtCell false v q t colScore st0 (i + 1) j)) k =
        fullMatrix v q t colScore k (i + 1) (j + 1) := by
      rw [cellStep_curCell, hsi, hsj, ih3, ih2 (j + 1) (by omega) hj, Nat.add_sub_cancel,
        ih1 j (le_refl j)]
      rfl
    refine ⟨?_, ?_, ?_, ?_⟩
    · intro j1 hj1
      show bufCell (cellStep false v q t colScore
        (stateAtCell false v q t colScore st0 (i + 1) j)).sMM_DG_MI_GD_IM_vec j1 k = _
      by_cases h : j1 = j + 1
      · subst h
        have := cellStep_bufCell_cur false v q t colScore
          (stateAtCell false v q t colScore st0 (i + 1) j) k
        rw [hsj] at this
        rw [this, hcur]
      · rw [cellStep_bufCell_other _ _ _ _ _ _ _ _ (by rw [hsj]; exact h)]
        exact ih1 j1 (by omega)
    · intro j1 h1 h2
      show bufCell (cellStep false v q t colScore
        (stateAtCell false v q t colScore st0 (i + 1) j)).sMM_DG_MI_GD_IM_vec j1 k = _
      rw [cellStep_bufCell_other _ _ _ _ _ _ _ _ (by rw [hsj]; omega)]
      exact ih2 j1 (by omega) h2
    · show diagCell (cellStep false v q t colScore
        (stateAtCell false v q t colScore st0 (i + 1) j)) k = _
      rw [cellStep_diag, hsj]
      exact ih2 (j + 1) (by omega) hj
    · intro _
      exact hcur

/-- After `n` rows the rolling buffer holds row `n` of the full matrix. -/
theorem afterRows_bufCell (v : Viterbi F) (q t : HMMSimd F)
    (colScore : Nat → Nat → simd_float F) (st0 : KState F) (k : Lane) (n : Nat) :
    ∀ j, j ≤ t.L →
      bufCell (afterRows false v q t colScore st0 n).sMM_DG_MI_GD_IM_vec j k =
        fullMatrix v q t colScore k n j := by
  induction n with
  | zero =>
    intro j hj
    exact afterTopRow_bufCell v t st0 k j hj
  | succ n ih =>
    intro j hj
    have h := (row_invariant v q t colScore st0 k n ih t.L (le_refl _)).1 j hj
    rw [afterRows_succ, rowBody_eq]
    show bufCell (if (!v.local_mode) = true then
        updateBest (stateAtCell false v q t colScore st0 (n + 1) t.L)
      else stateAtCell false v q t colScore st0 (n + 1) t.L).sMM_DG_MI_GD_IM_vec j k = _
    split
    · exact h
    · exact h

/-- The scores of cell `(i,j)` computed by the kernel without `VITERBI_CELLOFF` are
those of the full matrix, and so are the values it finds in the rolling buffer. -/
theorem kernel_eq_fullMatrix (v : Viterbi F) (q t : HMMSimd F)
    (colScore : Nat → Nat → simd_float F) (st0 : KState F) (k : Lane) (i j : Nat)
    (hi : 1 ≤ i) (hj : j ≤ t.L) :
    (∀ j1, j1 ≤ j →
      bufCell (stateAtCell false v q t colScore st0 i j).sMM_DG_MI_GD_IM_vec j1 k =
        fullMatrix v q t colScore k i j1) ∧
    (∀ j1, j < j1 → j1 ≤ t.L →
      bufCell (stateAtCell false v q t colScore st0 i j).sMM_DG_MI_GD_IM_vec j1 k =
        fullMatrix v q t colScore k (i - 1) j1) ∧
    diagCell (stateAtCell false v q t colScore st0 i j) k =
      fullMatrix v q t colScore k (i - 1) j ∧
    (1 ≤ j → curCell (stateAtCell false v q t colScore st0 i j) k =
      fullMatrix v q t colScore k i j) := by
  obtain ⟨n, rfl⟩ : ∃ n, i = n + 1 := ⟨i - 1, by omega⟩
  exact row_invariant v q t colScore st0 k n (afterRows_bufCell v q t colScore st0 k n) j hj

end Refinement

/-! ## Claims on the recurrence and on the boundary -/

section RecurrenceClaims

variable {F : Type} [LinearOrderedRing F]

/-- C1: for `1 ≤ i ≤ Lq`, `1 ≤ j ≤ Lt` and every lane `k`, the MM score that the kernel
(`AlignWithOutCellOff`) holds in `sMM_i_j` after the loop body of cell `(i,j)`, and
stores in the rolling row buffer, is the MM score of the full matrix, which obeys
`MM(i,j) = max(smin, MM(i-1,j-1)+q.M2M[i-1]+t.M2M[j-1], GD(i-1,j-1)+q.M2M[i-1]+t.D2M[j-1],
IM(i-1,j-1)+q.I2M[i-1]+t.M2M[j-1], DG(i-1,j-1)+q.D2M[i-1]+t.M2M[j-1],
MI(i-1,j-1)+q.M2M[i-1]+t.I2M[j-1]) + S(i,j)`, with `smin = 0` in local mode and
`-FLT_MAX` in global mode and `S(i,j)` the column score plus the shift. -/
theorem C1_mm_recurrence (v : Viterbi F) (q t : HMMSimd F)
    (colScore : Nat → Nat → simd_float F) (st0 : KState F) (k : Lane) (i j : Nat)
    (hi1 : 1 ≤ i) (_hi2 : i ≤ q.L) (hj1 : 1 ≤ j) (hj2 : j ≤ t.L) :
    (stateAtCell false v q t colScore st0 i j).sMM_i_j k =
        (fullMatrix v q t colScore k i j).MM ∧
    (stateAtCell false v q t colScore st0 i j).sMM_DG_MI_GD_IM_vec (j * 5 + 0) k =
        (fullMatrix v q t colScore k i j).MM ∧
    (fullMatrix v q t colScore k i j).MM =
      max (smin v)
        (max ((fullMatrix v q t colScore k (i - 1) (j - 1)).MM
                + M2M q (i - 1) k + M2M t (j - 1) k)
        (max ((fullMatrix v q t colScore k (i - 1) (j - 1)).GD
                + M2M q (i - 1) k + D2M t (j - 1) k)
        (max ((fullMatrix v q t colScore k (i - 1) (j - 1)).IM
                + I2M q (i - 1) k + M2M t (j - 1) k)
        (max ((fullMatrix v q t colScore k (i - 1) (j - 1)).DG
                + D2M q (i - 1) k + M2M t (j - 1) k)
             ((fullMatrix v q t colScore k (i - 1) (j - 1)).MI
                + M2M q (i - 1) k + I2M t (j - 1) k)))))
      + (colScore i j k + v.shift) ∧
    smin v = (if v.local_mode then 0 else -v.FLT_MAX) := by
  obtain ⟨h1, _, _, h4⟩ := kernel_eq_fullMatrix v q t colScore st0 k i j hi1 hj2
  refine ⟨congrArg Cell5.MM (h4 hj1), congrArg Cell5.MM (h1 j (le_refl j)), ?_, rfl⟩
  obtain ⟨a, rfl⟩ : ∃ a, i = a + 1 := ⟨i - 1, by omega⟩
  obtain ⟨b, rfl⟩ : ∃ b, j = b + 1 := ⟨j - 1, by omega⟩
  rfl

/-- C1 at cell `(1,1)` of lane 0 of a 3 x 3 instance over the integers. -/
theorem C1_mm_recurrence_witness :
    1 ≤ 1 ∧ 1 ≤ (exHMM 3).L ∧
    (stateAtCell false (exViterbi true) (exHMM 3) (exHMM 3) exDiag exState0 1 1).sMM_i_j 0 =
      (fullMatrix (exViterbi true) (exHMM 3) (exHMM 3) exDiag 0 1 1).MM :=
  ⟨by decide, by decide,
    (C1_mm_recurrence (exViterbi true) (exHMM 3) (exHMM 3) exDiag exState0 0 1 1
      (by decide) (by decide) (by decide) (by decide)).1⟩

/-- C2: for `1 ≤ i ≤ Lq`, `1 ≤ j ≤ Lt` and every lane, the scores of GD, IM, DG and MI
that the kernel computes at cell `(i,j)` are those of the full matrix, which obey the
two-way recurrences `GD(i,j) = max(MM(i,j-1)+t.M2D[j-1], GD(i,j-1)+t.D2D[j-1])`,
`IM(i,j) = max(MM(i,j-1)+q.M2I[i]+t.M2M[j-1], IM(i,j-1)+q.I2I[i]+t.M2M[j-1])`,
`DG(i,j) = max(MM(i-1,j)+q.M2D[i-1], DG(i-1,j)+q.D2D[i-1])`,
`MI(i,j) = max(MM(i-1,j)+q.M2M[i-1]+t.M2I[j], MI(i-1,j)+q.M2M[i-1]+t.I2I[j])` (each state
is reached from MM or from itself only); the values the loop body reads from the
rolling buffer at column `j-1` are those of row `i`, the values it reads at column `j`
are those of row `i-1`. -/
theorem C2_gap_recurrences (v : Viterbi F) (q t : HMMSimd F)
    (colScore : Nat → Nat → simd_float F) (st0 : KState F) (k : Lane) (i j : Nat)
    (hi1 : 1 ≤ i) (_hi2 : i ≤ q.L) (hj1 : 1 ≤ j) (hj2 : j ≤ t.L) :
    ((stateAtCell false v q t colScore st0 i j).sGD_i_j k =
        (fullMatrix v q t colScore k i j).GD ∧
     (stateAtCell false v q t colScore st0 i j).sIM_i_j k =
        (fullMatrix v q t colScore k i j).IM ∧
     (stateAtCell false v q t colScore st0 i j).sDG_i_j k =
        (fullMatrix v q t colScore k i j).DG ∧
     (stateAtCell false v q t colScore st0 i j).sMI_i_j k =
        (fullMatrix v q t colScore k i j).MI) ∧
    ((fullMatrix v q t colScore k i j).GD =
        max ((fullMatrix v q t colScore k i (j - 1)).MM + M2D t (j - 1) k)
            ((fullMatrix v q t colScore k i (j - 1)).GD + D2D t (j - 1) k) ∧
     (fullMatrix v q t colScore k i j).IM =
        max ((fullMatrix v q t colScore k i (j - 1)).MM + M2I q i k + M2M t (j - 1) k)
            ((fullMatrix v q t colScore k i (j - 1)).IM + I2I q i k + M2M t (j - 1) k) ∧
     (fullMatrix v q t colScore k i j).DG =
        max ((fullMatrix v q t colScore k (i - 1) j).MM + M2D q (i - 1) k)
            ((fullMatrix v q t colScore k (i - 1) j).DG + D2D q (i - 1) k) ∧
     (fullMatrix v q t colScore k i j).MI =
        max ((fullMatrix v q t colScore k (i - 1) j).MM + M2M q (i - 1) k + M2I t j k)
            ((fullMatrix v q t colScore k (i - 1) j).MI + M2M q (i - 1) k + I2I t j k)) ∧
    (sMM_j_1 (stateAtCell false v q t colScore st0 i (j - 1)) k =
        (fullMatrix v q t colScore k i (j - 1)).MM ∧
     sGD_j_1 (stateAtCell false v q t colScore st0 i (j - 1)) k =
        (fullMatrix v q t colScore k i (j - 1)).GD ∧
     sIM_j_1 (stateAtCell false v q t colScore st0 i (j - 1)) k =
        (fullMatrix v q t colScore k i (j - 1)).IM ∧
     sMM_j (stateAtCell false v q t colScore st0 i (j - 1)) k =
        (fullMatrix v q t colScore k (i - 1) j).MM ∧
     sDG_j (stateAtCell false v q t colScore st0 i (j - 1)) k =
        (fullMatrix v q t colScore k (i - 1) j).DG ∧
     sMI_j (stateAtCell false v q t colScore st0 i (j - 1)) k =
        (fullMatrix v q t colScore k (i - 1) j).MI) := by
  obtain ⟨_, _, _, h4⟩ := kernel_eq_fullMatrix v q t colScore st0 k i j hi1 hj2
  obtain ⟨g1, g2, _, _⟩ :=
    kernel_eq_fullMatrix v q t colScore st0 k i (j - 1) hi1 (by omega)
  obtain ⟨_, hsj⟩ := stateAtCell_ij false v q t colScore st0 i (j - 1) hi1
  have hl := g1 (j - 1) (le_refl _)
  have hu := g2 j (by omega) hj2
  have e1 : (stateAtCell false v q t colScore st0 i (j - 1)).j - 1 = j - 1 := by
    rw [hsj]
    omega
  have e2 : (stateAtCell false v q t colScore st0 i (j - 1)).j = j := by
    rw [hsj]
    omega
  refine ⟨⟨congrArg Cell5.GD (h4 hj1), congrArg Cell5.IM (h4 hj1),
    congrArg Cell5.DG (h4 hj1), congrArg Cell5.MI (h4 hj1)⟩, ?_, ?_⟩
  · obtain ⟨a, rfl⟩ : ∃ a, i = a + 1 := ⟨i - 1, by omega⟩
    obtain ⟨b, rfl⟩ : ∃ b, j = b + 1 := ⟨j - 1, by omega⟩
    exact ⟨rfl, rfl, rfl, rfl⟩
  · unfold sMM_j_1 sGD_j_1 sIM_j_1 sMM_j sDG_j sMI_j
    rw [e1, e2]
    exact ⟨congrArg Cell5.MM hl, congrArg Cell5.GD hl, congrArg Cell5.IM hl,
      congrArg Cell5.MM hu, congrArg Cell5.DG hu, congrArg Cell5.MI hu⟩

/-- C2 at cell `(2,3)` of lane 1 of a 3 x 3 instance over the integers. -/
theorem C2_gap_recurrences_witness :
    1 ≤ 2 ∧ 2 ≤ (exHMM 3).L ∧ 1 ≤ 3 ∧ 3 ≤ (exHMM 3).L ∧
    (stateAtCell false (exViterbi false) (exHMM 3) (exHMM 3) exDiag exState0 2 3).sGD_i_j 1 =
      (fullMatrix (exViterbi false) (exHMM 3) (exHMM 3) exDiag 1 2 3).GD :=
  ⟨by decide, by decide, by decide, by decide,
    (C2_gap_recurrences (exViterbi false) (exHMM 3) (exHMM 3) exDiag exState0 1 2 3
      (by decide) (by decide) (by decide) (by decide)).1.1⟩

/-- C3: boundary initialisation, in both modes and in both compiled variants. After
the top-row loop, cell `j` of the buffer (`0 ≤ j ≤ Lt`) holds `MM(0,j) =
-j*penalty_gap_template` and `-FLT_MAX` in DG, MI, GD and IM; this includes the
column-0 cell of row 0, whose MM score is also `-0*penalty_gap_query`. At the start of
every row `i` (`1 ≤ i ≤ Lq`) cell 0 of the buffer holds `MM(i,0) = -i*penalty_gap_query`
and `-FLT_MAX` in the four other states (read by the recurrence at `(i,1)`), and the
diagonal variables hold `MM(i-1,0) = -(i-1)*penalty_gap_query` and `-FLT_MAX` (read by
the recurrence at `(i,1)`, that is the column-0 value of the row before). -/
theorem C3_boundary_init (celloff : Bool) (v : Viterbi F) (q t : HMMSimd F)
    (colScore : Nat → Nat → simd_float F) (st0 : KState F) (k : Lane) :
    (∀ j, j ≤ t.L →
      bufCell (afterTopRow v t st0).sMM_DG_MI_GD_IM_vec j k =
        { MM := -(j : F) * v.penalty_gap_template, DG := -v.FLT_MAX, MI := -v.FLT_MAX,
          GD := -v.FLT_MAX, IM := -v.FLT_MAX }) ∧
    bufCell (afterTopRow v t st0).sMM_DG_MI_GD_IM_vec 0 k =
        { MM := -((0 : Nat) : F) * v.penalty_gap_query, DG := -v.FLT_MAX, MI := -v.FLT_MAX,
          GD := -v.FLT_MAX, IM := -v.FLT_MAX } ∧
    (∀ i, 1 ≤ i → i ≤ q.L →
      bufCell (stateAtRowStart celloff v q t colScore st0 i).sMM_DG_MI_GD_IM_vec 0 k =
        { MM := -(i : F) * v.penalty_gap_query, DG := -v.FLT_MAX, MI := -v.FLT_MAX,
          GD := -v.FLT_MAX, IM := -v.FLT_MAX } ∧
      diagCell (stateAtRowStart celloff v q t colScore st0 i) k =
        { MM := -((i - 1 : Nat) : F) * v.penalty_gap_query, DG := -v.FLT_MAX,
          MI := -v.FLT_MAX, GD := -v.FLT_MAX, IM := -v.FLT_MAX }) := by
  refine ⟨?_, ?_, ?_⟩
  · intro j hj
    rw [afterTopRow_bufCell v t st0 k j hj]
    simp [boundaryCell]
  · rw [afterTopRow_bufCell v t st0 k 0 (Nat.zero_le _)]
    simp [boundaryCell]
  · intro i hi1 _
    have hi : (afterRows celloff v q t colScore st0 (i - 1)).i = i := by
      rw [afterRows_i]
      omega
    constructor
    · unfold stateAtRowStart
      rw [rowInit_bufCell_zero, hi]
      simp [boundaryCell]
    · unfold stateAtRowStart
      rw [rowInit_diagCell, hi]
      have e : (((i - 1 : Nat) : Int) : F) = ((i - 1 : Nat) : F) := Int.cast_natCast _
      have e2 : ((i : Int) - 1) = ((i - 1 : Nat) : Int) := by omega
      rw [e2]
      simp [boundaryCell]

/-- C3 at row 2 of lane 0 of a 3 x 3 instance over the integers. -/
theorem C3_boundary_init_witness :
    1 ≤ 2 ∧ 2 ≤ (exHMM 3).L ∧
    bufCell (stateAtRowStart false (exViterbi true) (exHMM 3) (exHMM 3) exDiag exState0
        2).sMM_DG_MI_GD_IM_vec 0 0 =
      { MM := -((2 : Nat) : Int) * (exViterbi true).penalty_gap_query,
        DG := -(exViterbi true).FLT_MAX, MI := -(exViterbi true).FLT_MAX,
        GD := -(exViterbi true).FLT_MAX, IM := -(exViterbi true).FLT_MAX } :=
  ⟨by decide, by decide,
    ((C3_boundary_init false (exViterbi true) (exHMM 3) (exHMM 3) exDiag exState0 0).2.2 2
      (by decide) (by decide)).1⟩

end RecurrenceClaims

/-! ## The running best score -/

section Best

variable {F : Type} [LinearOrderedRing F]

theorem IsBestOver.insert {f : Nat → Nat → F} {bot : F} {P P1 : Nat → Nat → Prop} {x : F}
    (h : IsBestOver f bot P x) (a0 b0 : Nat)
    (hP : ∀ a b, P1 a b ↔ P a b ∨ (a = a0 ∧ b = b0)) :
    IsBestOver f bot P1 (max (f a0 b0) x) := by
  obtain ⟨h1, h2, h3⟩ := h
  refine ⟨le_trans h1 (le_max_right _ _), ?_, ?_⟩
  · intro a b hab
    rcases (hP a b).1 hab with hp | ⟨rfl, rfl⟩
    · exact le_trans (h2 a b hp) (le_max_right _ _)
    · exact le_max_left _ _
  · rcases le_total (f a0 b0) x with hle | hle
    · rw [max_eq_right hle]
      rcases h3 with h3 | ⟨a, b, hp, hx⟩
      · exact Or.inl h3
      · exact Or.inr ⟨a, b, (hP a b).2 (Or.inl hp), hx⟩
    · rw [max_eq_left hle]
      exact Or.inr ⟨a0, b0, (hP a0 b0).2 (Or.inr ⟨rfl, rfl⟩), rfl⟩

theorem IsBestOver.congr {f : Nat → Nat → F} {bot : F} {P P1 : Nat → Nat → Prop} {x : F}
    (h : IsBestOver f bot P x) (hP : ∀ a b, P1 a b ↔ P a b) : IsBestOver f bot P1 x := by
  obtain ⟨h1, h2, h3⟩ := h
  refine ⟨h1, fun a b hab => h2 a b ((hP a b).1 hab), ?_⟩
  rcases h3 with h3 | ⟨a, b, hp, hx⟩
  · exact Or.inl h3
  · exact Or.inr ⟨a, b, (hP a b).2 hp, hx⟩

theorem cellStep_score (celloff : Bool) (v : Viterbi F) (q t : HMMSimd F)
    (colScore : Nat → Nat → simd_float F) (st : KState F) (k : Lane) :
    (cellStep celloff v q t colScore st).score_vec k =
      if v.local_mode = true ∨ st.i = q.L then
        max ((cellStep celloff v q t colScore st).sMM_i_j k) (st.score_vec k)
      else st.score_vec k := by
  by_cases h : v.local_mode = true ∨ st.i = q.L
  · have hb : (v.local_mode || decide (st.i = q.L)) = true := by simpa using h
    rw [if_pos h]
    unfold cellStep
    dsimp only
    rw [if_pos hb]
    rfl
  · have hb : ¬ (v.local_mode || decide (st.i = q.L)) = true := by simpa using h
    rw [if_neg h]
    unfold cellStep
    dsimp only
    rw [if_neg hb]

theorem afterTopRow_score (v : Viterbi F) (t : HMMSimd F) (st0 : KState F) (k : Lane) :
    (afterTopRow v t st0).score_vec k = -v.FLT_MAX := by
  obtain ⟨buf, hst, _⟩ := forLoop_topRow v (declInit v st0) (t.L + 1)
  unfold afterTopRow
  rw [hst]
  rfl

/-- Invariant of the running best score inside row `n+1`. -/
theorem best_invariant_cell (celloff : Bool) (v : Viterbi F) (q t : HMMSimd F)
    (colScore : Nat → Nat → simd_float F) (st0 : KState F) (k : Lane) (n : Nat)
    (_hn : n + 1 ≤ q.L)
    (hrows : IsBestOver (kMM celloff v q t colScore st0 k) (-v.FLT_MAX)
      (seenRows v.local_mode q.L t.L n)
      ((afterRows celloff v q t colScore st0 n).score_vec k))
    (j : Nat) (hj : j ≤ t.L) :
    IsBestOver (kMM celloff v q t colScore st0 k) (-v.FLT_MAX)
      (seenCell v.local_mode q.L t.L (n + 1) j)
      ((stateAtCell celloff v q t colScore st0 (n + 1) j).score_vec k) := by
  induction j with
  | zero =>
    refine IsBestOver.congr hrows ?_
    intro a b
    unfold seenCell seenRows
    constructor
    · rintro (⟨h1, h2⟩ | ⟨_, h3, h4, _⟩)
      · exact ⟨by omega, h2⟩
      · omega
    · rintro ⟨h1, h2⟩
      exact Or.inl ⟨by omega, h2⟩
  | succ j ih =>
    have ih1 := ih (by omega)
    obtain ⟨hsi, hsj⟩ := stateAtCell_ij celloff v q t colScore st0 (n + 1) j (by omega)
    rw [stateAtCell_succ]
    show IsBestOver _ _ _ ((cellStep celloff v q t colScore
      (stateAtCell celloff v q t colScore st0 (n + 1) j)).score_vec k)
    rw [cellStep_score, hsi]
    by_cases hc : v.local_mode = true ∨ n + 1 = q.L
    · rw [if_pos hc]
      have e : (cellStep celloff v q t colScore
          (stateAtCell celloff v q t colScore st0 (n + 1) j)).sMM_i_j k =
          kMM celloff v q t colScore st0 k (n + 1) (j + 1) := rfl
      rw [e]
      refine IsBestOver.insert ih1 (n + 1) (j + 1) ?_
      intro a b
      unfold seenCell
      constructor
      · rintro (h | ⟨h1, h2, h3, h4⟩)
        · exact Or.inl (Or.inl h)
        · by_cases hb : b = j + 1
          · exact Or.inr ⟨h1, hb⟩
          · exact Or.inl (Or.inr ⟨h1, h2, by omega, h4⟩)
      · rintro ((h | ⟨h1, h2, h3, h4⟩) | ⟨h1, h2⟩)
        · exact Or.inl h
        · exact Or.inr ⟨h1, h2, by omega, h4⟩
        · exact Or.inr ⟨h1, by omega, by omega, hc⟩
    · rw [if_neg hc]
      refine IsBestOver.congr ih1 ?_
      intro a b
      unfold seenCell
      constructor
      · rintro (h | ⟨_, _, _, h4⟩)
        · exact Or.inl h
        · exact absurd h4 hc
      · rintro (h | ⟨_, _, _, h4⟩)
        · exact Or.inl h
        · exact absurd h4 hc

/-- Invariant of the running best score after `n` rows: it is the maximum of
`-FLT_MAX` and of the MM scores of the candidate cells of rows `1..n`. In global mode
the template must have a column, so that the check after the row reads a cell. -/
theorem best_invariant_rows (celloff : Bool) (v : Viterbi F) (q t : HMMSimd F)
    (colScore : Nat → Nat → simd_float F) (st0 : KState F) (k : Lane)
    (hLt : v.local_mode = true ∨ 1 ≤ t.L) (n : Nat) (hn : n ≤ q.L) :
    IsBestOver (kMM celloff v q t colScore st0 k) (-v.FLT_MAX)
      (seenRows v.local_mode q.L t.L n)
      ((afterRows celloff v q t colScore st0 n).score_vec k) := by
  induction n with
  | zero =>
    refine ⟨?_, ?_, Or.inl ?_⟩
    · rw [show afterRows celloff v q t colScore st0 0 = { afterTopRow v t st0 with i := 1 }
        from rfl]
      exact le_of_eq (afterTopRow_score v t st0 k).symm
    · intro a b hab
      unfold seenRows isCand at hab
      omega
    · exact afterTopRow_score v t st0 k
  | succ n ih =>
    have hcell := best_invariant_cell celloff v q t colScore st0 k n hn (ih (by omega))
      t.L (le_refl _)
    rw [afterRows_succ, rowBody_eq]
    by_cases hloc : v.local_mode = true
    · have e : (!v.local_mode) = false := by simp [hloc]
      rw [e]
      show IsBestOver _ _ _ ((stateAtCell celloff v q t colScore st0 (n + 1) t.L).score_vec k)
      refine IsBestOver.congr hcell ?_
      intro a b
      unfold seenRows seenCell isCand
      constructor
      · rintro ⟨h1, h2, h3, h4, h5, h6⟩
        by_cases ha : a = n + 1
        · exact Or.inr ⟨ha, h4, h5, Or.inl hloc⟩
        · exact Or.inl ⟨by omega, h2, h3, h4, h5, h6⟩
      · rintro (⟨h1, h2⟩ | ⟨h1, h2, h3, h4⟩)
        · exact ⟨by omega, h2⟩
        · exact ⟨by omega, by omega, by omega, h2, h3, Or.inl hloc⟩
    · have hglob : v.local_mode = false := by simpa using hloc
      have e : (!v.local_mode) = true := by simp [hglob]
      have hL : 1 ≤ t.L := by
        rcases hLt with h | h
        · exact absurd h hloc
        · exact h
      rw [e]
      show IsBestOver _ _ _
        ((updateBest (stateAtCell celloff v q t colScore st0 (n + 1) t.L)).score_vec k)
      rw [updateBest_score]
      have e2 : (stateAtCell celloff v q t colScore st0 (n + 1) t.L).sMM_i_j k =
          kMM celloff v q t colScore st0 k (n + 1) t.L := rfl
      rw [e2]
      refine IsBestOver.insert hcell (n + 1) t.L ?_
      intro a b
      unfold seenRows seenCell isCand
      constructor
      · rintro ⟨h1, h2, h3, h4, h5, h6⟩
        by_cases ha : a = n + 1
        · rcases h6 with h6 | h6 | h6
          · exact absurd h6 hloc
          · exact Or.inl (Or.inr ⟨ha, h4, h5, Or.inr (by omega)⟩)
          · exact Or.inr ⟨ha, h6⟩
        · exact Or.inl (Or.inl ⟨by omega, h2, h3, h4, h5, h6⟩)
      · rintro ((⟨h1, h2⟩ | ⟨h1, h2, h3, h4⟩) | ⟨h1, h2⟩)
        · exact ⟨by omega, h2⟩
        · rcases h4 with h4 | h4
          · exact absurd h4 hloc
          · exact ⟨by omega, by omega, by omega, h2, h3, Or.inr (Or.inl (by omega))⟩
        · exact ⟨by omega, by omega, by omega, by omega, by omega, Or.inr (Or.inr h2)⟩

/-- The result arrays hold the lanes of the final vectors. -/
theorem extractResult_lane (maxres : Nat) (st : KState F) (res0 : ViterbiResult F)
    (k : Lane) (hk : k.val < maxres) :
    (extractResult maxres st res0).score k.val = st.score_vec k ∧
    (extractResult maxres st res0).i k.val = st.i2_vec k ∧
    (extractResult maxres st res0).j k.val = st.j2_vec k := by
  have h : k.val < maxres ∧ k.val < 4 := ⟨hk, k.isLt⟩
  simp [extractResult, h]

end Best

/-! ## Claims on the reported score and coordinates -/

section BestClaims

variable {F : Type} [LinearOrderedRing F]

/-- C4: in local mode, for every lane `k` copied out (`k < maxres`), the best score
reported by `AlignWithOutCellOff` is the maximum of `-FLT_MAX` and of `MM(i,j)` over all
cells `1 ≤ i ≤ Lq`, `1 ≤ j ≤ Lt`: it is at least `-FLT_MAX`, at least every `MM(i,j)`,
and equal to `-FLT_MAX` or to the MM score of one of the cells. -/
theorem C4_local_best (v : Viterbi F) (q t : HMMSimd F)
    (colScore : Nat → Nat → simd_float F) (maxres : Nat) (st0 : KState F)
    (res0 : ViterbiResult F) (k : Lane) (hloc : v.local_mode = true)
    (hk : k.val < maxres) :
    -v.FLT_MAX ≤ (AlignWithOutCellOff v q t colScore maxres st0 res0).1.score k.val ∧
    (∀ i j, 1 ≤ i → i ≤ q.L → 1 ≤ j → j ≤ t.L →
      (fullMatrix v q t colScore k i j).MM ≤
        (AlignWithOutCellOff v q t colScore maxres st0 res0).1.score k.val) ∧
    ((AlignWithOutCellOff v q t colScore maxres st0 res0).1.score k.val = -v.FLT_MAX ∨
      ∃ i j, 1 ≤ i ∧ i ≤ q.L ∧ 1 ≤ j ∧ j ≤ t.L ∧
        (AlignWithOutCellOff v q t colScore maxres st0 res0).1.score k.val =
          (fullMatrix v q t colScore k i j).MM) := by
  have hres : (AlignWithOutCellOff v q t colScore maxres st0 res0).1.score k.val =
      (afterRows false v q t colScore st0 q.L).score_vec k :=
    (extractResult_lane maxres _ res0 k hk).1
  have hMM : ∀ i j, 1 ≤ i → 1 ≤ j → j ≤ t.L →
      kMM false v q t colScore st0 k i j = (fullMatrix v q t colScore k i j).MM :=
    fun i j hi hj1 hj2 =>
      congrArg Cell5.MM ((kernel_eq_fullMatrix v q t colScore st0 k i j hi hj2).2.2.2 hj1)
  obtain ⟨h1, h2, h3⟩ := best_invariant_rows false v q t colScore st0 k (Or.inl hloc) q.L
    (le_refl _)
  rw [hres]
  refine ⟨h1, ?_, ?_⟩
  · intro i j hi1 hi2 hj1 hj2
    rw [← hMM i j hi1 hj1 hj2]
    exact h2 i j ⟨hi2, hi1, hi2, hj1, hj2, Or.inl hloc⟩
  · rcases h3 with h3 | ⟨a, b, ⟨_, ha1, ha2, hb1, hb2, _⟩, hx⟩
    · exact Or.inl h3
    · exact Or.inr ⟨a, b, ha1, ha2, hb1, hb2, by rw [hx, hMM a b ha1 hb1 hb2]⟩

/-- C4 on lane 0 of the local 3 x 3 instance over the integers. -/
theorem C4_local_best_witness :
    (exViterbi true).local_mode = true ∧ (0 : Lane).val < 4 ∧
    -(exViterbi true).FLT_MAX ≤
      (AlignWithOutCellOff (exViterbi true) (exHMM 3) (exHMM 3) exDiag 4 exState0
        exRes0).1.score (0 : Lane).val :=
  ⟨rfl, by decide,
    (C4_local_best (exViterbi true) (exHMM 3) (exHMM 3) exDiag 4 exState0 exRes0 0 rfl
      (by decide)).1⟩

/-- C5: in global mode with `Lq ≥ 1` and `Lt ≥ 1`, for every lane `k` copied out, the
best score reported by `AlignWithOutCellOff` is the maximum of `-FLT_MAX`, of `MM(Lq,j)`
over `1 ≤ j ≤ Lt` and of `MM(i,Lt)` over `1 ≤ i ≤ Lq`: it bounds all of these and is
equal to one of them, so that no other cell contributes. -/
theorem C5_global_best (v : Viterbi F) (q t : HMMSimd F)
    (colScore : Nat → Nat → simd_float F) (maxres : Nat) (st0 : KState F)
    (res0 : ViterbiResult F) (k : Lane) (hglob : v.local_mode = false)
    (hLq : 1 ≤ q.L) (hLt : 1 ≤ t.L) (hk : k.val < maxres) :
    -v.FLT_MAX ≤ (AlignWithOutCellOff v q t colScore maxres st0 res0).1.score k.val ∧
    (∀ j, 1 ≤ j → j ≤ t.L →
      (fullMatrix v q t colScore k q.L j).MM ≤
        (AlignWithOutCellOff v q t colScore maxres st0 res0).1.score k.val) ∧
    (∀ i, 1 ≤ i → i ≤ q.L →
      (fullMatrix v q t colScore k i t.L).MM ≤
        (AlignWithOutCellOff v q t colScore maxres st0 res0).1.score k.val) ∧
    ((AlignWithOutCellOff v q t colScore maxres st0 res0).1.score k.val = -v.FLT_MAX ∨
      (∃ j, 1 ≤ j ∧ j ≤ t.L ∧
        (AlignWithOutCellOff v q t colScore maxres st0 res0).1.score k.val =
          (fullMatrix v q t colScore k q.L j).MM) ∨
      (∃ i, 1 ≤ i ∧ i ≤ q.L ∧
        (AlignWithOutCellOff v q t colScore maxres st0 res0).1.score k.val =
          (fullMatrix v q t colScore k i t.L).MM)) := by
  have hres : (AlignWithOutCellOff v q t colScore maxres st0 res0).1.score k.val =
      (afterRows false v q t colScore st0 q.L).score_vec k :=
    (extractResult_lane maxres _ res0 k hk).1
  have hMM : ∀ i j, 1 ≤ i → 1 ≤ j → j ≤ t.L →
      kMM false v q t colScore st0 k i j = (fullMatrix v q t colScore k i j).MM :=
    fun i j hi hj1 hj2 =>
      congrArg Cell5.MM ((kernel_eq_fullMatrix v q t colScore st0 k i j hi hj2).2.2.2 hj1)
  obtain ⟨h1, h2, h3⟩ := best_invariant_rows false v q t colScore st0 k (Or.inr hLt) q.L
    (le_refl _)
  rw [hres]
  refine ⟨h1, ?_, ?_, ?_⟩
  · intro j hj1 hj2
    rw [← hMM q.L j hLq hj1 hj2]
    exact h2 q.L j ⟨le_refl _, hLq, le_refl _, hj1, hj2, Or.inr (Or.inl rfl)⟩
  · intro i hi1 hi2
    rw [← hMM i t.L hi1 hLt (le_refl _)]
    exact h2 i t.L ⟨hi2, hi1, hi2, hLt, le_refl _, Or.inr (Or.inr rfl)⟩
  · rcases h3 with h3 | ⟨a, b, ⟨_, ha1, ha2, hb1, hb2, hc⟩, hx⟩
    · exact Or.inl h3
    · rw [hMM a b ha1 hb1 hb2] at hx
      rcases hc with hc | hc | hc
      · rw [hglob] at hc
        exact absurd hc (by decide)
      · subst hc
        exact Or.inr (Or.inl ⟨b, hb1, hb2, hx⟩)
      · subst hc
        exact Or.inr (Or.inr ⟨a, ha1, ha2, hx⟩)

/-- C5 on lane 0 of the global 3 x 5 instance over the integers. -/
theorem C5_global_best_witness :
    (exViterbi false).local_mode = false ∧ 1 ≤ (exHMM 3).L ∧ 1 ≤ (exHMM 5).L ∧
    (0 : Lane).val < 4 ∧
    -(exViterbi false).FLT_MAX ≤
      (AlignWithOutCellOff (exViterbi false) (exHMM 3) (exHMM 5) exDiag 4 exState0
        exRes0).1.score (0 : Lane).val :=
  ⟨rfl, by decide, by decide, by decide,
    (C5_global_best (exViterbi false) (exHMM 3) (exHMM 5) exDiag 4 exState0 exRes0 0 rfl
      (by decide) (by decide) (by decide)).1⟩

/-- C6 (the code departs from the claim): local mode, query of length 1, template of
length 2, column score 5 in both cells. `MM(1,1) = MM(1,2) = 5` is the best score and
is reported, but the second cell ties with the running best, neither mask of the
coordinate update selects a value, and the reported coordinates are `(0,0)`, where the
MM score is `0`, not the best score. -/
theorem C6_tie_loses_coordinates :
    (AlignWithOutCellOff (exViterbi true) (exHMM 1) (exHMM 2) exFlat 4 exState0
      exRes0).1.score 0 = 5 ∧
    (AlignWithOutCellOff (exViterbi true) (exHMM 1) (exHMM 2) exFlat 4 exState0
      exRes0).1.i 0 = 0 ∧
    (AlignWithOutCellOff (exViterbi true) (exHMM 1) (exHMM 2) exFlat 4 exState0
      exRes0).1.j 0 = 0 ∧
    (fullMatrix (exViterbi true) (exHMM 1) (exHMM 2) exFlat 0 1 1).MM = 5 ∧
    (fullMatrix (exViterbi true) (exHMM 1) (exHMM 2) exFlat 0 1 2).MM = 5 ∧
    (fullMatrix (exViterbi true) (exHMM 1) (exHMM 2) exFlat 0 0 0).MM = 0 := by
  decide

/-- C7 (the code departs from the claim): global mode, query of length 2, template of
length 1, column score 2 on the diagonal. The best candidate is the last-column cell
`(1,1)` with score 2, and the reported coordinates are `(1,2)`: the column is the value
of the loop variable after the loop, outside the grid, so the cell is neither on the
last row nor on the last column. -/
theorem C7_global_column_out_of_grid :
    (AlignWithOutCellOff (exViterbi false) (exHMM 2) (exHMM 1) exDiag 4 exState0
      exRes0).1.score 0 = 2 ∧
    (AlignWithOutCellOff (exViterbi false) (exHMM 2) (exHMM 1) exDiag 4 exState0
      exRes0).1.i 0 = 1 ∧
    (AlignWithOutCellOff (exViterbi false) (exHMM 2) (exHMM 1) exDiag 4 exState0
      exRes0).1.j 0 = 2 ∧
    (exHMM 2).L = 2 ∧ (exHMM 1).L = 1 ∧
    (fullMatrix (exViterbi false) (exHMM 2) (exHMM 1) exDiag 0 1 1).MM = 2 ∧
    (fullMatrix (exViterbi false) (exHMM 2) (exHMM 1) exDiag 0 2 1).MM = -1 := by
  decide

end BestClaims

/-! ## The backtrace byte -/

section Backtrace

variable {F : Type} [LinearOrderedRing F]

/-- Lane `k` of `byte_result_vec` after the MM code has been selected: the greatest
code among the candidates equal to the maximum, `0` when there is none. -/
theorem byte_result_mm_lane (v : Viterbi F) (q t : HMMSimd F) (st : KState F) (k : Lane) :
    byte_result_mm v q t st k =
      if mi_m2m_d2m_vec q t st k = sMM_max6 v q t st k then 6
      else if dg_m2m_d2m_vec q t st k = sMM_max6 v q t st k then 5
      else if im_m2m_d2m_vec q t st k = sMM_max6 v q t st k then 4
      else if gd_m2m_d2m_vec q t st k = sMM_max6 v q t st k then 3
      else if mm_m2m_m2m_vec q t st k = sMM_max6 v q t st k then 2
      else 0 := by
  simp only [byte_result_mm, simdi_and, simdf32_eq, simdui8_max, simdi_xor, mm_vec, gd_vec,
    im_vec, dg_vec, mi_vec, simdi32_set, Nat.xor_self]
  split_ifs <;> decide

/-- Lane `k` of `byte_result_vec` after the four uses of `MAX2_SET_MASK`. -/
theorem byte_result_all_lane (v : Viterbi F) (q t : HMMSimd F) (st : KState F) (k : Lane) :
    byte_result_all v q t st k =
      byte_result_mm v q t st k
        + (if gd_gd_vec t st k < mm_gd_vec t st k then 8 else 0)
        + (if im_im_vec q t st k < mm_mm_vec q t st k then 16 else 0)
        + (if dg_dg_vec q st k < mm_dg_vec q st k then 32 else 0)
        + (if mi_mi_vec q t st k < mm_mi_vec q t st k then 64 else 0) := by
  simp only [byte_result_all, MAX2_SET_MASK, simdi_and, simdf32_gt, simdi_xor, gd_mm_vec,
    im_mm_vec, dg_mm_vec, mi_mm_vec, simdi32_set]
  rw [byte_result_mm_lane]
  split_ifs <;> decide

theorem byte_result_all_le (v : Viterbi F) (q t : HMMSimd F) (st : KState F) (k : Lane) :
    byte_result_all v q t st k ≤ 126 := by
  rw [byte_result_all_lane, byte_result_mm_lane]
  split_ifs <;> decide

theorem byte_result_mm_le (v : Viterbi F) (q t : HMMSimd F) (st : KState F) (k : Lane) :
    byte_result_mm v q t st k ≤ 6 := by
  rw [byte_result_mm_lane]
  split_ifs <;> decide

/-- The low three bits of the byte are the MM code. -/
theorem byte_low3 (v : Viterbi F) (q t : HMMSimd F) (st : KState F) (k : Lane) :
    byte_result_all v q t st k % 8 = byte_result_mm v q t st k := by
  have hc := byte_result_mm_le v q t st k
  rw [byte_result_all_lane]
  split_ifs <;> omega

theorem byte_bit8 (v : Viterbi F) (q t : HMMSimd F) (st : KState F) (k : Lane) :
    byte_result_all v q t st k / 8 % 2 =
      if gd_gd_vec t st k < mm_gd_vec t st k then 1 else 0 := by
  have hc := byte_result_mm_le v q t st k
  rw [byte_result_all_lane]
  split_ifs <;> omega

theorem byte_bit16 (v : Viterbi F) (q t : HMMSimd F) (st : KState F) (k : Lane) :
    byte_result_all v q t st k / 16 % 2 =
      if im_im_vec q t st k < mm_mm_vec q t st k then 1 else 0 := by
  have hc := byte_result_mm_le v q t st k
  rw [byte_result_all_lane]
  split_ifs <;> omega

theorem byte_bit32 (v : Viterbi F) (q t : HMMSimd F) (st : KState F) (k : Lane) :
    byte_result_all v q t st k / 32 % 2 =
      if dg_dg_vec q st k < mm_dg_vec q st k then 1 else 0 := by
  have hc := byte_result_mm_le v q t st k
  rw [byte_result_all_lane]
  split_ifs <;> omega

theorem byte_bit64 (v : Viterbi F) (q t : HMMSimd F) (st : KState F) (k : Lane) :
    byte_result_all v q t st k / 64 % 2 =
      if mi_mi_vec q t st k < mm_mi_vec q t st k then 1 else 0 := by
  have hc := byte_result_mm_le v q t st k
  rw [byte_result_all_lane]
  split_ifs <;> omega

/-- An open candidate that is strictly greater is the maximum; otherwise the extend
candidate is. -/
theorem bit_names_max (x y : F) (b : Nat) (hb : b = if y < x then 1 else 0) :
    (b = 1 → x = max x y) ∧ (b = 0 → y = max x y) := by
  subst hb
  by_cases h : y < x
  · rw [if_pos h]
    exact ⟨fun _ => (max_eq_left (le_of_lt h)).symm, fun h0 => absurd h0 (by decide)⟩
  · rw [if_neg h]
    exact ⟨fun h1 => absurd h1 (by decide), fun _ => (max_eq_right (not_lt.mp h)).symm⟩

/-- Packing does not saturate on bytes: byte `k` of the stored word is lane `k`. -/
theorem wordByte_packed (x : simd_int) (hx : ∀ k, x k ≤ 255) (k : Lane) :
    wordByte (mm_cvtsi128_si32_packed x) k = x k := by
  have p : ∀ n, n ≤ 255 → packus_epi16_lane (packs_epi32_lane n) = n := by
    intro n hn
    have h1 : packs_epi32_lane n = n := by
      unfold packs_epi32_lane
      rw [if_pos (by omega)]
      omega
    rw [h1]
    unfold packus_epi16_lane
    rw [if_pos (by omega)]
    omega
  unfold mm_cvtsi128_si32_packed wordByte
  rw [p _ (hx 0), p _ (hx 1), p _ (hx 2), p _ (hx 3)]
  have h0 := hx 0
  have h1 := hx 1
  have h2 := hx 2
  have h3 := hx 3
  fin_cases k
  · show (x 0 + 256 * x 1 + 65536 * x 2 + 16777216 * x 3) / 256 ^ 0 % 256 = x 0
    omega
  · show (x 0 + 256 * x 1 + 65536 * x 2 + 16777216 * x 3) / 256 ^ 1 % 256 = x 1
    omega
  · show (x 0 + 256 * x 1 + 65536 * x 2 + 16777216 * x 3) / 256 ^ 2 % 256 = x 2
    omega
  · show (x 0 + 256 * x 1 + 65536 * x 2 + 16777216 * x 3) / 256 ^ 3 % 256 = x 3
    omega

theorem cellStep_matrix (celloff : Bool) (v : Viterbi F) (q t : HMMSimd F)
    (colScore : Nat → Nat → simd_float F) (st : KState F) :
    (cellStep celloff v q t colScore st).matrix =
      storeWord st.matrix st.i st.j (mm_cvtsi128_si32_packed (byte_result_all v q t st)) := by
  unfold cellStep
  dsimp only
  split <;> rfl

/-- Byte `k` of the word that the loop body stores for its cell. -/
theorem cellStep_byte (celloff : Bool) (v : Viterbi F) (q t : HMMSimd F)
    (colScore : Nat → Nat → simd_float F) (st : KState F) (k : Lane) :
    wordByte ((cellStep celloff v q t colScore st).matrix st.i st.j) k =
      byte_result_all v q t st k := by
  rw [cellStep_matrix]
  have e : storeWord st.matrix st.i st.j
      (mm_cvtsi128_si32_packed (byte_result_all v q t st)) st.i st.j =
      mm_cvtsi128_si32_packed (byte_result_all v q t st) := by
    simp [storeWord]
  rw [e]
  exact wordByte_packed _ (fun k => le_trans (byte_result_all_le v q t st k) (by decide)) k

end Backtrace

/-! ## What the backtrace matrix holds when the kernel returns -/

section MatrixFrame

variable {F : Type} [LinearOrderedRing F]

theorem afterTopRow_matrix (v : Viterbi F) (t : HMMSimd F) (st0 : KState F) :
    (afterTopRow v t st0).matrix = st0.matrix := by
  obtain ⟨buf, hst, _⟩ := forLoop_topRow v (declInit v st0) (t.L + 1)
  unfold afterTopRow
  rw [hst]
  rfl

/-- Inside row `n+1`, after the loop body of cell `(n+1,j)`: the cells `1..j` of the row
hold their written word, every other entry is as it was when the row started. -/
theorem stateAtCell_matrix (celloff : Bool) (v : Viterbi F) (q t : HMMSimd F)
    (colScore : Nat → Nat → simd_float F) (st0 : KState F) (n j a b : Nat) :
    (stateAtCell celloff v q t colScore st0 (n + 1) j).matrix a b =
      if a = n + 1 ∧ 1 ≤ b ∧ b ≤ j then writtenWord celloff v q t colScore st0 a b
      else (afterRows celloff v q t colScore st0 n).matrix a b := by
  induction j with
  | zero =>
    rw [if_neg (by omega)]
    rfl
  | succ j ih =>
    obtain ⟨hsi, hsj⟩ := stateAtCell_ij celloff v q t colScore st0 (n + 1) j (by omega)
    rw [stateAtCell_succ]
    show (cellStep celloff v q t colScore
      (stateAtCell celloff v q t colScore st0 (n + 1) j)).matrix a b = _
    rw [cellStep_matrix, hsi, hsj]
    unfold storeWord
    by_cases h : a = n + 1 ∧ b = j + 1
    · rw [if_pos h, if_pos (by omega)]
      obtain ⟨rfl, rfl⟩ := h
      rfl
    · rw [if_neg h, ih]
      by_cases h2 : a = n + 1 ∧ 1 ≤ b ∧ b ≤ j
      · rw [if_pos h2, if_pos (by omega)]
      · rw [if_neg h2, if_neg (by omega)]

/-- After `n` rows every cell `(a,b)` with `1 ≤ a ≤ n`, `1 ≤ b ≤ Lt` holds the word
written by its loop body, and every other entry of the matrix is unchanged. -/
theorem afterRows_matrix (celloff : Bool) (v : Viterbi F) (q t : HMMSimd F)
    (colScore : Nat → Nat → simd_float F) (st0 : KState F) (n a b : Nat) :
    (afterRows celloff v q t colScore st0 n).matrix a b =
      if 1 ≤ a ∧ a ≤ n ∧ 1 ≤ b ∧ b ≤ t.L then writtenWord celloff v q t colScore st0 a b
      else st0.matrix a b := by
  induction n with
  | zero =>
    rw [if_neg (by omega)]
    show (afterTopRow v t st0).matrix a b = _
    rw [afterTopRow_matrix]
  | succ n ih =>
    have h : (afterRows celloff v q t colScore st0 (n + 1)).matrix =
        (stateAtCell celloff v q t colScore st0 (n + 1) t.L).matrix := by
      rw [afterRows_succ, rowBody_eq]
      show (if (!v.local_mode) = true then
          updateBest (stateAtCell celloff v q t colScore st0 (n + 1) t.L)
        else stateAtCell celloff v q t colScore st0 (n + 1) t.L).matrix = _
      split <;> rfl
    rw [h, stateAtCell_matrix]
    by_cases h1 : a = n + 1 ∧ 1 ≤ b ∧ b ≤ t.L
    · rw [if_pos h1, if_pos (by omega)]
    · rw [if_neg h1, ih]
      by_cases h2 : 1 ≤ a ∧ a ≤ n ∧ 1 ≤ b ∧ b ≤ t.L
      · rw [if_pos h2, if_pos (by omega)]
      · rw [if_neg h2, if_neg (by omega)]

/-- Byte `k` of the word found at cell `(i,j)` when the kernel returns is lane `k` of
`byte_result_vec` as computed by the loop body of that cell. -/
theorem final_byte (celloff : Bool) (v : Viterbi F) (q t : HMMSimd F)
    (colScore : Nat → Nat → simd_float F) (st0 : KState F) (k : Lane) (i j : Nat)
    (hi1 : 1 ≤ i) (hi2 : i ≤ q.L) (hj1 : 1 ≤ j) (hj2 : j ≤ t.L) :
    wordByte ((runKernel celloff v q t colScore st0).matrix i j) k =
      byte_result_all v q t (stateAtCell celloff v q t colScore st0 i (j - 1)) k := by
  show wordByte ((afterRows celloff v q t colScore st0 q.L).matrix i j) k = _
  rw [afterRows_matrix, if_pos ⟨hi1, hi2, hj1, hj2⟩]
  exact wordByte_packed _ (fun k => le_trans (byte_result_all_le v q t _ k) (by decide)) k

end MatrixFrame

/-! ## Claims on the backtrace codes -/

section BacktraceClaims

variable {F : Type} [LinearOrderedRing F]

set_option maxRecDepth 100000 in
/-- C9 as stated fails: global mode, query of length 2, template of length 3, column
score `5 - j`. At cell `(2,3)` the candidates from MM, GD and IM are all equal to the
maximum 2, the candidates from DG and MI are smaller, and the low three bits of the
stored byte are 4, the code of IM, not 2, the code of MM. -/
theorem C9_tie_stores_last_code :
    mm_m2m_m2m_vec (exHMM 2) (exHMM 3)
      (stateAtCell false (exViterbi false) (exHMM 2) (exHMM 3) exSlope exState0 2 2) 0 = 2 ∧
    gd_m2m_d2m_vec (exHMM 2) (exHMM 3)
      (stateAtCell false (exViterbi false) (exHMM 2) (exHMM 3) exSlope exState0 2 2) 0 = 2 ∧
    im_m2m_d2m_vec (exHMM 2) (exHMM 3)
      (stateAtCell false (exViterbi false) (exHMM 2) (exHMM 3) exSlope exState0 2 2) 0 = 2 ∧
    dg_m2m_d2m_vec (exHMM 2) (exHMM 3)
      (stateAtCell false (exViterbi false) (exHMM 2) (exHMM 3) exSlope exState0 2 2) 0 = -4 ∧
    mi_m2m_d2m_vec (exHMM 2) (exHMM 3)
      (stateAtCell false (exViterbi false) (exHMM 2) (exHMM 3) exSlope exState0 2 2) 0 = -4 ∧
    sMM_max6 (exViterbi false) (exHMM 2) (exHMM 3)
      (stateAtCell false (exViterbi false) (exHMM 2) (exHMM 3) exSlope exState0 2 2) 0 = 2 ∧
    wordByte ((AlignWithOutCellOff (exViterbi false) (exHMM 2) (exHMM 3) exSlope 4 exState0
      exRes0).2.matrix 2 3) 0 % 8 = 4 := by
  decide

/-- C9 as amended: for every cell `(i,j)` with `1 ≤ i ≤ Lq`, `1 ≤ j ≤ Lt`, every lane and
both compiled variants, the low three bits of the stored byte name the last state, in
the order MM, GD, IM, DG, MI, whose candidate equals the maximum (the tied state with
the greatest code: MI before DG before IM before GD before MM), and are 0 when no
candidate equals it. -/
theorem C9_tie_break_greatest_code (celloff : Bool) (v : Viterbi F) (q t : HMMSimd F)
    (colScore : Nat → Nat → simd_float F) (st0 : KState F) (k : Lane) (i j : Nat)
    (hi1 : 1 ≤ i) (hi2 : i ≤ q.L) (hj1 : 1 ≤ j) (hj2 : j ≤ t.L) :
    wordByte ((runKernel celloff v q t colScore st0).matrix i j) k % 8 =
      if mi_m2m_d2m_vec q t (stateAtCell celloff v q t colScore st0 i (j - 1)) k =
          sMM_max6 v q t (stateAtCell celloff v q t colScore st0 i (j - 1)) k then 6
      else if dg_m2m_d2m_vec q t (stateAtCell celloff v q t colScore st0 i (j - 1)) k =
          sMM_max6 v q t (stateAtCell celloff v q t colScore st0 i (j - 1)) k then 5
      else if im_m2m_d2m_vec q t (stateAtCell celloff v q t colScore st0 i (j - 1)) k =
          sMM_max6 v q t (stateAtCell celloff v q t colScore st0 i (j - 1)) k then 4
      else if gd_m2m_d2m_vec q t (stateAtCell celloff v q t colScore st0 i (j - 1)) k =
          sMM_max6 v q t (stateAtCell celloff v q t colScore st0 i (j - 1)) k then 3
      else if mm_m2m_m2m_vec q t (stateAtCell celloff v q t colScore st0 i (j - 1)) k =
          sMM_max6 v q t (stateAtCell celloff v q t colScore st0 i (j - 1)) k then 2
      else 0 := by
  rw [final_byte celloff v q t colScore st0 k i j hi1 hi2 hj1 hj2, byte_low3,
    byte_result_mm_lane]

/-- C9 as amended, at cell `(2,3)` of lane 0 of the global 2 x 3 instance. -/
theorem C9_tie_break_greatest_code_witness :
    1 ≤ 2 ∧ 2 ≤ (exHMM 2).L ∧ 1 ≤ 3 ∧ 3 ≤ (exHMM 3).L ∧
    wordByte ((runKernel false (exViterbi false) (exHMM 2) (exHMM 3) exSlope
      exState0).matrix 2 3) 0 % 8 = 4 :=
  ⟨by decide, by decide, by decide, by decide,
    (C9_tie_break_greatest_code false (exViterbi false) (exHMM 2) (exHMM 3) exSlope exState0
      0 2 3 (by decide) (by decide) (by decide) (by decide)).trans (by decide)⟩

/-- C10: for every cell `(i,j)` with `1 ≤ i ≤ Lq`, `1 ≤ j ≤ Lt`, every lane and both
compiled variants, with `st` the state on which the loop body of the cell runs and `w`
the byte found in the matrix when the kernel returns: if `w mod 8` is 2, 3, 4, 5 or 6
then the candidate from MM, GD, IM, DG or MI equals the maximum of the six MM candidates
(`smin` and the five predecessors); and for GD, IM, DG, MI the bit 8, 16, 32, 64 is set
only if the open-from-MM candidate equals the score of the state (the maximum of its
two candidates), and clear only if the extend candidate equals it. -/
theorem C10_backtrace_identifies_max (celloff : Bool) (v : Viterbi F) (q t : HMMSimd F)
    (colScore : Nat → Nat → simd_float F) (st0 : KState F) (k : Lane) (i j : Nat)
    (hi1 : 1 ≤ i) (hi2 : i ≤ q.L) (hj1 : 1 ≤ j) (hj2 : j ≤ t.L) :
    sMM_max6 v q t (stateAtCell celloff v q t colScore st0 i (j - 1)) k =
      max (smin v)
        (max (mm_m2m_m2m_vec q t (stateAtCell celloff v q t colScore st0 i (j - 1)) k)
        (max (gd_m2m_d2m_vec q t (stateAtCell celloff v q t colScore st0 i (j - 1)) k)
        (max (im_m2m_d2m_vec q t (stateAtCell celloff v q t colScore st0 i (j - 1)) k)
        (max (dg_m2m_d2m_vec q t (stateAtCell celloff v q t colScore st0 i (j - 1)) k)
             (mi_m2m_d2m_vec q t (stateAtCell celloff v q t colScore st0 i (j - 1)) k))))) ∧
    (wordByte ((runKernel celloff v q t colScore st0).matrix i j) k % 8 = 2 →
      mm_m2m_m2m_vec q t (stateAtCell celloff v q t colScore st0 i (j - 1)) k =
        sMM_max6 v q t (stateAtCell celloff v q t colScore st0 i (j - 1)) k) ∧
    (wordByte ((runKernel celloff v q t colScore st0).matrix i j) k % 8 = 3 →
      gd_m2m_d2m_vec q t (stateAtCell celloff v q t colScore st0 i (j - 1)) k =
        sMM_max6 v q t (stateAtCell celloff v q t colScore st0 i (j - 1)) k) ∧
    (wordByte ((runKernel celloff v q t colScore st0).matrix i j) k % 8 = 4 →
      im_m2m_d2m_vec q t (stateAtCell celloff v q t colScore st0 i (j - 1)) k =
        sMM_max6 v q t (stateAtCell celloff v q t colScore st0 i (j - 1)) k) ∧
    (wordByte ((runKernel celloff v q t colScore st0).matrix i j) k % 8 = 5 →
      dg_m2m_d2m_vec q t (stateAtCell celloff v q t colScore st0 i (j - 1)) k =
        sMM_max6 v q t (stateAtCell celloff v q t colScore st0 i (j - 1)) k) ∧
    (wordByte ((runKernel celloff v q t colScore st0).matrix i j) k % 8 = 6 →
      mi_m2m_d2m_vec q t (stateAtCell celloff v q t colScore st0 i (j - 1)) k =
        sMM_max6 v q t (stateAtCell celloff v q t colScore st0 i (j - 1)) k) ∧
    (wordByte ((runKernel celloff v q t colScore st0).matrix i j) k / 8 % 2 = 1 →
      mm_gd_vec t (stateAtCell celloff v q t colScore st0 i (j - 1)) k =
        max (mm_gd_vec t (stateAtCell celloff v q t colScore st0 i (j - 1)) k)
            (gd_gd_vec t (stateAtCell celloff v q t colScore st0 i (j - 1)) k)) ∧
    (wordByte ((runKernel celloff v q t colScore st0).matrix i j) k / 8 % 2 = 0 →
      gd_gd_vec t (stateAtCell celloff v q t colScore st0 i (j - 1)) k =
        max (mm_gd_vec t (stateAtCell celloff v q t colScore st0 i (j - 1)) k)
            (gd_gd_vec t (stateAtCell celloff v q t colScore st0 i (j - 1)) k)) ∧
    (wordByte ((runKernel celloff v q t colScore st0).matrix i j) k / 16 % 2 = 1 →
      mm_mm_vec q t (stateAtCell celloff v q t colScore st0 i (j - 1)) k =
        max (mm_mm_vec q t (stateAtCell celloff v q t colScore st0 i (j - 1)) k)
            (im_im_vec q t (stateAtCell celloff v q t colScore st0 i (j - 1)) k)) ∧
    (wordByte ((runKernel celloff v q t colScore st0).matrix i j) k / 16 % 2 = 0 →
      im_im_vec q t (stateAtCell celloff v q t colScore st0 i (j - 1)) k =
        max (mm_mm_vec q t (stateAtCell celloff v q t colScore st0 i (j - 1)) k)
            (im_im_vec q t (stateAtCell celloff v q t colScore st0 i (j - 1)) k)) ∧
    (wordByte ((runKernel celloff v q t colScore st0).matrix i j) k / 32 % 2 = 1 →
      mm_dg_vec q (stateAtCell celloff v q t colScore st0 i (j - 1)) k =
        max (mm_dg_vec q (stateAtCell celloff v q t colScore st0 i (j - 1)) k)
            (dg_dg_vec q (stateAtCell celloff v q t colScore st0 i (j - 1)) k)) ∧
    (wordByte ((runKernel celloff v q t colScore st0).matrix i j) k / 32 % 2 = 0 →
      dg_dg_vec q (stateAtCell celloff v q t colScore st0 i (j - 1)) k =
        max (mm_dg_vec q (stateAtCell celloff v q t colScore st0 i (j - 1)) k)
            (dg_dg_vec q (stateAtCell celloff v q t colScore st0 i (j - 1)) k)) ∧
    (wordByte ((runKernel celloff v q t colScore st0).matrix i j) k / 64 % 2 = 1 →
      mm_mi_vec q t (stateAtCell celloff v q t colScore st0 i (j - 1)) k =
        max (mm_mi_vec q t (stateAtCell celloff v q t colScore st0 i (j - 1)) k)
            (mi_mi_vec q t (stateAtCell celloff v q t colScore st0 i (j - 1)) k)) ∧
    (wordByte ((runKernel celloff v q t colScore st0).matrix i j) k / 64 % 2 = 0 →
      mi_mi_vec q t (stateAtCell celloff v q t colScore st0 i (j - 1)) k =
        max (mm_mi_vec q t (stateAtCell celloff v q t colScore st0 i (j - 1)) k)
            (mi_mi_vec q t (stateAtCell celloff v q t colScore st0 i (j - 1)) k)) := by
  rw [final_byte celloff v q t colScore st0 k i j hi1 hi2 hj1 hj2, byte_low3,
    byte_result_mm_lane]
  generalize stateAtCell celloff v q t colScore st0 i (j - 1) = st
  obtain ⟨g1, g2⟩ := bit_names_max _ _ _ (byte_bit8 v q t st k)
  obtain ⟨g3, g4⟩ := bit_names_max _ _ _ (byte_bit16 v q t st k)
  obtain ⟨g5, g6⟩ := bit_names_max _ _ _ (byte_bit32 v q t st k)
  obtain ⟨g7, g8⟩ := bit_names_max _ _ _ (byte_bit64 v q t st k)
  refine ⟨by simp only [sMM_max6, simdf32_max, simdf32_set, max_assoc],
    ?_, ?_, ?_, ?_, ?_, g1, g2, g3, g4, g5, g6, g7, g8⟩
  · intro h
    split_ifs at h <;> first | assumption | exact absurd h (by decide)
  · intro h
    split_ifs at h <;> first | assumption | exact absurd h (by decide)
  · intro h
    split_ifs at h <;> first | assumption | exact absurd h (by decide)
  · intro h
    split_ifs at h <;> first | assumption | exact absurd h (by decide)
  · intro h
    split_ifs at h <;> first | assumption | exact absurd h (by decide)

set_option maxRecDepth 100000 in
/-- C10 at cell `(2,3)` of lane 0 of the global 2 x 3 instance over the integers: the
stored code is 4 and the candidate from IM is the maximum. -/
theorem C10_backtrace_identifies_max_witness :
    1 ≤ 2 ∧ 2 ≤ (exHMM 2).L ∧ 1 ≤ 3 ∧ 3 ≤ (exHMM 3).L ∧
    wordByte ((runKernel false (exViterbi false) (exHMM 2) (exHMM 3) exSlope
      exState0).matrix 2 3) 0 % 8 = 4 ∧
    im_m2m_d2m_vec (exHMM 2) (exHMM 3)
      (stateAtCell false (exViterbi false) (exHMM 2) (exHMM 3) exSlope exState0 2 (3 - 1)) 0 =
    sMM_max6 (exViterbi false) (exHMM 2) (exHMM 3)
      (stateAtCell false (exViterbi false) (exHMM 2) (exHMM 3) exSlope exState0 2 (3 - 1)) 0 :=
  have h4 : wordByte ((runKernel false (exViterbi false) (exHMM 2) (exHMM 3) exSlope
      exState0).matrix 2 3) 0 % 8 = 4 := by decide
  ⟨by decide, by decide, by decide, by decide, h4,
    (C10_backtrace_identifies_max false (exViterbi false) (exHMM 2) (exHMM 3) exSlope exState0
      0 2 3 (by decide) (by decide) (by decide) (by decide)).2.2.2.1 h4⟩

end BacktraceClaims

/-! ## Local mode against global mode -/

section Modes

variable {F : Type} [LinearOrderedRing F]

theorem smin_mode_le (v : Viterbi F) (hF : 0 ≤ v.FLT_MAX) :
    smin (withMode v false) ≤ smin (withMode v true) := by
  show -v.FLT_MAX ≤ 0
  exact neg_nonpos.mpr hF

theorem sMM_max6_mono (v : Viterbi F) (q t : HMMSimd F) (sg sl : KState F) (k : Lane)
    (hF : 0 ≤ v.FLT_MAX) (h : ScoreLe k sg sl) :
    sMM_max6 (withMode v false) q t sg k ≤ sMM_max6 (withMode v true) q t sl k := by
  simp only [sMM_max6, simdf32_max, simdf32_set, mm_m2m_m2m_vec, gd_m2m_d2m_vec,
    im_m2m_d2m_vec, dg_m2m_d2m_vec, mi_m2m_d2m_vec, simdf32_add, h.i_eq, h.j_eq]
  exact max_le_max
    (max_le_max
      (max_le_max (smin_mode_le v hF)
        (add_le_add_right (add_le_add_right h.dMM_le _) _))
      (max_le_max (add_le_add_right (add_le_add_right h.dGD_le _) _)
        (add_le_add_right (add_le_add_right h.dIM_le _) _)))
    (max_le_max (add_le_add_right (add_le_add_right h.dDG_le _) _)
      (add_le_add_right (add_le_add_right h.dMI_le _) _))

theorem gaps_mono (q t : HMMSimd F) (sg sl : KState F) (k : Lane) (h : ScoreLe k sg sl) :
    simdf32_max (mm_gd_vec t sg) (gd_gd_vec t sg) k ≤
        simdf32_max (mm_gd_vec t sl) (gd_gd_vec t sl) k ∧
    simdf32_max (mm_mm_vec q t sg) (im_im_vec q t sg) k ≤
        simdf32_max (mm_mm_vec q t sl) (im_im_vec q t sl) k ∧
    simdf32_max (mm_dg_vec q sg) (dg_dg_vec q sg) k ≤
        simdf32_max (mm_dg_vec q sl) (dg_dg_vec q sl) k ∧
    simdf32_max (mm_mi_vec q t sg) (mi_mi_vec q t sg) k ≤
        simdf32_max (mm_mi_vec q t sl) (mi_mi_vec q t sl) k := by
  simp only [simdf32_max, simdf32_add, mm_gd_vec, gd_gd_vec, mm_mm_vec, im_im_vec, mm_dg_vec,
    dg_dg_vec, mm_mi_vec, mi_mi_vec, sMM_j_1, sGD_j_1, sIM_j_1, sMM_j, sDG_j, sMI_j, h.i_eq,
    h.j_eq]
  exact ⟨max_le_max (add_le_add_right (h.buf_le _) _) (add_le_add_right (h.buf_le _) _),
    max_le_max (add_le_add_right (add_le_add_right (h.buf_le _) _) _)
      (add_le_add_right (add_le_add_right (h.buf_le _) _) _),
    max_le_max (add_le_add_right (h.buf_le _) _) (add_le_add_right (h.buf_le _) _),
    max_le_max (add_le_add_right (add_le_add_right (h.buf_le _) _) _)
      (add_le_add_right (add_le_add_right (h.buf_le _) _) _)⟩

theorem addCellOff_mono (celloff : Bool) (x y off : simd_float F) (k : Lane)
    (h : x k ≤ y k) : addCellOff celloff x off k ≤ addCellOff celloff y off k := by
  cases celloff
  · exact h
  · exact add_le_add_right h _

theorem cell_off_mode (celloff : Bool) (v : Viterbi F) (sg sl : KState F)
    (hi : sg.i = sl.i) (hj : sg.j = sl.j) (hm : sg.matrix sl.i sl.j = sl.matrix sl.i sl.j) :
    cell_off_float_min_vec celloff (withMode v false) sg =
      cell_off_float_min_vec celloff (withMode v true) sl := by
  unfold cell_off_float_min_vec
  rw [hi, hj, hm]
  rfl

/-- One execution of the loop body keeps the scores of the global run below those of
the local run, and in the local run the new MM score has been compared. -/
theorem cellStep_mono (celloff : Bool) (v : Viterbi F) (q t : HMMSimd F)
    (colScore : Nat → Nat → simd_float F) (sg sl : KState F) (k : Lane)
    (hF : 0 ≤ v.FLT_MAX) (h : ScoreLe k sg sl)
    (hm : sg.matrix sl.i sl.j = sl.matrix sl.i sl.j) :
    ScoreLe k (cellStep celloff (withMode v false) q t colScore sg)
      (cellStep celloff (withMode v true) q t colScore sl) ∧
    (cellStep celloff (withMode v true) q t colScore sl).sMM_i_j k ≤
      (cellStep celloff (withMode v true) q t colScore sl).score_vec k := by
  have hoff := cell_off_mode celloff v sg sl h.i_eq h.j_eq hm
  obtain ⟨gGD, gIM, gDG, gMI⟩ := gaps_mono q t sg sl k h
  obtain ⟨aGD, aIM, aDG, aMI⟩ := cellStep_gaps celloff (withMode v false) q t colScore sg
  obtain ⟨bGD, bIM, bDG, bMI⟩ := cellStep_gaps celloff (withMode v true) q t colScore sl
  have hMM : (cellStep celloff (withMode v false) q t colScore sg).sMM_i_j k ≤
      (cellStep celloff (withMode v true) q t colScore sl).sMM_i_j k := by
    rw [cellStep_sMM, cellStep_sMM, hoff, h.i_eq, h.j_eq]
    apply addCellOff_mono
    exact add_le_add_right (sMM_max6_mono v q t sg sl k hF h) _
  have hGD : (cellStep celloff (withMode v false) q t colScore sg).sGD_i_j k ≤
      (cellStep celloff (withMode v true) q t colScore sl).sGD_i_j k := by
    rw [aGD, bGD, hoff]
    exact addCellOff_mono _ _ _ _ _ gGD
  have hIM : (cellStep celloff (withMode v false) q t colScore sg).sIM_i_j k ≤
      (cellStep celloff (withMode v true) q t colScore sl).sIM_i_j k := by
    rw [aIM, bIM, hoff]
    exact addCellOff_mono _ _ _ _ _ gIM
  have hDG : (cellStep celloff (withMode v false) q t colScore sg).sDG_i_j k ≤
      (cellStep celloff (withMode v true) q t colScore sl).sDG_i_j k := by
    rw [aDG, bDG, hoff]
    exact addCellOff_mono _ _ _ _ _ gDG
  have hMI : (cellStep celloff (withMode v false) q t colScore sg).sMI_i_j k ≤
      (cellStep celloff (withMode v true) q t colScore sl).sMI_i_j k := by
    rw [aMI, bMI, hoff]
    exact addCellOff_mono _ _ _ _ _ gMI
  have hdg := cellStep_diag celloff (withMode v false) q t colScore sg k
  have hdl := cellStep_diag celloff (withMode v true) q t colScore sl k
  have hcg := cellStep_bufCell_cur celloff (withMode v false) q t colScore sg k
  have hcl := cellStep_bufCell_cur celloff (withMode v true) q t colScore sl k
  have hsl : (cellStep celloff (withMode v true) q t colScore sl).score_vec k =
      max ((cellStep celloff (withMode v true) q t colScore sl).sMM_i_j k)
        (sl.score_vec k) := by
    have hc : (withMode v true).local_mode = true ∨ sl.i = q.L := Or.inl rfl
    rw [cellStep_score, if_pos hc]
  refine ⟨?_, ?_⟩
  · refine
      { i_eq := by rw [cellStep_i, cellStep_i, h.i_eq]
        j_eq := by rw [cellStep_j, cellStep_j, h.j_eq]
        buf_le := ?_
        dMM_le := ?_
        dMI_le := ?_
        dIM_le := ?_
        dGD_le := ?_
        dDG_le := ?_
        cMM_le := hMM
        score_le := ?_ }
    · intro n
      by_cases hn : n < sl.j * 5 ∨ sl.j * 5 + 5 ≤ n
      · rw [cellStep_buf _ _ _ _ _ _ _ (by rw [h.j_eq]; exact hn),
          cellStep_buf _ _ _ _ _ _ _ hn]
        exact h.buf_le n
      · rw [h.j_eq] at hcg
        have e0 := congrArg Cell5.MM hcg
        have e1 := congrArg Cell5.DG hcg
        have e2 := congrArg Cell5.MI hcg
        have e3 := congrArg Cell5.GD hcg
        have e4 := congrArg Cell5.IM hcg
        have f0 := congrArg Cell5.MM hcl
        have f1 := congrArg Cell5.DG hcl
        have f2 := congrArg Cell5.MI hcl
        have f3 := congrArg Cell5.GD hcl
        have f4 := congrArg Cell5.IM hcl
        simp only [bufCell, curCell] at e0 e1 e2 e3 e4 f0 f1 f2 f3 f4
        have hc : n = sl.j * 5 + 0 ∨ n = sl.j * 5 + 1 ∨ n = sl.j * 5 + 2 ∨
            n = sl.j * 5 + 3 ∨ n = sl.j * 5 + 4 := by omega
        rcases hc with rfl | rfl | rfl | rfl | rfl
        · rw [e0, f0]
          exact hMM
        · rw [e1, f1]
          exact hDG
        · rw [e2, f2]
          exact hMI
        · rw [e3, f3]
          exact hGD
        · rw [e4, f4]
          exact hIM
    · have a := congrArg Cell5.MM hdg
      have b := congrArg Cell5.MM hdl
      simp only [diagCell, bufCell] at a b
      rw [a, b, h.j_eq]
      exact h.buf_le _
    · have a := congrArg Cell5.MI hdg
      have b := congrArg Cell5.MI hdl
      simp only [diagCell, bufCell] at a b
      rw [a, b, h.j_eq]
      exact h.buf_le _
    · have a := congrArg Cell5.IM hdg
      have b := congrArg Cell5.IM hdl
      simp only [diagCell, bufCell] at a b
      rw [a, b, h.j_eq]
      exact h.buf_le _
    · have a := congrArg Cell5.GD hdg
      have b := congrArg Cell5.GD hdl
      simp only [diagCell, bufCell] at a b
      rw [a, b, h.j_eq]
      exact h.buf_le _
    · have a := congrArg Cell5.DG hdg
      have b := congrArg Cell5.DG hdl
      simp only [diagCell, bufCell] at a b
      rw [a, b, h.j_eq]
      exact h.buf_le _
    · rw [hsl, cellStep_score]
      split
      · exact max_le_max hMM h.score_le
      · exact le_trans h.score_le (le_max_right _ _)
  · rw [hsl]
    exact le_max_left _ _

theorem ScoreLe.refl (k : Lane) (s : KState F) : ScoreLe k s s :=
  { i_eq := rfl, j_eq := rfl, buf_le := fun _ => le_refl _, dMM_le := le_refl _,
    dMI_le := le_refl _, dIM_le := le_refl _, dGD_le := le_refl _, dDG_le := le_refl _,
    cMM_le := le_refl _, score_le := le_refl _ }

theorem ScoreLe.next_j {k : Lane} {sg sl : KState F} (h : ScoreLe k sg sl) :
    ScoreLe k { sg with j := sg.j + 1 } { sl with j := sl.j + 1 } :=
  { i_eq := h.i_eq, j_eq := congrArg (· + 1) h.j_eq, buf_le := h.buf_le, dMM_le := h.dMM_le,
    dMI_le := h.dMI_le, dIM_le := h.dIM_le, dGD_le := h.dGD_le, dDG_le := h.dDG_le,
    cMM_le := h.cMM_le, score_le := h.score_le }

theorem ScoreLe.next_i {k : Lane} {sg sl : KState F} (h : ScoreLe k sg sl) :
    ScoreLe k { sg with i := sg.i + 1 } { sl with i := sl.i + 1 } :=
  { i_eq := congrArg (· + 1) h.i_eq, j_eq := h.j_eq, buf_le := h.buf_le, dMM_le := h.dMM_le,
    dMI_le := h.dMI_le, dIM_le := h.dIM_le, dGD_le := h.dGD_le, dDG_le := h.dDG_le,
    cMM_le := h.cMM_le, score_le := h.score_le }

theorem rowInit_mono (v : Viterbi F) (sg sl : KState F) (k : Lane) (h : ScoreLe k sg sl) :
    ScoreLe k { rowInit (withMode v false) sg with j := 1 }
      { rowInit (withMode v true) sl with j := 1 } :=
  { i_eq := h.i_eq
    j_eq := rfl
    buf_le := by
      intro m
      simp only [rowInit, storeVec, withMode, h.i_eq]
      split_ifs <;> first | exact le_refl _ | exact h.buf_le m
    dMM_le := by
      simp only [rowInit, withMode, h.i_eq]
      exact le_refl _
    dMI_le := le_refl _
    dIM_le := le_refl _
    dGD_le := le_refl _
    dDG_le := le_refl _
    cMM_le := h.cMM_le
    score_le := h.score_le }

/-- The entry of the backtrace matrix that the loop body of cell `(n+1,j+1)` reads has
not been written yet: it is the entry on entry, whatever the mode. -/
theorem unwritten_entry (celloff : Bool) (v : Viterbi F) (q t : HMMSimd F)
    (colScore : Nat → Nat → simd_float F) (st0 : KState F) (n j : Nat) :
    (stateAtCell celloff v q t colScore st0 (n + 1) j).matrix (n + 1) (j + 1) =
      st0.matrix (n + 1) (j + 1) := by
  rw [stateAtCell_matrix, if_neg (by omega), afterRows_matrix, if_neg (by omega)]

/-- The global run stays below the local run inside row `n+1`. -/
theorem mode_cell (celloff : Bool) (v : Viterbi F) (q t : HMMSimd F)
    (colScore : Nat → Nat → simd_float F) (st0 : KState F) (k : Lane)
    (hF : 0 ≤ v.FLT_MAX) (n : Nat)
    (hrow : ScoreLe k (afterRows celloff (withMode v false) q t colScore st0 n)
      (afterRows celloff (withMode v true) q t colScore st0 n))
    (j : Nat) :
    ScoreLe k (stateAtCell celloff (withMode v false) q t colScore st0 (n + 1) j)
      (stateAtCell celloff (withMode v true) q t colScore st0 (n + 1) j) ∧
    (1 ≤ j →
      (stateAtCell celloff (withMode v true) q t colScore st0 (n + 1) j).sMM_i_j k ≤
        (stateAtCell celloff (withMode v true) q t colScore st0 (n + 1) j).score_vec k) := by
  induction j with
  | zero =>
    refine ⟨?_, fun h => absurd h (by decide)⟩
    rw [stateAtCell_zero, stateAtCell_zero]
    exact rowInit_mono v _ _ k hrow
  | succ j ih =>
    obtain ⟨ih1, _⟩ := ih
    obtain ⟨hsi, hsj⟩ :=
      stateAtCell_ij celloff (withMode v true) q t colScore st0 (n + 1) j (by omega)
    have hm : (stateAtCell celloff (withMode v false) q t colScore st0 (n + 1) j).matrix
          (stateAtCell celloff (withMode v true) q t colScore st0 (n + 1) j).i
          (stateAtCell celloff (withMode v true) q t colScore st0 (n + 1) j).j =
        (stateAtCell celloff (withMode v true) q t colScore st0 (n + 1) j).matrix
          (stateAtCell celloff (withMode v true) q t colScore st0 (n + 1) j).i
          (stateAtCell celloff (withMode v true) q t colScore st0 (n + 1) j).j := by
      rw [hsi, hsj, unwritten_entry, unwritten_entry]
    obtain ⟨h1, h2⟩ := cellStep_mono celloff v q t colScore _ _ k hF ih1 hm
    rw [stateAtCell_succ, stateAtCell_succ]
    exact ⟨h1.next_j, fun _ => h2⟩

/-- The global run stays below the local run after every row, when the template has
at least one column. -/
theorem mode_rows (celloff : Bool) (v : Viterbi F) (q t : HMMSimd F)
    (colScore : Nat → Nat → simd_float F) (st0 : KState F) (k : Lane)
    (hF : 0 ≤ v.FLT_MAX) (hLt : 1 ≤ t.L) (n : Nat) :
    ScoreLe k (afterRows celloff (withMode v false) q t colScore st0 n)
      (afterRows celloff (withMode v true) q t colScore st0 n) := by
  induction n with
  | zero => exact ScoreLe.refl k _
  | succ n ih =>
    obtain ⟨h1, h2⟩ := mode_cell celloff v q t colScore st0 k hF n ih t.L
    rw [afterRows_succ, afterRows_succ, rowBody_eq, rowBody_eq]
    have hs : ScoreLe k
        (updateBest (stateAtCell celloff (withMode v false) q t colScore st0 (n + 1) t.L))
        (stateAtCell celloff (withMode v true) q t colScore st0 (n + 1) t.L) :=
      { i_eq := h1.i_eq, j_eq := h1.j_eq, buf_le := h1.buf_le, dMM_le := h1.dMM_le,
        dMI_le := h1.dMI_le, dIM_le := h1.dIM_le, dGD_le := h1.dGD_le, dDG_le := h1.dDG_le,
        cMM_le := h1.cMM_le
        score_le := by
          rw [updateBest_score]
          exact max_le (le_trans h1.cMM_le (h2 hLt)) h1.score_le }
    exact hs.next_i

/-- C8 as stated fails for a template without columns: query of length 1, template of
length 0. The loop over `j` is not entered; in global mode the check after the row
compares the initial value 0 of `sMM_i_j` and reports 0, in local mode nothing is
compared and `-FLT_MAX` is reported. -/
theorem C8_empty_template_global_above_local :
    (AlignWithOutCellOff (withMode (exViterbi true) false) (exHMM 1) (exHMM 0) exDiag 4
      exState0 exRes0).1.score 0 = 0 ∧
    (AlignWithOutCellOff (withMode (exViterbi true) true) (exHMM 1) (exHMM 0) exDiag 4
      exState0 exRes0).1.score 0 = -exFLT_MAX ∧
    ¬ ((AlignWithOutCellOff (withMode (exViterbi true) false) (exHMM 1) (exHMM 0) exDiag 4
      exState0 exRes0).1.score 0 ≤
      (AlignWithOutCellOff (withMode (exViterbi true) true) (exHMM 1) (exHMM 0) exDiag 4
      exState0 exRes0).1.score 0) := by
  decide

/-- C8 as amended: for every query, every template batch with at least one column,
every gap-penalty and shift configuration, the same memory on entry (in particular the
same exclusion mask) and `FLT_MAX ≥ 0`, the best score of each lane in local mode is
greater than or equal to the one in global mode, for the kernel compiled without and
with `VITERBI_CELLOFF`. -/
theorem C8_local_ge_global (v : Viterbi F) (q t : HMMSimd F)
    (colScore : Nat → Nat → simd_float F) (maxres : Nat) (st0 : KState F)
    (res0 : ViterbiResult F) (k : Lane) (hF : 0 ≤ v.FLT_MAX) (hLt : 1 ≤ t.L)
    (hk : k.val < maxres) :
    (AlignWithOutCellOff (withMode v false) q t colScore maxres st0 res0).1.score k.val ≤
      (AlignWithOutCellOff (withMode v true) q t colScore maxres st0 res0).1.score k.val ∧
    (AlignWithCellOff (withMode v false) q t colScore maxres st0 res0).1.score k.val ≤
      (AlignWithCellOff (withMode v true) q t colScore maxres st0 res0).1.score k.val := by
  constructor
  · show (extractResult maxres (afterRows false (withMode v false) q t colScore st0 q.L)
        res0).score k.val ≤
      (extractResult maxres (afterRows false (withMode v true) q t colScore st0 q.L)
        res0).score k.val
    rw [(extractResult_lane maxres _ res0 k hk).1, (extractResult_lane maxres _ res0 k hk).1]
    exact (mode_rows false v q t colScore st0 k hF hLt q.L).score_le
  · show (extractResult maxres (afterRows true (withMode v false) q t colScore st0 q.L)
        res0).score k.val ≤
      (extractResult maxres (afterRows true (withMode v true) q t colScore st0 q.L)
        res0).score k.val
    rw [(extractResult_lane maxres _ res0 k hk).1, (extractResult_lane maxres _ res0 k hk).1]
    exact (mode_rows true v q t colScore st0 k hF hLt q.L).score_le

/-- C8 as amended, on lane 0 of the 3 x 5 instance over the integers. -/
theorem C8_local_ge_global_witness :
    0 ≤ (exViterbi true).FLT_MAX ∧ 1 ≤ (exHMM 5).L ∧ (0 : Lane).val < 4 ∧
    (AlignWithOutCellOff (withMode (exViterbi true) false) (exHMM 3) (exHMM 5) exDiag 4
      exState0 exRes0).1.score (0 : Lane).val ≤
    (AlignWithOutCellOff (withMode (exViterbi true) true) (exHMM 3) (exHMM 5) exDiag 4
      exState0 exRes0).1.score (0 : Lane).val :=
  ⟨by decide, by decide, by decide,
    (C8_local_ge_global (exViterbi true) (exHMM 3) (exHMM 5) exDiag 4 exState0 exRes0 0
      (by decide) (by decide) (by decide)).1⟩

end Modes

/-! ## Write-once and frame of the backtrace matrix -/

section FrameClaims

variable {F : Type} [LinearOrderedRing F]

/-- C15: in one invocation (either compiled variant) every execution of the loop body
stores a single entry of the backtrace matrix, the one of its own cell; the body of
cell `(i,j)` runs on the state whose counters are `i` and `j`. After the body of cell
`(i,j)` the entries of the cells up to `(i,j)` in row-major order hold the word written
by their own body and every other entry holds what it held on entry: a cell is written
by its own body, not before and not again. When the kernel returns, the cells
`1 ≤ a ≤ Lq`, `1 ≤ b ≤ Lt` hold their written word and every other entry (row 0,
column 0, columns beyond `Lt`, rows beyond `Lq`) is unchanged. -/
theorem C15_write_once_frame (celloff : Bool) (v : Viterbi F) (q t : HMMSimd F)
    (colScore : Nat → Nat → simd_float F) (st0 : KState F) :
    (∀ st : KState F, (cellStep celloff v q t colScore st).matrix =
      storeWord st.matrix st.i st.j (mm_cvtsi128_si32_packed (byte_result_all v q t st))) ∧
    (∀ i j, 1 ≤ i → 1 ≤ j →
      (stateAtCell celloff v q t colScore st0 i (j - 1)).i = i ∧
      (stateAtCell celloff v q t colScore st0 i (j - 1)).j = j) ∧
    (∀ i j a b, 1 ≤ i → j ≤ t.L →
      (stateAtCell celloff v q t colScore st0 i j).matrix a b =
        if 1 ≤ a ∧ 1 ≤ b ∧ b ≤ t.L ∧ (a < i ∨ (a = i ∧ b ≤ j)) then
          writtenWord celloff v q t colScore st0 a b
        else st0.matrix a b) ∧
    (∀ a b, (runKernel celloff v q t colScore st0).matrix a b =
        if 1 ≤ a ∧ a ≤ q.L ∧ 1 ≤ b ∧ b ≤ t.L then writtenWord celloff v q t colScore st0 a b
        else st0.matrix a b) := by
  refine ⟨cellStep_matrix celloff v q t colScore, ?_, ?_, ?_⟩
  · intro i j hi hj
    obtain ⟨h1, h2⟩ := stateAtCell_ij celloff v q t colScore st0 i (j - 1) hi
    exact ⟨h1, by rw [h2]; omega⟩
  · intro i j a b hi hj
    obtain ⟨n, rfl⟩ : ∃ n, i = n + 1 := ⟨i - 1, by omega⟩
    rw [stateAtCell_matrix]
    by_cases h1 : a = n + 1 ∧ 1 ≤ b ∧ b ≤ j
    · rw [if_pos h1, if_pos ⟨by omega, h1.2.1, by omega, Or.inr ⟨h1.1, h1.2.2⟩⟩]
    · rw [if_neg h1, afterRows_matrix]
      by_cases h2 : 1 ≤ a ∧ a ≤ n ∧ 1 ≤ b ∧ b ≤ t.L
      · rw [if_pos h2, if_pos ⟨h2.1, h2.2.2.1, h2.2.2.2, Or.inl (by omega)⟩]
      · rw [if_neg h2, if_neg]
        rintro ⟨g1, g2, g3, g4 | g4⟩
        · exact h2 ⟨g1, by omega, g2, g3⟩
        · exact h1 ⟨g4.1, g2, g4.2⟩
  · intro a b
    exact afterRows_matrix celloff v q t colScore st0 q.L a b

/-- C15 on the 3 x 3 instance over the integers: entry `(0,2)` of the matrix is not
touched. -/
theorem C15_write_once_frame_witness :
    (runKernel false (exViterbi true) (exHMM 3) (exHMM 3) exDiag exState0).matrix 0 2 =
      exState0.matrix 0 2 :=
  ((C15_write_once_frame false (exViterbi true) (exHMM 3) (exHMM 3) exDiag exState0).2.2.2
    0 2).trans (if_neg (by decide))

end FrameClaims

/-! ## Decoding of the exclusion bit -/

section CellOff

variable {F : Type} [LinearOrderedRing F]

theorem co_vec_pow (k : Lane) : co_vec k = 2 ^ (8 * k.val + 6) := by
  fin_cases k <;> rfl

theorem co_vec_lt (k : Lane) : co_vec k < 2147483648 := by
  fin_cases k <;> decide

/-- Lane `k` of `cell_off_vec`: the constant of the lane when the exclusion bit of the
lane is set in the stored word, zero otherwise. -/
theorem cell_off_vec_lane (w : Nat) (k : Lane) :
    simdi_and (simdi32_set (w >>> 1)) co_vec k = if exclBit w k then co_vec k else 0 := by
  have hk : 8 * k.val + 6 < 32 := by
    have := k.isLt
    omega
  have hbit : ((w >>> 1) % 4294967296).testBit (8 * k.val + 6) = exclBit w k := by
    rw [show (4294967296 : Nat) = 2 ^ 32 from rfl, Nat.testBit_mod_two_pow,
      Nat.testBit_shiftRight]
    simp only [hk, decide_True, Bool.true_and, exclBit]
    congr 1
    omega
  show ((w >>> 1) % 4294967296) &&& co_vec k = _
  rw [co_vec_pow, Nat.and_two_pow, hbit]
  cases exclBit w k <;> simp

/-- The vector added to the five scores under `VITERBI_CELLOFF`, lane `k`: `-FLT_MAX`
when the exclusion bit of the lane is set in the word read from the matrix, zero
otherwise. -/
theorem cell_off_lane (v : Viterbi F) (st : KState F) (k : Lane) :
    cell_off_float_min_vec true v st k =
      if exclBit (st.matrix st.i st.j) k then -v.FLT_MAX else 0 := by
  have hco := co_vec_lt k
  have hpos : 0 < co_vec k := by
    rw [co_vec_pow]
    exact Nat.two_pow_pos _
  simp only [cell_off_float_min_vec, if_true, simdi_andnot_f, simdi32_gt, simdf32_set]
  rw [cell_off_vec_lane]
  cases exclBit (st.matrix st.i st.j) k
  · have h : toInt32 0 < toInt32 (co_vec k) := by
      simp only [toInt32, hco, if_true]
      norm_num
      exact hpos
    simp [h, allOnes]
  · simp

theorem cell_off_false (v : Viterbi F) (st : KState F) (k : Lane) :
    cell_off_float_min_vec false v st k = 0 := rfl

theorem addCellOff_lane (celloff : Bool) (v : Viterbi F) (st : KState F)
    (x : simd_float F) (k : Lane) :
    addCellOff celloff x (cell_off_float_min_vec celloff v st) k =
      x k + cell_off_float_min_vec celloff v st k := by
  cases celloff
  · show x k = x k + 0
    rw [add_zero]
  · rfl

/-- The added value is never positive. -/
theorem cell_off_nonpos (celloff : Bool) (v : Viterbi F) (st : KState F) (k : Lane)
    (hF : 0 ≤ v.FLT_MAX) : cell_off_float_min_vec celloff v st k ≤ 0 := by
  cases celloff
  · exact le_of_eq (cell_off_false v st k)
  · rw [cell_off_lane]
    split
    · exact neg_nonpos.mpr hF
    · exact le_refl _

end CellOff

/-! ## Excluding cells lowers the scores -/

section Exclusion

variable {F : Type} [LinearOrderedRing F]

theorem sMM_max6_le (v : Viterbi F) (q t : HMMSimd F) (sg sl : KState F) (k : Lane)
    (h : ScoreLe k sg sl) : sMM_max6 v q t sg k ≤ sMM_max6 v q t sl k := by
  simp only [sMM_max6, simdf32_max, simdf32_set, mm_m2m_m2m_vec, gd_m2m_d2m_vec,
    im_m2m_d2m_vec, dg_m2m_d2m_vec, mi_m2m_d2m_vec, simdf32_add, h.i_eq, h.j_eq]
  exact max_le_max
    (max_le_max
      (max_le_max (le_refl _) (add_le_add_right (add_le_add_right h.dMM_le _) _))
      (max_le_max (add_le_add_right (add_le_add_right h.dGD_le _) _)
        (add_le_add_right (add_le_add_right h.dIM_le _) _)))
    (max_le_max (add_le_add_right (add_le_add_right h.dDG_le _) _)
      (add_le_add_right (add_le_add_right h.dMI_le _) _))

/-- One execution of the loop body keeps every score of the first run below the one of
the second run, when the value added for the cell in the first run is at most the one
added in the second run. -/
theorem cellStep_le (cg cl : Bool) (v : Viterbi F) (q t : HMMSimd F)
    (colScore : Nat → Nat → simd_float F) (sg sl : KState F) (k : Lane)
    (h : ScoreLe k sg sl)
    (hoff : cell_off_float_min_vec cg v sg k ≤ cell_off_float_min_vec cl v sl k) :
    ScoreLe k (cellStep cg v q t colScore sg) (cellStep cl v q t colScore sl) := by
  obtain ⟨gGD, gIM, gDG, gMI⟩ := gaps_mono q t sg sl k h
  obtain ⟨aGD, aIM, aDG, aMI⟩ := cellStep_gaps cg v q t colScore sg
  obtain ⟨bGD, bIM, bDG, bMI⟩ := cellStep_gaps cl v q t colScore sl
  have hMM : (cellStep cg v q t colScore sg).sMM_i_j k ≤
      (cellStep cl v q t colScore sl).sMM_i_j k := by
    rw [cellStep_sMM, cellStep_sMM, addCellOff_lane, addCellOff_lane, h.i_eq, h.j_eq]
    exact add_le_add (add_le_add_right (sMM_max6_le v q t sg sl k h) _) hoff
  have hGD : (cellStep cg v q t colScore sg).sGD_i_j k ≤
      (cellStep cl v q t colScore sl).sGD_i_j k := by
    rw [aGD, bGD, addCellOff_lane, addCellOff_lane]
    exact add_le_add gGD hoff
  have hIM : (cellStep cg v q t colScore sg).sIM_i_j k ≤
      (cellStep cl v q t colScore sl).sIM_i_j k := by
    rw [aIM, bIM, addCellOff_lane, addCellOff_lane]
    exact add_le_add gIM hoff
  have hDG : (cellStep cg v q t colScore sg).sDG_i_j k ≤
      (cellStep cl v q t colScore sl).sDG_i_j k := by
    rw [aDG, bDG, addCellOff_lane, addCellOff_lane]
    exact add_le_add gDG hoff
  have hMI : (cellStep cg v q t colScore sg).sMI_i_j k ≤
      (cellStep cl v q t colScore sl).sMI_i_j k := by
    rw [aMI, bMI, addCellOff_lane, addCellOff_lane]
    exact add_le_add gMI hoff
  have hdg := cellStep_diag cg v q t colScore sg k
  have hdl := cellStep_diag cl v q t colScore sl k
  have hcg := cellStep_bufCell_cur cg v q t colScore sg k
  have hcl := cellStep_bufCell_cur cl v q t colScore sl k
  refine
    { i_eq := by rw [cellStep_i, cellStep_i, h.i_eq]
      j_eq := by rw [cellStep_j, cellStep_j, h.j_eq]
      buf_le := ?_
      dMM_le := ?_
      dMI_le := ?_
      dIM_le := ?_
      dGD_le := ?_
      dDG_le := ?_
      cMM_le := hMM
      score_le := ?_ }
  · intro n
    by_cases hn : n < sl.j * 5 ∨ sl.j * 5 + 5 ≤ n
    · rw [cellStep_buf _ _ _ _ _ _ _ (by rw [h.j_eq]; exact hn),
        cellStep_buf _ _ _ _ _ _ _ hn]
      exact h.buf_le n
    · rw [h.j_eq] at hcg
      have e0 := congrArg Cell5.MM hcg
      have e1 := congrArg Cell5.DG hcg
      have e2 := congrArg Cell5.MI hcg
      have e3 := congrArg Cell5.GD hcg
      have e4 := congrArg Cell5.IM hcg
      have f0 := congrArg Cell5.MM hcl
      have f1 := congrArg Cell5.DG hcl
      have f2 := congrArg Cell5.MI hcl
      have f3 := congrArg Cell5.GD hcl
      have f4 := congrArg Cell5.IM hcl
      simp only [bufCell, curCell] at e0 e1 e2 e3 e4 f0 f1 f2 f3 f4
      have hc : n = sl.j * 5 + 0 ∨ n = sl.j * 5 + 1 ∨ n = sl.j * 5 + 2 ∨
          n = sl.j * 5 + 3 ∨ n = sl.j * 5 + 4 := by omega
      rcases hc with rfl | rfl | rfl | rfl | rfl
      · rw [e0, f0]
        exact hMM
      · rw [e1, f1]
        exact hDG
      · rw [e2, f2]
        exact hMI
      · rw [e3, f3]
        exact hGD
      · rw [e4, f4]
        exact hIM
  · have a := congrArg Cell5.MM hdg
    have b := congrArg Cell5.MM hdl
    simp only [diagCell, bufCell] at a b
    rw [a, b, h.j_eq]
    exact h.buf_le _
  · have a := congrArg Cell5.MI hdg
    have b := congrArg Cell5.MI hdl
    simp only [diagCell, bufCell] at a b
    rw [a, b, h.j_eq]
    exact h.buf_le _
  · have a := congrArg Cell5.IM hdg
    have b := congrArg Cell5.IM hdl
    simp only [diagCell, bufCell] at a b
    rw [a, b, h.j_eq]
    exact h.buf_le _
  · have a := congrArg Cell5.GD hdg
    have b := congrArg Cell5.GD hdl
    simp only [diagCell, bufCell] at a b
    rw [a, b, h.j_eq]
    exact h.buf_le _
  · have a := congrArg Cell5.DG hdg
    have b := congrArg Cell5.DG hdl
    simp only [diagCell, bufCell] at a b
    rw [a, b, h.j_eq]
    exact h.buf_le _
  · rw [cellStep_score, cellStep_score, h.i_eq]
    split
    · exact max_le_max hMM h.score_le
    · exact h.score_le

theorem rowInit_le (v : Viterbi F) (sg sl : KState F) (k : Lane) (h : ScoreLe k sg sl) :
    ScoreLe k { rowInit v sg with j := 1 } { rowInit v sl with j := 1 } :=
  { i_eq := h.i_eq
    j_eq := rfl
    buf_le := by
      intro m
      simp only [rowInit, storeVec, h.i_eq]
      split_ifs <;> first | exact le_refl _ | exact h.buf_le m
    dMM_le := by
      simp only [rowInit, h.i_eq]
      exact le_refl _
    dMI_le := le_refl _
    dIM_le := le_refl _
    dGD_le := le_refl _
    dDG_le := le_refl _
    cMM_le := h.cMM_le
    score_le := h.score_le }

theorem updateBest_le (sg sl : KState F) (k : Lane) (h : ScoreLe k sg sl) :
    ScoreLe k (updateBest sg) (updateBest sl) :=
  { i_eq := h.i_eq, j_eq := h.j_eq, buf_le := h.buf_le, dMM_le := h.dMM_le,
    dMI_le := h.dMI_le, dIM_le := h.dIM_le, dGD_le := h.dGD_le, dDG_le := h.dDG_le,
    cMM_le := h.cMM_le
    score_le := by
      rw [updateBest_score, updateBest_score]
      exact max_le_max h.cMM_le h.score_le }

theorem topRowBody_le (v : Viterbi F) (sg sl : KState F) (k : Lane) (h : ScoreLe k sg sl) :
    ScoreLe k (topRowBody v sg) (topRowBody v sl) :=
  { i_eq := h.i_eq
    j_eq := h.j_eq
    buf_le := by
      intro m
      simp only [topRowBody, storeVec, h.j_eq]
      split_ifs <;> first | exact le_refl _ | exact h.buf_le m
    dMM_le := h.dMM_le
    dMI_le := h.dMI_le
    dIM_le := h.dIM_le
    dGD_le := h.dGD_le
    dDG_le := h.dDG_le
    cMM_le := h.cMM_le
    score_le := h.score_le }

theorem afterTopRow_le (v : Viterbi F) (t : HMMSimd F) (sg sl : KState F) (k : Lane)
    (h : ScoreLe k sg sl) : ScoreLe k (afterTopRow v t sg) (afterTopRow v t sl) := by
  have h0 : ScoreLe k (declInit v sg) (declInit v sl) :=
    { i_eq := h.i_eq, j_eq := h.j_eq, buf_le := h.buf_le, dMM_le := h.dMM_le,
      dMI_le := h.dMI_le, dIM_le := h.dIM_le, dGD_le := h.dGD_le, dDG_le := h.dDG_le,
      cMM_le := le_refl _, score_le := le_refl _ }
  have hn : ∀ n, ScoreLe k (forLoop_j (topRowBody v) 0 n (declInit v sg))
      (forLoop_j (topRowBody v) 0 n (declInit v sl)) := by
    intro n
    induction n with
    | zero =>
      exact { i_eq := h0.i_eq, j_eq := rfl, buf_le := h0.buf_le, dMM_le := h0.dMM_le,
              dMI_le := h0.dMI_le, dIM_le := h0.dIM_le, dGD_le := h0.dGD_le,
              dDG_le := h0.dDG_le, cMM_le := h0.cMM_le, score_le := h0.score_le }
    | succ n ih => exact (topRowBody_le v _ _ k ih).next_j
  exact hn (t.L + 1)

/-- Lockstep comparison of two runs in the same mode: if the memory on entry is related
and, at every cell of the grid, the value added in the first run is at most the one added
in the second run, every score of the first run stays below the one of the second. -/
theorem run_le (cg cl : Bool) (v : Viterbi F) (q t : HMMSimd F)
    (colScore : Nat → Nat → simd_float F) (stg stl : KState F) (k : Lane)
    (h0 : ScoreLe k stg stl)
    (hoff : ∀ n j, n < q.L → j < t.L →
      cell_off_float_min_vec cg v (stateAtCell cg v q t colScore stg (n + 1) j) k ≤
        cell_off_float_min_vec cl v (stateAtCell cl v q t colScore stl (n + 1) j) k)
    (n : Nat) (hn : n ≤ q.L) :
    ScoreLe k (afterRows cg v q t colScore stg n) (afterRows cl v q t colScore stl n) := by
  induction n with
  | zero =>
    have h := afterTopRow_le v t stg stl k h0
    exact { i_eq := rfl, j_eq := h.j_eq, buf_le := h.buf_le, dMM_le := h.dMM_le,
            dMI_le := h.dMI_le, dIM_le := h.dIM_le, dGD_le := h.dGD_le,
            dDG_le := h.dDG_le, cMM_le := h.cMM_le, score_le := h.score_le }
  | succ n ih =>
    have hrow := ih (by omega)
    have hcell : ∀ j, j ≤ t.L →
        ScoreLe k (stateAtCell cg v q t colScore stg (n + 1) j)
          (stateAtCell cl v q t colScore stl (n + 1) j) := by
      intro j
      induction j with
      | zero =>
        intro _
        rw [stateAtCell_zero, stateAtCell_zero]
        exact rowInit_le v _ _ k hrow
      | succ j ihj =>
        intro hj
        rw [stateAtCell_succ, stateAtCell_succ]
        exact (cellStep_le cg cl v q t colScore _ _ k (ihj (by omega))
          (hoff n j (by omega) (by omega))).next_j
    have hend := hcell t.L (le_refl _)
    rw [afterRows_succ, afterRows_succ, rowBody_eq, rowBody_eq]
    by_cases hloc : (!v.local_mode) = true
    · rw [if_pos hloc, if_pos hloc]
      exact (updateBest_le _ _ k hend).next_i
    · rw [if_neg hloc, if_neg hloc]
      exact hend.next_i

/-- C12: for every input, every exclusion mask (the backtrace matrix on entry) and
every lane copied out, with `FLT_MAX ≥ 0`, the best score computed by `AlignWithCellOff`
is at most the best score computed on the same inputs with no cell excluded: by the
kernel compiled without `VITERBI_CELLOFF` on the same memory, and by `AlignWithCellOff`
itself on the same memory with a matrix `m1` in which no cell of the grid has the
exclusion bit of the lane set. -/
theorem C12_exclusion_lowers_best (v : Viterbi F) (q t : HMMSimd F)
    (colScore : Nat → Nat → simd_float F) (maxres : Nat) (st0 : KState F)
    (res0 : ViterbiResult F) (k : Lane) (hF : 0 ≤ v.FLT_MAX) (hk : k.val < maxres) :
    (AlignWithCellOff v q t colScore maxres st0 res0).1.score k.val ≤
      (AlignWithOutCellOff v q t colScore maxres st0 res0).1.score k.val ∧
    ∀ m1 : Nat → Nat → Nat,
      (∀ i j, 1 ≤ i → i ≤ q.L → 1 ≤ j → j ≤ t.L → exclBit (m1 i j) k = false) →
      (AlignWithCellOff v q t colScore maxres st0 res0).1.score k.val ≤
        (AlignWithCellOff v q t colScore maxres { st0 with matrix := m1 } res0).1.score
          k.val := by
  constructor
  · show (extractResult maxres (afterRows true v q t colScore st0 q.L) res0).score k.val ≤
      (extractResult maxres (afterRows false v q t colScore st0 q.L) res0).score k.val
    rw [(extractResult_lane maxres _ res0 k hk).1, (extractResult_lane maxres _ res0 k hk).1]
    refine (run_le true false v q t colScore st0 st0 k (ScoreLe.refl k st0) ?_ q.L
      (le_refl _)).score_le
    intro n j _ _
    rw [cell_off_false]
    exact cell_off_nonpos true v _ k hF
  · intro m1 hm1
    show (extractResult maxres (afterRows true v q t colScore st0 q.L) res0).score k.val ≤
      (extractResult maxres (afterRows true v q t colScore { st0 with matrix := m1 } q.L)
        res0).score k.val
    rw [(extractResult_lane maxres _ res0 k hk).1, (extractResult_lane maxres _ res0 k hk).1]
    have h0 : ScoreLe k st0 { st0 with matrix := m1 } :=
      { i_eq := rfl, j_eq := rfl, buf_le := fun _ => le_refl _, dMM_le := le_refl _,
        dMI_le := le_refl _, dIM_le := le_refl _, dGD_le := le_refl _,
        dDG_le := le_refl _, cMM_le := le_refl _, score_le := le_refl _ }
    refine (run_le true true v q t colScore st0 _ k h0 ?_ q.L (le_refl _)).score_le
    intro n j hn hj
    obtain ⟨hsi, hsj⟩ := stateAtCell_ij true v q t colScore { st0 with matrix := m1 }
      (n + 1) j (by omega)
    have hz : cell_off_float_min_vec true v
        (stateAtCell true v q t colScore { st0 with matrix := m1 } (n + 1) j) k = 0 := by
      rw [cell_off_lane, hsi, hsj, unwritten_entry]
      show (if exclBit (m1 (n + 1) (j + 1)) k = true then -v.FLT_MAX else 0) = 0
      rw [hm1 (n + 1) (j + 1) (by omega) (by omega) (by omega) (by omega)]
      rfl
    rw [hz]
    exact cell_off_nonpos true v _ k hF

end Exclusion

/-! ## Lanes do not interact -/

section Lanes

variable {F : Type} [LinearOrderedRing F]

theorem updateBest_coords (st : KState F) (k : Lane) :
    (updateBest st).i2_vec k =
      coordUpdate (st.sMM_i_j k) (st.score_vec k) st.i (st.i2_vec k) ∧
    (updateBest st).j2_vec k =
      coordUpdate (st.sMM_i_j k) (st.score_vec k) st.j (st.j2_vec k) :=
  ⟨rfl, rfl⟩

theorem cellStep_coords (celloff : Bool) (v : Viterbi F) (q t : HMMSimd F)
    (colScore : Nat → Nat → simd_float F) (st : KState F) (k : Lane) :
    (cellStep celloff v q t colScore st).i2_vec k =
      (if v.local_mode = true ∨ st.i = q.L then
        coordUpdate ((cellStep celloff v q t colScore st).sMM_i_j k) (st.score_vec k) st.i
          (st.i2_vec k)
      else st.i2_vec k) ∧
    (cellStep celloff v q t colScore st).j2_vec k =
      (if v.local_mode = true ∨ st.i = q.L then
        coordUpdate ((cellStep celloff v q t colScore st).sMM_i_j k) (st.score_vec k) st.j
          (st.j2_vec k)
      else st.j2_vec k) := by
  by_cases h : v.local_mode = true ∨ st.i = q.L
  · have hb : (v.local_mode || decide (st.i = q.L)) = true := by simpa using h
    rw [if_pos h, if_pos h]
    unfold cellStep
    dsimp only
    rw [if_pos hb]
    exact ⟨rfl, rfl⟩
  · have hb : ¬ (v.local_mode || decide (st.i = q.L)) = true := by simpa using h
    rw [if_neg h, if_neg h]
    unfold cellStep
    dsimp only
    rw [if_neg hb]
    exact ⟨rfl, rfl⟩

/-- The thirteen candidates and the six-way maximum of a cell agree between the two
lanes. -/
theorem cands_agree (q1 t1 q2 t2 : HMMSimd F) (s1 s2 : KState F)
    (L : Nat) (a b : Lane) (h : LaneRel L a b s1 s2) (hj : s1.j ≤ L)
    (hq : ∀ n, q1.tr n a = q2.tr n b) (ht : ∀ n, t1.tr n a = t2.tr n b) :
    (mm_m2m_m2m_vec q1 t1 s1 a = mm_m2m_m2m_vec q2 t2 s2 b ∧
     gd_m2m_d2m_vec q1 t1 s1 a = gd_m2m_d2m_vec q2 t2 s2 b ∧
     im_m2m_d2m_vec q1 t1 s1 a = im_m2m_d2m_vec q2 t2 s2 b ∧
     dg_m2m_d2m_vec q1 t1 s1 a = dg_m2m_d2m_vec q2 t2 s2 b ∧
     mi_m2m_d2m_vec q1 t1 s1 a = mi_m2m_d2m_vec q2 t2 s2 b) ∧
    (mm_gd_vec t1 s1 a = mm_gd_vec t2 s2 b ∧ gd_gd_vec t1 s1 a = gd_gd_vec t2 s2 b ∧
     mm_mm_vec q1 t1 s1 a = mm_mm_vec q2 t2 s2 b ∧
     im_im_vec q1 t1 s1 a = im_im_vec q2 t2 s2 b) ∧
    (mm_dg_vec q1 s1 a = mm_dg_vec q2 s2 b ∧ dg_dg_vec q1 s1 a = dg_dg_vec q2 s2 b ∧
     mm_mi_vec q1 t1 s1 a = mm_mi_vec q2 t2 s2 b ∧
     mi_mi_vec q1 t1 s1 a = mi_mi_vec q2 t2 s2 b) := by
  have b0 := h.buf_eq ((s1.j - 1) * 5 + 0) (by omega)
  have b3 := h.buf_eq ((s1.j - 1) * 5 + 3) (by omega)
  have b4 := h.buf_eq ((s1.j - 1) * 5 + 4) (by omega)
  have c0 := h.buf_eq (s1.j * 5 + 0) (by omega)
  have c1 := h.buf_eq (s1.j * 5 + 1) (by omega)
  have c2 := h.buf_eq (s1.j * 5 + 2) (by omega)
  simp only [mm_m2m_m2m_vec, gd_m2m_d2m_vec, im_m2m_d2m_vec, dg_m2m_d2m_vec,
    mi_m2m_d2m_vec, mm_gd_vec, gd_gd_vec, mm_mm_vec, im_im_vec, mm_dg_vec, dg_dg_vec,
    mm_mi_vec, mi_mi_vec, sMM_j_1, sGD_j_1, sIM_j_1, sMM_j, sDG_j, sMI_j, simdf32_add,
    q_m2m, q_m2d, q_d2m, q_d2d, q_i2m, q_i2i, q_m2i, t_m2m, t_m2d, t_d2m, t_d2d, t_i2m,
    t_i2i, t_m2i, ← h.i_eq, ← h.j_eq, hq, ht, h.dMM_eq, h.dMI_eq, h.dIM_eq, h.dGD_eq,
    h.dDG_eq, b0, b3, b4, c0, c1, c2, and_self]

theorem sMM_max6_agree (v : Viterbi F) (q1 t1 q2 t2 : HMMSimd F) (s1 s2 : KState F)
    (L : Nat) (a b : Lane) (h : LaneRel L a b s1 s2) (hj : s1.j ≤ L)
    (hq : ∀ n, q1.tr n a = q2.tr n b) (ht : ∀ n, t1.tr n a = t2.tr n b) :
    sMM_max6 v q1 t1 s1 a = sMM_max6 v q2 t2 s2 b := by
  obtain ⟨⟨e1, e2, e3, e4, e5⟩, _, _⟩ := cands_agree q1 t1 q2 t2 s1 s2 L a b h hj hq ht
  simp only [sMM_max6, simdf32_max, simdf32_set]
  rw [e1, e2, e3, e4, e5]

theorem byte_agree (v : Viterbi F) (q1 t1 q2 t2 : HMMSimd F) (s1 s2 : KState F)
    (L : Nat) (a b : Lane) (h : LaneRel L a b s1 s2) (hj : s1.j ≤ L)
    (hq : ∀ n, q1.tr n a = q2.tr n b) (ht : ∀ n, t1.tr n a = t2.tr n b) :
    byte_result_all v q1 t1 s1 a = byte_result_all v q2 t2 s2 b := by
  obtain ⟨⟨e1, e2, e3, e4, e5⟩, ⟨g1, g2, g3, g4⟩, ⟨g5, g6, g7, g8⟩⟩ :=
    cands_agree q1 t1 q2 t2 s1 s2 L a b h hj hq ht
  have hm := sMM_max6_agree v q1 t1 q2 t2 s1 s2 L a b h hj hq ht
  rw [byte_result_all_lane, byte_result_all_lane, byte_result_mm_lane, byte_result_mm_lane,
    e1, e2, e3, e4, e5, g1, g2, g3, g4, g5, g6, g7, g8, hm]

/-- One execution of the loop body keeps lane `a` of the first run equal to lane `b` of
the second run. -/
theorem cellStep_agree (c1 c2 : Bool) (v : Viterbi F) (q1 t1 q2 t2 : HMMSimd F)
    (cs1 cs2 : Nat → Nat → simd_float F) (s1 s2 : KState F) (L : Nat) (a b : Lane)
    (h : LaneRel L a b s1 s2) (hj : s1.j ≤ L) (hqL : q1.L = q2.L)
    (hq : ∀ n, q1.tr n a = q2.tr n b) (ht : ∀ n, t1.tr n a = t2.tr n b)
    (hcs : cs1 s1.i s1.j a = cs2 s1.i s1.j b)
    (hoff : cell_off_float_min_vec c1 v s1 a = cell_off_float_min_vec c2 v s2 b) :
    LaneRel L a b (cellStep c1 v q1 t1 cs1 s1) (cellStep c2 v q2 t2 cs2 s2) := by
  obtain ⟨_, ⟨g1, g2, g3, g4⟩, ⟨g5, g6, g7, g8⟩⟩ :=
    cands_agree q1 t1 q2 t2 s1 s2 L a b h hj hq ht
  have hm := sMM_max6_agree v q1 t1 q2 t2 s1 s2 L a b h hj hq ht
  obtain ⟨aGD, aIM, aDG, aMI⟩ := cellStep_gaps c1 v q1 t1 cs1 s1
  obtain ⟨bGD, bIM, bDG, bMI⟩ := cellStep_gaps c2 v q2 t2 cs2 s2
  have hMM : (cellStep c1 v q1 t1 cs1 s1).sMM_i_j a = (cellStep c2 v q2 t2 cs2 s2).sMM_i_j b := by
    rw [cellStep_sMM, cellStep_sMM, addCellOff_lane, addCellOff_lane, ← h.i_eq, ← h.j_eq]
    simp only [simdf32_add, simdf32_set]
    rw [hm, hcs, hoff]
  have hGD : (cellStep c1 v q1 t1 cs1 s1).sGD_i_j a = (cellStep c2 v q2 t2 cs2 s2).sGD_i_j b := by
    rw [aGD, bGD, addCellOff_lane, addCellOff_lane]
    simp only [simdf32_max]
    rw [g1, g2, hoff]
  have hIM : (cellStep c1 v q1 t1 cs1 s1).sIM_i_j a = (cellStep c2 v q2 t2 cs2 s2).sIM_i_j b := by
    rw [aIM, bIM, addCellOff_lane, addCellOff_lane]
    simp only [simdf32_max]
    rw [g3, g4, hoff]
  have hDG : (cellStep c1 v q1 t1 cs1 s1).sDG_i_j a = (cellStep c2 v q2 t2 cs2 s2).sDG_i_j b := by
    rw [aDG, bDG, addCellOff_lane, addCellOff_lane]
    simp only [simdf32_max]
    rw [g5, g6, hoff]
  have hMI : (cellStep c1 v q1 t1 cs1 s1).sMI_i_j a = (cellStep c2 v q2 t2 cs2 s2).sMI_i_j b := by
    rw [aMI, bMI, addCellOff_lane, addCellOff_lane]
    simp only [simdf32_max]
    rw [g7, g8, hoff]
  have hd1 := cellStep_diag c1 v q1 t1 cs1 s1 a
  have hd2 := cellStep_diag c2 v q2 t2 cs2 s2 b
  have hc1 := cellStep_bufCell_cur c1 v q1 t1 cs1 s1 a
  have hc2 := cellStep_bufCell_cur c2 v q2 t2 cs2 s2 b
  rw [← h.j_eq] at hd2 hc2
  have d0 := congrArg Cell5.MM hd1
  have d1 := congrArg Cell5.DG hd1
  have d2 := congrArg Cell5.MI hd1
  have d3 := congrArg Cell5.GD hd1
  have d4 := congrArg Cell5.IM hd1
  have d0' := congrArg Cell5.MM hd2
  have d1' := congrArg Cell5.DG hd2
  have d2' := congrArg Cell5.MI hd2
  have d3' := congrArg Cell5.GD hd2
  have d4' := congrArg Cell5.IM hd2
  simp only [diagCell, bufCell] at d0 d1 d2 d3 d4 d0' d1' d2' d3' d4'
  have hcoord1 := cellStep_coords c1 v q1 t1 cs1 s1 a
  have hcoord2 := cellStep_coords c2 v q2 t2 cs2 s2 b
  refine
    { i_eq := by rw [cellStep_i, cellStep_i, h.i_eq]
      buf_eq := ?_
      cMM_eq := hMM
      score_eq := by
        rw [cellStep_score, cellStep_score, hMM, h.score_eq, h.i_eq, hqL]
      i2_eq := by
        rw [hcoord1.1, hcoord2.1, hMM, h.score_eq, h.i2_eq, h.i_eq, hqL]
      j2_eq := by
        rw [hcoord1.2, hcoord2.2, hMM, h.score_eq, h.j2_eq, h.i_eq, h.j_eq, hqL]
      j_eq := by rw [cellStep_j, cellStep_j, h.j_eq]
      dMM_eq := by rw [d0, d0']; exact h.buf_eq _ (by omega)
      dMI_eq := by rw [d2, d2']; exact h.buf_eq _ (by omega)
      dIM_eq := by rw [d4, d4']; exact h.buf_eq _ (by omega)
      dGD_eq := by rw [d3, d3']; exact h.buf_eq _ (by omega)
      dDG_eq := by rw [d1, d1']; exact h.buf_eq _ (by omega) }
  intro n hn
  by_cases hc : n < s1.j * 5 ∨ s1.j * 5 + 5 ≤ n
  · rw [cellStep_buf _ _ _ _ _ _ _ hc,
      cellStep_buf _ _ _ _ _ _ _ (by rw [← h.j_eq]; exact hc)]
    exact h.buf_eq n hn
  · have e0 := congrArg Cell5.MM hc1
    have e1 := congrArg Cell5.DG hc1
    have e2 := congrArg Cell5.MI hc1
    have e3 := congrArg Cell5.GD hc1
    have e4 := congrArg Cell5.IM hc1
    have f0 := congrArg Cell5.MM hc2
    have f1 := congrArg Cell5.DG hc2
    have f2 := congrArg Cell5.MI hc2
    have f3 := congrArg Cell5.GD hc2
    have f4 := congrArg Cell5.IM hc2
    simp only [bufCell, curCell] at e0 e1 e2 e3 e4 f0 f1 f2 f3 f4
    have hcase : n = s1.j * 5 + 0 ∨ n = s1.j * 5 + 1 ∨ n = s1.j * 5 + 2 ∨
        n = s1.j * 5 + 3 ∨ n = s1.j * 5 + 4 := by omega
    rcases hcase with rfl | rfl | rfl | rfl | rfl
    · rw [e0, f0]
      exact hMM
    · rw [e1, f1]
      exact hDG
    · rw [e2, f2]
      exact hMI
    · rw [e3, f3]
      exact hGD
    · rw [e4, f4]
      exact hIM

theorem buf_of_bufCell (buf1 buf2 : Nat → simd_float F) (a b : Lane) (j : Nat)
    (h : bufCell buf1 j a = bufCell buf2 j b) (c : Nat) (hc : c < 5) :
    buf1 (j * 5 + c) a = buf2 (j * 5 + c) b := by
  have e0 := congrArg Cell5.MM h
  have e1 := congrArg Cell5.DG h
  have e2 := congrArg Cell5.MI h
  have e3 := congrArg Cell5.GD h
  have e4 := congrArg Cell5.IM h
  simp only [bufCell] at e0 e1 e2 e3 e4
  interval_cases c
  · exact e0
  · exact e1
  · exact e2
  · exact e3
  · exact e4

/-- After the top-row loop the two lanes agree, whatever memory held before. -/
theorem afterRows_zero_agree (c1 c2 : Bool) (v : Viterbi F) (q1 t1 q2 t2 : HMMSimd F)
    (cs1 cs2 : Nat → Nat → simd_float F) (st01 st02 : KState F) (a b : Lane)
    (htL : t1.L = t2.L) :
    RowRel t1.L a b (afterRows c1 v q1 t1 cs1 st01 0) (afterRows c2 v q2 t2 cs2 st02 0) := by
  obtain ⟨buf1, hst1, hbuf1⟩ := forLoop_topRow v (declInit v st01) (t1.L + 1)
  obtain ⟨buf2, hst2, hbuf2⟩ := forLoop_topRow v (declInit v st02) (t2.L + 1)
  have e1 : afterRows c1 v q1 t1 cs1 st01 0 =
      { ({ declInit v st01 with j := t1.L + 1, sMM_DG_MI_GD_IM_vec := buf1 } : KState F) with
        i := 1 } := by
    show ({ forLoop_j (topRowBody v) 0 (t1.L + 1) (declInit v st01) with i := 1 } : KState F)
      = _
    rw [hst1]
  have e2 : afterRows c2 v q2 t2 cs2 st02 0 =
      { ({ declInit v st02 with j := t2.L + 1, sMM_DG_MI_GD_IM_vec := buf2 } : KState F) with
        i := 1 } := by
    show ({ forLoop_j (topRowBody v) 0 (t2.L + 1) (declInit v st02) with i := 1 } : KState F)
      = _
    rw [hst2]
  rw [e1, e2]
  refine { i_eq := rfl, buf_eq := ?_, cMM_eq := rfl, score_eq := rfl, i2_eq := rfl,
           j2_eq := rfl }
  intro n hn
  have hj : n / 5 < t1.L + 1 := by omega
  have hcell : bufCell buf1 (n / 5) a = bufCell buf2 (n / 5) b := by
    rw [hbuf1 a (n / 5) hj, hbuf2 b (n / 5) (by omega)]
  have := buf_of_bufCell buf1 buf2 a b (n / 5) hcell (n % 5) (Nat.mod_lt _ (by decide))
  have hnn : n / 5 * 5 + n % 5 = n := by omega
  rw [hnn] at this
  exact this

theorem rowInit_agree (v : Viterbi F) (s1 s2 : KState F) (L : Nat) (a b : Lane)
    (h : RowRel L a b s1 s2) :
    LaneRel L a b { rowInit v s1 with j := 1 } { rowInit v s2 with j := 1 } :=
  { i_eq := h.i_eq
    buf_eq := by
      intro n hn
      simp only [rowInit, storeVec, h.i_eq]
      split_ifs <;> first | rfl | exact h.buf_eq n hn
    cMM_eq := h.cMM_eq
    score_eq := h.score_eq
    i2_eq := h.i2_eq
    j2_eq := h.j2_eq
    j_eq := rfl
    dMM_eq := by
      simp only [rowInit, h.i_eq]
      rfl
    dMI_eq := rfl
    dIM_eq := rfl
    dGD_eq := rfl
    dDG_eq := rfl }

theorem LaneRel.lane_next_j {L : Nat} {a b : Lane} {s1 s2 : KState F} (h : LaneRel L a b s1 s2) :
    LaneRel L a b { s1 with j := s1.j + 1 } { s2 with j := s2.j + 1 } :=
  { i_eq := h.i_eq, buf_eq := h.buf_eq, cMM_eq := h.cMM_eq, score_eq := h.score_eq,
    i2_eq := h.i2_eq, j2_eq := h.j2_eq, j_eq := congrArg (· + 1) h.j_eq, dMM_eq := h.dMM_eq,
    dMI_eq := h.dMI_eq, dIM_eq := h.dIM_eq, dGD_eq := h.dGD_eq, dDG_eq := h.dDG_eq }

/-- Inside row `n+1` the two lanes agree after every cell. -/
theorem lane_cells (c1 c2 : Bool) (v : Viterbi F) (q1 t1 q2 t2 : HMMSimd F)
    (cs1 cs2 : Nat → Nat → simd_float F) (st01 st02 : KState F) (a b : Lane)
    (hqL : q1.L = q2.L)
    (hq : ∀ n, q1.tr n a = q2.tr n b) (ht : ∀ n, t1.tr n a = t2.tr n b)
    (hcs : ∀ i j, cs1 i j a = cs2 i j b) (n : Nat)
    (hoff : ∀ j, j < t1.L →
      cell_off_float_min_vec c1 v (stateAtCell c1 v q1 t1 cs1 st01 (n + 1) j) a =
        cell_off_float_min_vec c2 v (stateAtCell c2 v q2 t2 cs2 st02 (n + 1) j) b)
    (hrow : RowRel t1.L a b (afterRows c1 v q1 t1 cs1 st01 n)
      (afterRows c2 v q2 t2 cs2 st02 n))
    (j : Nat) (hj : j ≤ t1.L) :
    LaneRel t1.L a b (stateAtCell c1 v q1 t1 cs1 st01 (n + 1) j)
      (stateAtCell c2 v q2 t2 cs2 st02 (n + 1) j) := by
  induction j with
  | zero =>
    rw [stateAtCell_zero, stateAtCell_zero]
    exact rowInit_agree v _ _ t1.L a b hrow
  | succ j ih =>
    have ih1 := ih (by omega)
    obtain ⟨_, hsj⟩ := stateAtCell_ij c1 v q1 t1 cs1 st01 (n + 1) j (by omega)
    rw [stateAtCell_succ, stateAtCell_succ]
    exact (cellStep_agree c1 c2 v q1 t1 q2 t2 cs1 cs2 _ _ t1.L a b ih1 (by rw [hsj]; omega) hqL
      hq ht (hcs _ _) (hoff j (by omega))).lane_next_j

/-- After every row the two lanes agree. -/
theorem lane_rows (c1 c2 : Bool) (v : Viterbi F) (q1 t1 q2 t2 : HMMSimd F)
    (cs1 cs2 : Nat → Nat → simd_float F) (st01 st02 : KState F) (a b : Lane)
    (hqL : q1.L = q2.L) (htL : t1.L = t2.L)
    (hq : ∀ n, q1.tr n a = q2.tr n b) (ht : ∀ n, t1.tr n a = t2.tr n b)
    (hcs : ∀ i j, cs1 i j a = cs2 i j b)
    (hoff : ∀ n j, n < q1.L → j < t1.L →
      cell_off_float_min_vec c1 v (stateAtCell c1 v q1 t1 cs1 st01 (n + 1) j) a =
        cell_off_float_min_vec c2 v (stateAtCell c2 v q2 t2 cs2 st02 (n + 1) j) b)
    (n : Nat) (hn : n ≤ q1.L) :
    RowRel t1.L a b (afterRows c1 v q1 t1 cs1 st01 n) (afterRows c2 v q2 t2 cs2 st02 n) := by
  induction n with
  | zero => exact afterRows_zero_agree c1 c2 v q1 t1 q2 t2 cs1 cs2 st01 st02 a b htL
  | succ n ih =>
    have hend := lane_cells c1 c2 v q1 t1 q2 t2 cs1 cs2 st01 st02 a b hqL hq ht hcs n
      (fun j hj => hoff n j (by omega) hj) (ih (by omega)) t1.L (le_refl _)
    rw [afterRows_succ, afterRows_succ, rowBody_eq, rowBody_eq, ← htL]
    by_cases hloc : (!v.local_mode) = true
    · rw [if_pos hloc, if_pos hloc]
      exact
        { i_eq := congrArg (· + 1) hend.i_eq
          buf_eq := hend.buf_eq
          cMM_eq := hend.cMM_eq
          score_eq := by
            rw [updateBest_score, updateBest_score, hend.cMM_eq, hend.score_eq]
          i2_eq := by
            rw [(updateBest_coords _ a).1, (updateBest_coords _ b).1, hend.cMM_eq,
              hend.score_eq, hend.i_eq, hend.i2_eq]
          j2_eq := by
            rw [(updateBest_coords _ a).2, (updateBest_coords _ b).2, hend.cMM_eq,
              hend.score_eq, hend.j_eq, hend.j2_eq] }
    · rw [if_neg hloc, if_neg hloc]
      exact
        { i_eq := congrArg (· + 1) hend.i_eq, buf_eq := hend.buf_eq, cMM_eq := hend.cMM_eq,
          score_eq := hend.score_eq, i2_eq := hend.i2_eq, j2_eq := hend.j2_eq }

/-- The values added for the exclusion mask agree at every cell of the grid when the
exclusion bits of the two lanes agree on entry (nothing is needed without
`VITERBI_CELLOFF`). -/
theorem cell_off_agree (c : Bool) (v : Viterbi F) (q1 t1 q2 t2 : HMMSimd F)
    (cs1 cs2 : Nat → Nat → simd_float F) (st01 st02 : KState F) (a b : Lane)
    (hqL : q1.L = q2.L) (htL : t1.L = t2.L)
    (hx : c = true → ∀ i j, 1 ≤ i → i ≤ q1.L → 1 ≤ j → j ≤ t1.L →
      exclBit (st01.matrix i j) a = exclBit (st02.matrix i j) b)
    (n j : Nat) (hn : n < q1.L) (hj : j < t1.L) :
    cell_off_float_min_vec c v (stateAtCell c v q1 t1 cs1 st01 (n + 1) j) a =
      cell_off_float_min_vec c v (stateAtCell c v q2 t2 cs2 st02 (n + 1) j) b := by
  cases c
  · rfl
  · obtain ⟨h1i, h1j⟩ := stateAtCell_ij true v q1 t1 cs1 st01 (n + 1) j (by omega)
    obtain ⟨h2i, h2j⟩ := stateAtCell_ij true v q2 t2 cs2 st02 (n + 1) j (by omega)
    rw [cell_off_lane, cell_off_lane, h1i, h1j, h2i, h2j, unwritten_entry, unwritten_entry,
      hx rfl (n + 1) (j + 1) (by omega) (by omega) (by omega) (by omega)]

/-- Lane `a` of a run and lane `b` of another run give the same best score, the same
coordinates and the same backtrace bytes when the data of the two lanes coincide. -/
theorem lane_run_agree (c : Bool) (v : Viterbi F) (q1 t1 q2 t2 : HMMSimd F)
    (cs1 cs2 : Nat → Nat → simd_float F) (st01 st02 : KState F) (a b : Lane)
    (hqL : q1.L = q2.L) (htL : t1.L = t2.L)
    (hq : ∀ n, q1.tr n a = q2.tr n b) (ht : ∀ n, t1.tr n a = t2.tr n b)
    (hcs : ∀ i j, cs1 i j a = cs2 i j b)
    (hx : c = true → ∀ i j, 1 ≤ i → i ≤ q1.L → 1 ≤ j → j ≤ t1.L →
      exclBit (st01.matrix i j) a = exclBit (st02.matrix i j) b) :
    (runKernel c v q1 t1 cs1 st01).score_vec a = (runKernel c v q2 t2 cs2 st02).score_vec b ∧
    (runKernel c v q1 t1 cs1 st01).i2_vec a = (runKernel c v q2 t2 cs2 st02).i2_vec b ∧
    (runKernel c v q1 t1 cs1 st01).j2_vec a = (runKernel c v q2 t2 cs2 st02).j2_vec b ∧
    (∀ i j, 1 ≤ i → i ≤ q1.L → 1 ≤ j → j ≤ t1.L →
      byte_result_all v q1 t1 (stateAtCell c v q1 t1 cs1 st01 i (j - 1)) a =
        byte_result_all v q2 t2 (stateAtCell c v q2 t2 cs2 st02 i (j - 1)) b) := by
  have hoff := cell_off_agree c v q1 t1 q2 t2 cs1 cs2 st01 st02 a b hqL htL hx
  have hrows := lane_rows c c v q1 t1 q2 t2 cs1 cs2 st01 st02 a b hqL htL hq ht hcs hoff
  have hfin : RowRel t1.L a b (runKernel c v q1 t1 cs1 st01) (runKernel c v q2 t2 cs2 st02) := by
    show RowRel t1.L a b (afterRows c v q1 t1 cs1 st01 q1.L)
      (afterRows c v q2 t2 cs2 st02 q2.L)
    rw [← hqL]
    exact hrows q1.L (le_refl _)
  refine ⟨hfin.score_eq, hfin.i2_eq, hfin.j2_eq, ?_⟩
  intro i j hi1 hi2 hj1 hj2
  obtain ⟨n, rfl⟩ : ∃ n, i = n + 1 := ⟨i - 1, by omega⟩
  have hcell := lane_cells c c v q1 t1 q2 t2 cs1 cs2 st01 st02 a b hqL hq ht hcs n
    (fun j hj => hoff n j (by omega) hj) (hrows n (by omega)) (j - 1) (by omega)
  obtain ⟨_, hsj⟩ := stateAtCell_ij c v q1 t1 cs1 st01 (n + 1) (j - 1) (by omega)
  exact byte_agree v q1 t1 q2 t2 _ _ t1.L a b hcell (by rw [hsj]; omega) hq ht

end Lanes

/-! ## Claims on the lanes, on determinism and on the two compiled variants -/

section LaneClaims

variable {F : Type} [LinearOrderedRing F]

/-- Lane `a` of a run and lane `b` of another run, possibly of the other compiled
variant, agree when the data of the two lanes coincide and the values added for the
exclusion mask coincide at every cell. -/
theorem lane_run_agree_of_off (c1 c2 : Bool) (v : Viterbi F) (q1 t1 q2 t2 : HMMSimd F)
    (cs1 cs2 : Nat → Nat → simd_float F) (st01 st02 : KState F) (a b : Lane)
    (hqL : q1.L = q2.L) (htL : t1.L = t2.L)
    (hq : ∀ n, q1.tr n a = q2.tr n b) (ht : ∀ n, t1.tr n a = t2.tr n b)
    (hcs : ∀ i j, cs1 i j a = cs2 i j b)
    (hoff : ∀ n j, n < q1.L → j < t1.L →
      cell_off_float_min_vec c1 v (stateAtCell c1 v q1 t1 cs1 st01 (n + 1) j) a =
        cell_off_float_min_vec c2 v (stateAtCell c2 v q2 t2 cs2 st02 (n + 1) j) b) :
    (runKernel c1 v q1 t1 cs1 st01).score_vec a = (runKernel c2 v q2 t2 cs2 st02).score_vec b ∧
    (runKernel c1 v q1 t1 cs1 st01).i2_vec a = (runKernel c2 v q2 t2 cs2 st02).i2_vec b ∧
    (runKernel c1 v q1 t1 cs1 st01).j2_vec a = (runKernel c2 v q2 t2 cs2 st02).j2_vec b ∧
    (∀ i j, 1 ≤ i → i ≤ q1.L → 1 ≤ j → j ≤ t1.L →
      byte_result_all v q1 t1 (stateAtCell c1 v q1 t1 cs1 st01 i (j - 1)) a =
        byte_result_all v q2 t2 (stateAtCell c2 v q2 t2 cs2 st02 i (j - 1)) b) := by
  have hrows := lane_rows c1 c2 v q1 t1 q2 t2 cs1 cs2 st01 st02 a b hqL htL hq ht hcs hoff
  have hfin : RowRel t1.L a b (runKernel c1 v q1 t1 cs1 st01)
      (runKernel c2 v q2 t2 cs2 st02) := by
    show RowRel t1.L a b (afterRows c1 v q1 t1 cs1 st01 q1.L)
      (afterRows c2 v q2 t2 cs2 st02 q2.L)
    rw [← hqL]
    exact hrows q1.L (le_refl _)
  refine ⟨hfin.score_eq, hfin.i2_eq, hfin.j2_eq, ?_⟩
  intro i j hi1 hi2 hj1 hj2
  obtain ⟨n, rfl⟩ : ∃ n, i = n + 1 := ⟨i - 1, by omega⟩
  have hcell := lane_cells c1 c2 v q1 t1 q2 t2 cs1 cs2 st01 st02 a b hqL hq ht hcs n
    (fun j hj => hoff n j (by omega) hj) (hrows n (by omega)) (j - 1) (by omega)
  obtain ⟨_, hsj⟩ := stateAtCell_ij c1 v q1 t1 cs1 st01 (n + 1) (j - 1) (by omega)
  exact byte_agree v q1 t1 q2 t2 _ _ t1.L a b hcell (by rw [hsj]; omega) hq ht

theorem extractResult_congr (maxres : Nat) (st stb : KState F) (res0 : ViterbiResult F)
    (h1 : st.score_vec = stb.score_vec) (h2 : st.i2_vec = stb.i2_vec)
    (h3 : st.j2_vec = stb.j2_vec) :
    extractResult maxres st res0 = extractResult maxres stb res0 := by
  unfold extractResult
  rw [h1, h2, h3]

theorem exclBit_zero (k : Lane) : exclBit 0 k = false := Nat.zero_testBit _

theorem alignKernel_fst (c : Bool) (v : Viterbi F) (q t : HMMSimd F)
    (colScore : Nat → Nat → simd_float F) (maxres : Nat) (st0 : KState F)
    (res0 : ViterbiResult F) :
    alignKernel c v q t colScore maxres st0 res0 =
      (extractResult maxres (runKernel c v q t colScore st0) res0,
        runKernel c v q t colScore st0) := by
  cases c <;> rfl

/-- C14: lane independence, for either compiled variant. Lane `a` of one run and lane
`b` of another run report the same score and the same coordinates, and byte `a` of every
written backtrace word of the first run equals byte `b` of the second, as soon as the
two runs have the same lengths and agree on the query transitions, the template
transitions, the column scores and (under `VITERBI_CELLOFF`) the exclusion bits of these
two lanes; nothing is assumed about the other lanes, about the other bits of the matrix,
or about the rest of the memory. With `a = b = k` this says that changing the data of
the other lanes does not change the outputs of lane `k`; with a second run that carries
the data of lane `k` in lane `b` it says that the outputs are those of a run on the data
of lane `k` alone. -/
theorem C14_lane_independence (celloff : Bool) (v : Viterbi F) (q1 t1 q2 t2 : HMMSimd F)
    (cs1 cs2 : Nat → Nat → simd_float F) (maxres : Nat) (st01 st02 : KState F)
    (res01 res02 : ViterbiResult F) (a b : Lane)
    (ha : a.val < maxres) (hb : b.val < maxres)
    (hqL : q1.L = q2.L) (htL : t1.L = t2.L)
    (hq : ∀ n, q1.tr n a = q2.tr n b) (ht : ∀ n, t1.tr n a = t2.tr n b)
    (hcs : ∀ i j, cs1 i j a = cs2 i j b)
    (hx : celloff = true → ∀ i j, 1 ≤ i → i ≤ q1.L → 1 ≤ j → j ≤ t1.L →
      exclBit (st01.matrix i j) a = exclBit (st02.matrix i j) b) :
    (alignKernel celloff v q1 t1 cs1 maxres st01 res01).1.score a.val =
      (alignKernel celloff v q2 t2 cs2 maxres st02 res02).1.score b.val ∧
    (alignKernel celloff v q1 t1 cs1 maxres st01 res01).1.i a.val =
      (alignKernel celloff v q2 t2 cs2 maxres st02 res02).1.i b.val ∧
    (alignKernel celloff v q1 t1 cs1 maxres st01 res01).1.j a.val =
      (alignKernel celloff v q2 t2 cs2 maxres st02 res02).1.j b.val ∧
    (∀ i j, 1 ≤ i → i ≤ q1.L → 1 ≤ j → j ≤ t1.L →
      wordByte ((alignKernel celloff v q1 t1 cs1 maxres st01 res01).2.matrix i j) a =
        wordByte ((alignKernel celloff v q2 t2 cs2 maxres st02 res02).2.matrix i j) b) := by
  obtain ⟨h1, h2, h3, h4⟩ := lane_run_agree celloff v q1 t1 q2 t2 cs1 cs2 st01 st02 a b
    hqL htL hq ht hcs hx
  obtain ⟨r1, r2, r3⟩ := extractResult_lane maxres (runKernel celloff v q1 t1 cs1 st01)
    res01 a ha
  obtain ⟨s1, s2, s3⟩ := extractResult_lane maxres (runKernel celloff v q2 t2 cs2 st02)
    res02 b hb
  rw [alignKernel_fst, alignKernel_fst]
  refine ⟨by rw [r1, s1, h1], by rw [r2, s2, h2], by rw [r3, s3, h3], ?_⟩
  intro i j hi1 hi2 hj1 hj2
  show wordByte ((runKernel celloff v q1 t1 cs1 st01).matrix i j) a =
    wordByte ((runKernel celloff v q2 t2 cs2 st02).matrix i j) b
  rw [final_byte celloff v q1 t1 cs1 st01 a i j hi1 hi2 hj1 hj2,
    final_byte celloff v q2 t2 cs2 st02 b i j hi1 (by omega) hj1 (by omega)]
  exact h4 i j hi1 hi2 hj1 hj2

/-- C14 on the 3 x 3 instance over the integers, `AlignWithCellOff`: the second run has
other template transitions in lanes 1 to 3 and starts from a memory without exclusion
bits in lane 1; lane 0 reports the same score. -/
theorem C14_lane_independence_witness :
    (0 : Lane).val < 4 ∧ (exHMM 3).L = (exHMM 3).L ∧ (exHMM 3).L = (exHMMLanes 3).L ∧
    (∀ n, (exHMM 3).tr n 0 = (exHMM 3).tr n 0) ∧
    (∀ n, (exHMM 3).tr n 0 = (exHMMLanes 3).tr n 0) ∧
    (∀ i j, exDiag i j 0 = exDiag i j 0) ∧
    (∀ i j, 1 ≤ i → i ≤ (exHMM 3).L → 1 ≤ j → j ≤ (exHMM 3).L →
      exclBit (exStateX.matrix i j) 0 =
        exclBit (({ exStateX with matrix := fun i j => exStateX.matrix i j % 32768 } :
          KState Int).matrix i j) 0) ∧
    (alignKernel true (exViterbi true) (exHMM 3) (exHMM 3) exDiag 4 exStateX exRes0).1.score
        (0 : Lane).val =
      (alignKernel true (exViterbi true) (exHMM 3) (exHMMLanes 3) exDiag 4
        { exStateX with matrix := fun i j => exStateX.matrix i j % 32768 } exRes0).1.score
        (0 : Lane).val :=
  have hx : ∀ i j, 1 ≤ i → i ≤ (exHMM 3).L → 1 ≤ j → j ≤ (exHMM 3).L →
      exclBit (exStateX.matrix i j) 0 =
        exclBit (({ exStateX with matrix := fun i j => exStateX.matrix i j % 32768 } :
          KState Int).matrix i j) 0 := by
    intro i j _ _ _ _
    show exclBit (if i = 2 ∧ j = 2 then 128 else if i = 1 ∧ j = 1 then 32768 else 0) 0 =
      exclBit ((if i = 2 ∧ j = 2 then 128 else if i = 1 ∧ j = 1 then 32768 else 0) % 32768) 0
    split_ifs <;> decide
  ⟨by decide, rfl, rfl, fun _ => rfl, fun _ => rfl, fun _ _ => rfl, hx,
    (C14_lane_independence true (exViterbi true) (exHMM 3) (exHMM 3) (exHMM 3)
      (exHMMLanes 3) exDiag exDiag 4 exStateX
      { exStateX with matrix := fun i j => exStateX.matrix i j % 32768 } exRes0 exRes0 0 0
      (by decide) (by decide) rfl rfl (fun _ => rfl) (fun _ => rfl) (fun _ _ => rfl)
      (fun _ => hx)).1⟩

/-- C16: determinism under buffer reuse. Two runs of `AlignWithOutCellOff` on the same
query, templates, penalties, shift, mode and column scores, started from two arbitrary
contents `st0` and `st0b` of the memory (rolling row buffer, backtrace matrix, local
variables), return the same result arrays and leave the same word in every cell
`1 ≤ i ≤ Lq`, `1 ≤ j ≤ Lt` of the backtrace matrix. -/
theorem C16_determinism (v : Viterbi F) (q t : HMMSimd F)
    (colScore : Nat → Nat → simd_float F) (maxres : Nat) (st0 st0b : KState F)
    (res0 : ViterbiResult F) :
    (AlignWithOutCellOff v q t colScore maxres st0 res0).1 =
      (AlignWithOutCellOff v q t colScore maxres st0b res0).1 ∧
    (∀ i j, 1 ≤ i → i ≤ q.L → 1 ≤ j → j ≤ t.L →
      (AlignWithOutCellOff v q t colScore maxres st0 res0).2.matrix i j =
        (AlignWithOutCellOff v q t colScore maxres st0b res0).2.matrix i j) := by
  have h := fun k : Lane => lane_run_agree false v q t q t colScore colScore st0 st0b k k
    rfl rfl (fun _ => rfl) (fun _ => rfl) (fun _ _ => rfl) (fun hc => absurd hc (by decide))
  have e1 : (runKernel false v q t colScore st0).score_vec =
      (runKernel false v q t colScore st0b).score_vec := funext fun k => (h k).1
  have e2 : (runKernel false v q t colScore st0).i2_vec =
      (runKernel false v q t colScore st0b).i2_vec := funext fun k => (h k).2.1
  have e3 : (runKernel false v q t colScore st0).j2_vec =
      (runKernel false v q t colScore st0b).j2_vec := funext fun k => (h k).2.2.1
  constructor
  · show extractResult maxres (runKernel false v q t colScore st0) res0 =
      extractResult maxres (runKernel false v q t colScore st0b) res0
    exact extractResult_congr maxres _ _ res0 e1 e2 e3
  · intro i j hi1 hi2 hj1 hj2
    show (afterRows false v q t colScore st0 q.L).matrix i j =
      (afterRows false v q t colScore st0b q.L).matrix i j
    rw [afterRows_matrix, afterRows_matrix, if_pos ⟨hi1, hi2, hj1, hj2⟩,
      if_pos ⟨hi1, hi2, hj1, hj2⟩]
    have hb : byte_result_all v q t (stateAtCell false v q t colScore st0 i (j - 1)) =
        byte_result_all v q t (stateAtCell false v q t colScore st0b i (j - 1)) :=
      funext fun k => (h k).2.2.2 i j hi1 hi2 hj1 hj2
    unfold writtenWord
    rw [hb]

/-- C29: when on entry no cell `1 ≤ i ≤ Lq`, `1 ≤ j ≤ Lt` of the backtrace matrix has
the exclusion bit set in any lane, `AlignWithCellOff` returns the same result arrays as
`AlignWithOutCellOff` on the same inputs and the same memory, and leaves the same word in
every cell of the grid. -/
theorem C29_variants_agree (v : Viterbi F) (q t : HMMSimd F)
    (colScore : Nat → Nat → simd_float F) (maxres : Nat) (st0 : KState F)
    (res0 : ViterbiResult F)
    (hx : ∀ i j, 1 ≤ i → i ≤ q.L → 1 ≤ j → j ≤ t.L → ∀ k : Lane,
      exclBit (st0.matrix i j) k = false) :
    (AlignWithCellOff v q t colScore maxres st0 res0).1 =
      (AlignWithOutCellOff v q t colScore maxres st0 res0).1 ∧
    (∀ i j, 1 ≤ i → i ≤ q.L → 1 ≤ j → j ≤ t.L →
      (AlignWithCellOff v q t colScore maxres st0 res0).2.matrix i j =
        (AlignWithOutCellOff v q t colScore maxres st0 res0).2.matrix i j) := by
  have h := fun k : Lane => lane_run_agree_of_off true false v q t q t colScore colScore
    st0 st0 k k rfl rfl (fun _ => rfl) (fun _ => rfl) (fun _ _ => rfl)
    (by
      intro n j hn hj
      obtain ⟨hsi, hsj⟩ := stateAtCell_ij true v q t colScore st0 (n + 1) j (by omega)
      rw [cell_off_lane, cell_off_false, hsi, hsj, unwritten_entry,
        hx (n + 1) (j + 1) (by omega) (by omega) (by omega) (by omega) k]
      rfl)
  have e1 : (runKernel true v q t colScore st0).score_vec =
      (runKernel false v q t colScore st0).score_vec := funext fun k => (h k).1
  have e2 : (runKernel true v q t colScore st0).i2_vec =
      (runKernel false v q t colScore st0).i2_vec := funext fun k => (h k).2.1
  have e3 : (runKernel true v q t colScore st0).j2_vec =
      (runKernel false v q t colScore st0).j2_vec := funext fun k => (h k).2.2.1
  constructor
  · show extractResult maxres (runKernel true v q t colScore st0) res0 =
      extractResult maxres (runKernel false v q t colScore st0) res0
    exact extractResult_congr maxres _ _ res0 e1 e2 e3
  · intro i j hi1 hi2 hj1 hj2
    show (afterRows true v q t colScore st0 q.L).matrix i j =
      (afterRows false v q t colScore st0 q.L).matrix i j
    rw [afterRows_matrix, afterRows_matrix, if_pos ⟨hi1, hi2, hj1, hj2⟩,
      if_pos ⟨hi1, hi2, hj1, hj2⟩]
    have hb : byte_result_all v q t (stateAtCell true v q t colScore st0 i (j - 1)) =
        byte_result_all v q t (stateAtCell false v q t colScore st0 i (j - 1)) :=
      funext fun k => (h k).2.2.2 i j hi1 hi2 hj1 hj2
    unfold writtenWord
    rw [hb]

/-- C29 on the local 3 x 3 instance over the integers, whose memory holds a matrix of
zeros: both variants report the score 6 in lane 0. -/
theorem C29_variants_agree_witness :
    (∀ i j, 1 ≤ i → i ≤ (exHMM 3).L → 1 ≤ j → j ≤ (exHMM 3).L → ∀ k : Lane,
      exclBit (exState0.matrix i j) k = false) ∧
    (AlignWithCellOff (exViterbi true) (exHMM 3) (exHMM 3) exDiag 4 exState0 exRes0).1 =
      (AlignWithOutCellOff (exViterbi true) (exHMM 3) (exHMM 3) exDiag 4 exState0 exRes0).1 :=
  ⟨fun _ _ _ _ _ _ k => exclBit_zero k,
    (C29_variants_agree (exViterbi true) (exHMM 3) (exHMM 3) exDiag 4 exState0 exRes0
      (fun _ _ _ _ _ _ k => exclBit_zero k)).1⟩

/-- C12 on the local 3 x 3 instance over the integers with cell `(2,2)` excluded in
lane 0. -/
theorem C12_exclusion_lowers_best_witness :
    0 ≤ (exViterbi true).FLT_MAX ∧ (0 : Lane).val < 4 ∧
    (AlignWithCellOff (exViterbi true) (exHMM 3) (exHMM 3) exDiag 4 exStateX
        exRes0).1.score (0 : Lane).val ≤
      (AlignWithOutCellOff (exViterbi true) (exHMM 3) (exHMM 3) exDiag 4 exStateX
        exRes0).1.score (0 : Lane).val :=
  ⟨by decide, by decide,
    (C12_exclusion_lowers_best (exViterbi true) (exHMM 3) (exHMM 3) exDiag 4 exStateX exRes0
      0 (by decide) (by decide)).1⟩

end LaneClaims

/-! ## The two concrete scenarios -/

section Scenarios

set_option maxRecDepth 1000000 in
theorem scenario_local_exState0 :
    (runKernel false (exViterbi true) (exHMM 3) (exHMM 3) exDiag exState0).score_vec 0 = 6 ∧
    (runKernel false (exViterbi true) (exHMM 3) (exHMM 3) exDiag exState0).i2_vec 0 = 3 ∧
    (runKernel false (exViterbi true) (exHMM 3) (exHMM 3) exDiag exState0).j2_vec 0 = 3 ∧
    wordByte ((runKernel false (exViterbi true) (exHMM 3) (exHMM 3) exDiag
      exState0).matrix 1 1) 0 = 122 ∧
    wordByte ((runKernel false (exViterbi true) (exHMM 3) (exHMM 3) exDiag
      exState0).matrix 2 2) 0 = 122 ∧
    wordByte ((runKernel false (exViterbi true) (exHMM 3) (exHMM 3) exDiag
      exState0).matrix 3 3) 0 = 122 := by
  decide

set_option maxRecDepth 1000000 in
theorem scenario_global_exState0 :
    (runKernel false (exViterbi false) (exHMM 3) (exHMM 5) exDiag exState0).score_vec 0 = 6 ∧
    (runKernel false (exViterbi false) (exHMM 3) (exHMM 5) exDiag exState0).i2_vec 0 = 3 ∧
    (runKernel false (exViterbi false) (exHMM 3) (exHMM 5) exDiag exState0).j2_vec 0 = 3 := by
  decide

/-- C17: the local 3 x 3 scenario (column score 2 on the diagonal and 0 elsewhere, `M2M`
transitions 0, gap transitions -1, end-gap penalties 1, shift 0, no exclusion), run by
`AlignWithOutCellOff` from any memory contents: every lane reports the best score 6 at
the coordinates `(3,3)`, and the low three bits of the backtrace byte of the cells
`(1,1)`, `(2,2)` and `(3,3)` are the MM code 2. -/
theorem C17_local_scenario (st0 : KState Int) (res0 : ViterbiResult Int) (k : Lane) :
    (AlignWithOutCellOff (exViterbi true) (exHMM 3) (exHMM 3) exDiag 4 st0 res0).1.score
      k.val = 6 ∧
    (AlignWithOutCellOff (exViterbi true) (exHMM 3) (exHMM 3) exDiag 4 st0 res0).1.i
      k.val = 3 ∧
    (AlignWithOutCellOff (exViterbi true) (exHMM 3) (exHMM 3) exDiag 4 st0 res0).1.j
      k.val = 3 ∧
    wordByte ((AlignWithOutCellOff (exViterbi true) (exHMM 3) (exHMM 3) exDiag 4 st0
      res0).2.matrix 1 1) k % 8 = 2 ∧
    wordByte ((AlignWithOutCellOff (exViterbi true) (exHMM 3) (exHMM 3) exDiag 4 st0
      res0).2.matrix 2 2) k % 8 = 2 ∧
    wordByte ((AlignWithOutCellOff (exViterbi true) (exHMM 3) (exHMM 3) exDiag 4 st0
      res0).2.matrix 3 3) k % 8 = 2 := by
  obtain ⟨h1, h2, h3, h4⟩ := lane_run_agree false (exViterbi true) (exHMM 3) (exHMM 3)
    (exHMM 3) (exHMM 3) exDiag exDiag st0 exState0 k 0 rfl rfl (fun _ => rfl) (fun _ => rfl)
    (fun _ _ => rfl) (fun hc => absurd hc (by decide))
  obtain ⟨r1, r2, r3⟩ := extractResult_lane 4
    (runKernel false (exViterbi true) (exHMM 3) (exHMM 3) exDiag st0) res0 k k.isLt
  obtain ⟨e1, e2, e3, e4, e5, e6⟩ := scenario_local_exState0
  have hb : ∀ i j, 1 ≤ i → i ≤ 3 → 1 ≤ j → j ≤ 3 →
      wordByte ((runKernel false (exViterbi true) (exHMM 3) (exHMM 3) exDiag st0).matrix
        i j) k =
      wordByte ((runKernel false (exViterbi true) (exHMM 3) (exHMM 3) exDiag
        exState0).matrix i j) 0 := by
    intro i j hi1 hi2 hj1 hj2
    rw [final_byte false (exViterbi true) (exHMM 3) (exHMM 3) exDiag st0 k i j hi1 hi2 hj1
        hj2,
      final_byte false (exViterbi true) (exHMM 3) (exHMM 3) exDiag exState0 0 i j hi1 hi2
        hj1 hj2]
    exact h4 i j hi1 hi2 hj1 hj2
  refine ⟨r1.trans (h1.trans e1), r2.trans (h2.trans e2), r3.trans (h3.trans e3), ?_, ?_, ?_⟩
  · show wordByte ((runKernel false (exViterbi true) (exHMM 3) (exHMM 3) exDiag st0).matrix
      1 1) k % 8 = 2
    rw [hb 1 1 (by decide) (by decide) (by decide) (by decide), e4]
  · show wordByte ((runKernel false (exViterbi true) (exHMM 3) (exHMM 3) exDiag st0).matrix
      2 2) k % 8 = 2
    rw [hb 2 2 (by decide) (by decide) (by decide) (by decide), e5]
  · show wordByte ((runKernel false (exViterbi true) (exHMM 3) (exHMM 3) exDiag st0).matrix
      3 3) k % 8 = 2
    rw [hb 3 3 (by decide) (by decide) (by decide) (by decide), e6]

set_option maxRecDepth 1000000 in
/-- C18 (the claim fails): the global 3 x 5 scenario run by `AlignWithOutCellOff`
reports the score 6 in lane 0, not 4. The cell `(3,3)` of the last row holds
`MM(3,3) = 6`, the corner cell holds `MM(3,5) = 1`, and the maximum is taken over the
whole last row and last column. -/
theorem C18_global_scenario_not_four :
    (AlignWithOutCellOff (exViterbi false) (exHMM 3) (exHMM 5) exDiag 4 exState0
      exRes0).1.score 0 = 6 ∧
    (AlignWithOutCellOff (exViterbi false) (exHMM 3) (exHMM 5) exDiag 4 exState0
      exRes0).1.score 0 ≠ 4 ∧
    (exViterbi false).local_mode = false ∧ (exHMM 3).L = 3 ∧ (exHMM 5).L = 5 ∧
    (fullMatrix (exViterbi false) (exHMM 3) (exHMM 5) exDiag 0 3 3).MM = 6 ∧
    (fullMatrix (exViterbi false) (exHMM 3) (exHMM 5) exDiag 0 3 5).MM = 1 := by
  decide

/-- C18 (amended): the global 3 x 5 scenario, run by `AlignWithOutCellOff` from any
memory contents, reports in every lane the three-match score 6 at the coordinates
`(3,3)`, a cell of the last row; the two template columns that follow cost nothing. -/
theorem C18_global_scenario_six (st0 : KState Int) (res0 : ViterbiResult Int) (k : Lane) :
    (AlignWithOutCellOff (exViterbi false) (exHMM 3) (exHMM 5) exDiag 4 st0 res0).1.score
      k.val = 6 ∧
    (AlignWithOutCellOff (exViterbi false) (exHMM 3) (exHMM 5) exDiag 4 st0 res0).1.i
      k.val = 3 ∧
    (AlignWithOutCellOff (exViterbi false) (exHMM 3) (exHMM 5) exDiag 4 st0 res0).1.j
      k.val = 3 := by
  obtain ⟨h1, h2, h3, _⟩ := lane_run_agree false (exViterbi false) (exHMM 3) (exHMM 5)
    (exHMM 3) (exHMM 5) exDiag exDiag st0 exState0 k 0 rfl rfl (fun _ => rfl) (fun _ => rfl)
    (fun _ _ => rfl) (fun hc => absurd hc (by decide))
  obtain ⟨r1, r2, r3⟩ := extractResult_lane 4
    (runKernel false (exViterbi false) (exHMM 3) (exHMM 5) exDiag st0) res0 k k.isLt
  obtain ⟨e1, e2, e3⟩ := scenario_global_exState0
  exact ⟨r1.trans (h1.trans e1), r2.trans (h2.trans e2), r3.trans (h3.trans e3)⟩

end Scenarios

/-! ## Claims on the written bytes and on the exclusion bit -/

section ByteClaims

variable {F : Type} [LinearOrderedRing F]

/-- No predecessor candidate equals the six-way maximum exactly when `smin` is strictly
greater than all five. -/
theorem none_eq_max_iff (s a b c d e m : F)
    (hm : m = max s (max a (max b (max c (max d e))))) :
    (a ≠ m ∧ b ≠ m ∧ c ≠ m ∧ d ≠ m ∧ e ≠ m) ↔ (a < s ∧ b < s ∧ c < s ∧ d < s ∧ e < s) := by
  have hs : s ≤ m := hm ▸ le_max_left _ _
  have ha : a ≤ m := hm ▸ le_max_of_le_right (le_max_left _ _)
  have hb : b ≤ m := hm ▸ le_max_of_le_right (le_max_of_le_right (le_max_left _ _))
  have hc : c ≤ m :=
    hm ▸ le_max_of_le_right (le_max_of_le_right (le_max_of_le_right (le_max_left _ _)))
  have hd : d ≤ m :=
    hm ▸ le_max_of_le_right (le_max_of_le_right (le_max_of_le_right
      (le_max_of_le_right (le_max_left _ _))))
  have he : e ≤ m :=
    hm ▸ le_max_of_le_right (le_max_of_le_right (le_max_of_le_right
      (le_max_of_le_right (le_max_right _ _))))
  constructor
  · rintro ⟨h1, h2, h3, h4, h5⟩
    have hms : m = s := by
      rcases max_choice s (max a (max b (max c (max d e)))) with h | h
      · rw [hm, h]
      rcases max_choice a (max b (max c (max d e))) with h' | h'
      · exact absurd (by rw [hm, h, h']) h1
      rcases max_choice b (max c (max d e)) with h'' | h''
      · exact absurd (by rw [hm, h, h', h'']) h2
      rcases max_choice c (max d e) with h3' | h3'
      · exact absurd (by rw [hm, h, h', h'', h3']) h3
      rcases max_choice d e with h4' | h4'
      · exact absurd (by rw [hm, h, h', h'', h3', h4']) h4
      · exact absurd (by rw [hm, h, h', h'', h3', h4']) h5
    rw [← hms]
    exact ⟨lt_of_le_of_ne ha h1, lt_of_le_of_ne hb h2, lt_of_le_of_ne hc h3,
      lt_of_le_of_ne hd h4, lt_of_le_of_ne he h5⟩
  · rintro ⟨h1, h2, h3, h4, h5⟩
    exact ⟨ne_of_lt (lt_of_lt_of_le h1 hs), ne_of_lt (lt_of_lt_of_le h2 hs),
      ne_of_lt (lt_of_lt_of_le h3 hs), ne_of_lt (lt_of_lt_of_le h4 hs),
      ne_of_lt (lt_of_lt_of_le h5 hs)⟩

/-- A byte of at most 126 has its bit 7 clear. -/
theorem exclBit_of_byte_le (w : Nat) (k : Lane) (h : wordByte w k ≤ 126) :
    exclBit w k = false := by
  unfold exclBit
  rw [Nat.testBit_to_div_mod]
  unfold wordByte at h
  fin_cases k <;> norm_num at h ⊢ <;> omega

/-- C25: for every cell `(i,j)` with `1 ≤ i ≤ Lq`, `1 ≤ j ≤ Lt`, every lane and both
compiled variants, with `w` the byte found in the matrix when the kernel returns and the
candidates taken on the state on which the loop body of the cell runs: `w mod 8` is one
of 0, 2, 3, 4, 5, 6; it is 0 exactly when none of the five predecessor candidates equals
the six-way maximum, which is exactly when `smin` is strictly greater than all five; and
`w ≤ 126`. -/
theorem C25_codes_valid (celloff : Bool) (v : Viterbi F) (q t : HMMSimd F)
    (colScore : Nat → Nat → simd_float F) (st0 : KState F) (k : Lane) (i j : Nat)
    (hi1 : 1 ≤ i) (hi2 : i ≤ q.L) (hj1 : 1 ≤ j) (hj2 : j ≤ t.L) :
    (wordByte ((runKernel celloff v q t colScore st0).matrix i j) k % 8 = 0 ∨
     wordByte ((runKernel celloff v q t colScore st0).matrix i j) k % 8 = 2 ∨
     wordByte ((runKernel celloff v q t colScore st0).matrix i j) k % 8 = 3 ∨
     wordByte ((runKernel celloff v q t colScore st0).matrix i j) k % 8 = 4 ∨
     wordByte ((runKernel celloff v q t colScore st0).matrix i j) k % 8 = 5 ∨
     wordByte ((runKernel celloff v q t colScore st0).matrix i j) k % 8 = 6) ∧
    (wordByte ((runKernel celloff v q t colScore st0).matrix i j) k % 8 = 0 ↔
      (mm_m2m_m2m_vec q t (stateAtCell celloff v q t colScore st0 i (j - 1)) k ≠
          sMM_max6 v q t (stateAtCell celloff v q t colScore st0 i (j - 1)) k ∧
       gd_m2m_d2m_vec q t (stateAtCell celloff v q t colScore st0 i (j - 1)) k ≠
          sMM_max6 v q t (stateAtCell celloff v q t colScore st0 i (j - 1)) k ∧
       im_m2m_d2m_vec q t (stateAtCell celloff v q t colScore st0 i (j - 1)) k ≠
          sMM_max6 v q t (stateAtCell celloff v q t colScore st0 i (j - 1)) k ∧
       dg_m2m_d2m_vec q t (stateAtCell celloff v q t colScore st0 i (j - 1)) k ≠
          sMM_max6 v q t (stateAtCell celloff v q t colScore st0 i (j - 1)) k ∧
       mi_m2m_d2m_vec q t (stateAtCell celloff v q t colScore st0 i (j - 1)) k ≠
          sMM_max6 v q t (stateAtCell celloff v q t colScore st0 i (j - 1)) k)) ∧
    (wordByte ((runKernel celloff v q t colScore st0).matrix i j) k % 8 = 0 ↔
      (mm_m2m_m2m_vec q t (stateAtCell celloff v q t colScore st0 i (j - 1)) k < smin v ∧
       gd_m2m_d2m_vec q t (stateAtCell celloff v q t colScore st0 i (j - 1)) k < smin v ∧
       im_m2m_d2m_vec q t (stateAtCell celloff v q t colScore st0 i (j - 1)) k < smin v ∧
       dg_m2m_d2m_vec q t (stateAtCell celloff v q t colScore st0 i (j - 1)) k < smin v ∧
       mi_m2m_d2m_vec q t (stateAtCell celloff v q t colScore st0 i (j - 1)) k < smin v)) ∧
    wordByte ((runKernel celloff v q t colScore st0).matrix i j) k ≤ 126 := by
  rw [final_byte celloff v q t colScore st0 k i j hi1 hi2 hj1 hj2, byte_low3]
  generalize stateAtCell celloff v q t colScore st0 i (j - 1) = st
  have hm : sMM_max6 v q t st k = max (smin v) (max (mm_m2m_m2m_vec q t st k)
      (max (gd_m2m_d2m_vec q t st k) (max (im_m2m_d2m_vec q t st k)
        (max (dg_m2m_d2m_vec q t st k) (mi_m2m_d2m_vec q t st k))))) := by
    simp only [sMM_max6, simdf32_max, simdf32_set, max_assoc]
  have hiff := none_eq_max_iff (smin v) (mm_m2m_m2m_vec q t st k) (gd_m2m_d2m_vec q t st k)
    (im_m2m_d2m_vec q t st k) (dg_m2m_d2m_vec q t st k) (mi_m2m_d2m_vec q t st k)
    (sMM_max6 v q t st k) hm
  have h0 : byte_result_mm v q t st k = 0 ↔
      (mm_m2m_m2m_vec q t st k ≠ sMM_max6 v q t st k ∧
       gd_m2m_d2m_vec q t st k ≠ sMM_max6 v q t st k ∧
       im_m2m_d2m_vec q t st k ≠ sMM_max6 v q t st k ∧
       dg_m2m_d2m_vec q t st k ≠ sMM_max6 v q t st k ∧
       mi_m2m_d2m_vec q t st k ≠ sMM_max6 v q t st k) := by
    rw [byte_result_mm_lane]
    constructor
    · intro h
      split_ifs at h with c1 c2 c3 c4 c5
      exact ⟨c5, c4, c3, c2, c1⟩
    · rintro ⟨c5, c4, c3, c2, c1⟩
      rw [if_neg c1, if_neg c2, if_neg c3, if_neg c4, if_neg c5]
  refine ⟨?_, h0, h0.trans hiff, byte_result_all_le v q t st k⟩
  rw [byte_result_mm_lane]
  split_ifs <;> simp

/-- C25 at cell `(1,1)` of lane 0 of the local 3 x 3 instance over the
integers. -/
theorem C25_codes_valid_witness :
    1 ≤ 1 ∧ 1 ≤ (exHMM 3).L ∧
    wordByte ((runKernel false (exViterbi true) (exHMM 3) (exHMM 3) exDiag exState0).matrix
      1 1) 0 ≤ 126 :=
  ⟨by decide, by decide,
    (C25_codes_valid false (exViterbi true) (exHMM 3) (exHMM 3) exDiag exState0 0 1 1
      (by decide) (by decide) (by decide) (by decide)).2.2.2⟩

/-- C26: for every cell `(i,j)` with `1 ≤ i ≤ Lq`, `1 ≤ j ≤ Lt`, every lane and both
compiled variants, with `w` the byte found in the matrix when the kernel returns: bit 8
(GD), 16 (IM), 32 (DG), 64 (MI) of `w` is set exactly when the open-from-MM candidate of
the state is strictly greater than its extend candidate (so it is clear when the two are
equal), and `w` is the sum of the MM code and of these four bits, each of which depends
on its own comparison only. -/
theorem C26_gap_bits_strict (celloff : Bool) (v : Viterbi F) (q t : HMMSimd F)
    (colScore : Nat → Nat → simd_float F) (st0 : KState F) (k : Lane) (i j : Nat)
    (hi1 : 1 ≤ i) (hi2 : i ≤ q.L) (hj1 : 1 ≤ j) (hj2 : j ≤ t.L) :
    (wordByte ((runKernel celloff v q t colScore st0).matrix i j) k / 8 % 2 = 1 ↔
      gd_gd_vec t (stateAtCell celloff v q t colScore st0 i (j - 1)) k <
        mm_gd_vec t (stateAtCell celloff v q t colScore st0 i (j - 1)) k) ∧
    (wordByte ((runKernel celloff v q t colScore st0).matrix i j) k / 16 % 2 = 1 ↔
      im_im_vec q t (stateAtCell celloff v q t colScore st0 i (j - 1)) k <
        mm_mm_vec q t (stateAtCell celloff v q t colScore st0 i (j - 1)) k) ∧
    (wordByte ((runKernel celloff v q t colScore st0).matrix i j) k / 32 % 2 = 1 ↔
      dg_dg_vec q (stateAtCell celloff v q t colScore st0 i (j - 1)) k <
        mm_dg_vec q (stateAtCell celloff v q t colScore st0 i (j - 1)) k) ∧
    (wordByte ((runKernel celloff v q t colScore st0).matrix i j) k / 64 % 2 = 1 ↔
      mi_mi_vec q t (stateAtCell celloff v q t colScore st0 i (j - 1)) k <
        mm_mi_vec q t (stateAtCell celloff v q t colScore st0 i (j - 1)) k) ∧
    wordByte ((runKernel celloff v q t colScore st0).matrix i j) k =
      byte_result_mm v q t (stateAtCell celloff v q t colScore st0 i (j - 1)) k
        + (if gd_gd_vec t (stateAtCell celloff v q t colScore st0 i (j - 1)) k <
              mm_gd_vec t (stateAtCell celloff v q t colScore st0 i (j - 1)) k
            then 8 else 0)
        + (if im_im_vec q t (stateAtCell celloff v q t colScore st0 i (j - 1)) k <
              mm_mm_vec q t (stateAtCell celloff v q t colScore st0 i (j - 1)) k
            then 16 else 0)
        + (if dg_dg_vec q (stateAtCell celloff v q t colScore st0 i (j - 1)) k <
              mm_dg_vec q (stateAtCell celloff v q t colScore st0 i (j - 1)) k
            then 32 else 0)
        + (if mi_mi_vec q t (stateAtCell celloff v q t colScore st0 i (j - 1)) k <
              mm_mi_vec q t (stateAtCell celloff v q t colScore st0 i (j - 1)) k
            then 64 else 0) := by
  rw [final_byte celloff v q t colScore st0 k i j hi1 hi2 hj1 hj2]
  generalize stateAtCell celloff v q t colScore st0 i (j - 1) = st
  refine ⟨?_, ?_, ?_, ?_, byte_result_all_lane v q t st k⟩
  · rw [byte_bit8]
    split_ifs with h <;> simp [h]
  · rw [byte_bit16]
    split_ifs with h <;> simp [h]
  · rw [byte_bit32]
    split_ifs with h <;> simp [h]
  · rw [byte_bit64]
    split_ifs with h <;> simp [h]

set_option maxRecDepth 100000 in
/-- C26 at cell `(1,1)` of lane 0 of the local 3 x 3 instance over the integers: the
byte is 122, its bit 8 is set, and opening a gap (-2) beats extending one from the
sentinel. -/
theorem C26_gap_bits_strict_witness :
    1 ≤ 1 ∧ 1 ≤ (exHMM 3).L ∧
    wordByte ((runKernel false (exViterbi true) (exHMM 3) (exHMM 3) exDiag exState0).matrix
      1 1) 0 / 8 % 2 = 1 ∧
    gd_gd_vec (exHMM 3)
        (stateAtCell false (exViterbi true) (exHMM 3) (exHMM 3) exDiag exState0 1 (1 - 1)) 0 <
      mm_gd_vec (exHMM 3)
        (stateAtCell false (exViterbi true) (exHMM 3) (exHMM 3) exDiag exState0 1 (1 - 1)) 0 :=
  have h : wordByte ((runKernel false (exViterbi true) (exHMM 3) (exHMM 3) exDiag
      exState0).matrix 1 1) 0 / 8 % 2 = 1 := by decide
  ⟨by decide, by decide, h,
    (C26_gap_bits_strict false (exViterbi true) (exHMM 3) (exHMM 3) exDiag exState0 0 1 1
      (by decide) (by decide) (by decide) (by decide)).1.mp h⟩

/-- C27: after one invocation of `AlignWithCellOff`, for every cell `(i,j)` with
`1 ≤ i ≤ Lq`, `1 ≤ j ≤ Lt` and every lane, the stored byte is at most 126 and its
exclusion bit (bit 7) is clear, whatever the matrix held on entry. -/
theorem C27_mask_erased (v : Viterbi F) (q t : HMMSimd F)
    (colScore : Nat → Nat → simd_float F) (maxres : Nat) (st0 : KState F)
    (res0 : ViterbiResult F) (k : Lane) (i j : Nat)
    (hi1 : 1 ≤ i) (hi2 : i ≤ q.L) (hj1 : 1 ≤ j) (hj2 : j ≤ t.L) :
    wordByte ((AlignWithCellOff v q t colScore maxres st0 res0).2.matrix i j) k ≤ 126 ∧
    exclBit ((AlignWithCellOff v q t colScore maxres st0 res0).2.matrix i j) k = false := by
  have h : wordByte ((runKernel true v q t colScore st0).matrix i j) k ≤ 126 := by
    rw [final_byte true v q t colScore st0 k i j hi1 hi2 hj1 hj2]
    exact byte_result_all_le v q t _ k
  exact ⟨h, exclBit_of_byte_le _ k h⟩

/-- C27 on the local 3 x 3 instance whose memory has the exclusion bit of lane 0 set in
cell `(2,2)`: the bit is set on entry and clear on return. -/
theorem C27_mask_erased_witness :
    1 ≤ 2 ∧ 2 ≤ (exHMM 3).L ∧ exclBit (exStateX.matrix 2 2) 0 = true ∧
    exclBit ((AlignWithCellOff (exViterbi true) (exHMM 3) (exHMM 3) exDiag 4 exStateX
      exRes0).2.matrix 2 2) 0 = false :=
  ⟨by decide, by decide, by decide,
    (C27_mask_erased (exViterbi true) (exHMM 3) (exHMM 3) exDiag 4 exStateX exRes0 0 2 2
      (by decide) (by decide) (by decide) (by decide)).2⟩

end ByteClaims

/-! ## The running coordinates -/

section Track

variable {F : Type} [LinearOrderedRing F]

theorem allOnes_and (n : Nat) (h : n < 4294967296) : allOnes &&& n = n := by
  rw [Nat.and_comm]
  exact Nat.and_pow_two_sub_one_of_lt_two_pow (n := 32) h

theorem coordUpdate_gt (x s : F) (pos old : Nat) (h : s < x) :
    coordUpdate x s pos old = pos % 4294967296 := by
  unfold coordUpdate
  rw [if_pos h, if_neg (not_lt_of_gt h), Nat.zero_and, Nat.add_zero,
    allOnes_and _ (Nat.mod_lt _ (by decide)), Nat.mod_mod]

theorem coordUpdate_lt (x s : F) (pos old : Nat) (h : x < s) (ho : old < 4294967296) :
    coordUpdate x s pos old = old := by
  unfold coordUpdate
  rw [if_neg (not_lt_of_gt h), if_pos h, Nat.zero_and, Nat.zero_add, allOnes_and _ ho,
    Nat.mod_eq_of_lt ho]

theorem coordUpdate_eq (x s : F) (pos old : Nat) (h : x = s) :
    coordUpdate x s pos old = 0 := by
  unfold coordUpdate
  rw [h, if_neg (lt_irrefl s), Nat.zero_and, Nat.zero_and]

theorem coordUpdate_bound (x s : F) (pos old : Nat) :
    coordUpdate x s pos old < 4294967296 :=
  Nat.mod_lt _ (by decide)

theorem TrackInv.track_congr {val : Nat → Nat → F} {bot : F} {P P1 : Nat → Nat → Prop} {s : F}
    {a b : Nat} (h : TrackInv val bot P s a b) (hP : ∀ i j, P1 i j ↔ P i j) :
    TrackInv val bot P1 s a b :=
  { best := IsBestOver.congr h.best hP
    a_lt := h.a_lt
    b_lt := h.b_lt
    bot_zero := h.bot_zero
    unique_pos := fun i j hp hv hs hu =>
      h.unique_pos i j ((hP i j).1 hp) hv hs
        (fun i1 j1 hp1 hv1 => hu i1 j1 ((hP i1 j1).2 hp1) hv1)
    tie_zero := fun i j i1 j1 hp hv hp1 hv1 hne =>
      h.tie_zero i j i1 j1 ((hP i j).1 hp) hv ((hP i1 j1).1 hp1) hv1 hne }

/-- One comparison of the running maximum, at a position not compared before. -/
theorem TrackInv.track_insert {val : Nat → Nat → F} {bot : F} {P P1 : Nat → Nat → Prop} {s : F}
    {a b : Nat} (h : TrackInv val bot P s a b) (i0 j0 : Nat) (hnew : ¬ P i0 j0)
    (hP : ∀ i j, P1 i j ↔ P i j ∨ (i = i0 ∧ j = j0)) :
    TrackInv val bot P1 (max (val i0 j0) s) (coordUpdate (val i0 j0) s i0 a)
      (coordUpdate (val i0 j0) s j0 b) := by
  have hbest := IsBestOver.insert h.best i0 j0 hP
  obtain ⟨hb1, hb2, hb3⟩ := h.best
  rcases lt_trichotomy (val i0 j0) s with hlt | heq | hgt
  · -- the new score is smaller: nothing changes
    have hmax : max (val i0 j0) s = s := max_eq_right (le_of_lt hlt)
    have hold : ∀ i j, P1 i j → val i j = s → P i j := by
      intro i j hp hv
      rcases (hP i j).1 hp with hp | ⟨rfl, rfl⟩
      · exact hp
      · exact absurd hv (ne_of_lt hlt)
    rw [hmax] at hbest ⊢
    rw [coordUpdate_lt _ _ _ _ hlt h.a_lt, coordUpdate_lt _ _ _ _ hlt h.b_lt]
    exact
      { best := hbest
        a_lt := h.a_lt
        b_lt := h.b_lt
        bot_zero := h.bot_zero
        unique_pos := fun i j hp hv hs hu =>
          h.unique_pos i j (hold i j hp hv) hv hs
            (fun i1 j1 hp1 hv1 => hu i1 j1 ((hP i1 j1).2 (Or.inl hp1)) hv1)
        tie_zero := fun i j i1 j1 hp hv hp1 hv1 hne =>
          h.tie_zero i j i1 j1 (hold i j hp hv) hv (hold i1 j1 hp1 hv1) hv1 hne }
  · -- a tie: both coordinates are reset
    have hmax : max (val i0 j0) s = s := max_eq_right (le_of_eq heq)
    rw [hmax] at hbest ⊢
    rw [coordUpdate_eq _ _ _ _ heq, coordUpdate_eq _ _ _ _ heq]
    refine
      { best := hbest
        a_lt := by decide
        b_lt := by decide
        bot_zero := fun _ => ⟨rfl, rfl⟩
        unique_pos := ?_
        tie_zero := fun _ _ _ _ _ _ _ _ _ => ⟨rfl, rfl⟩ }
    intro i j _ _ hs hu
    exfalso
    rcases hb3 with hb3 | ⟨a1, b1, hp1, hx1⟩
    · exact absurd hb3 (ne_of_gt hs)
    · have e1 := hu a1 b1 ((hP a1 b1).2 (Or.inl hp1)) hx1.symm
      have e0 := hu i0 j0 ((hP i0 j0).2 (Or.inr ⟨rfl, rfl⟩)) heq
      apply hnew
      rw [e0.1, e0.2, ← e1.1, ← e1.2]
      exact hp1
  · -- the new score is greater: the coordinates are those of the comparison
    have hmax : max (val i0 j0) s = val i0 j0 := max_eq_left (le_of_lt hgt)
    have hnewonly : ∀ i j, P1 i j → val i j = val i0 j0 → i = i0 ∧ j = j0 := by
      intro i j hp hv
      rcases (hP i j).1 hp with hp | hp
      · exact absurd (hv ▸ hb2 i j hp) (not_le_of_gt hgt)
      · exact hp
    rw [hmax] at hbest ⊢
    rw [coordUpdate_gt _ _ _ _ hgt, coordUpdate_gt _ _ _ _ hgt]
    exact
      { best := hbest
        a_lt := Nat.mod_lt _ (by decide)
        b_lt := Nat.mod_lt _ (by decide)
        bot_zero := fun hs => absurd hs (ne_of_gt (lt_of_le_of_lt hb1 hgt))
        unique_pos := fun i j hp hv _ _ => by
          obtain ⟨rfl, rfl⟩ := hnewonly i j hp hv
          exact ⟨rfl, rfl⟩
        tie_zero := fun i j i1 j1 hp hv hp1 hv1 hne => by
          obtain ⟨rfl, rfl⟩ := hnewonly i j hp hv
          exact absurd (hnewonly i1 j1 hp1 hv1) hne }

theorem afterTopRow_coords (v : Viterbi F) (t : HMMSimd F) (st0 : KState F) (k : Lane) :
    (afterTopRow v t st0).i2_vec k = 0 ∧ (afterTopRow v t st0).j2_vec k = 0 := by
  obtain ⟨buf, hst, _⟩ := forLoop_topRow v (declInit v st0) (t.L + 1)
  unfold afterTopRow
  rw [hst]
  exact ⟨rfl, rfl⟩

/-- Invariant of the running score and coordinates inside row `n+1`. -/
theorem track_invariant_cell (celloff : Bool) (v : Viterbi F) (q t : HMMSimd F)
    (colScore : Nat → Nat → simd_float F) (st0 : KState F) (k : Lane) (n : Nat)
    (hrows : TrackInv (evVal celloff v q t colScore st0 k) (-v.FLT_MAX)
      (seenEvRows v.local_mode q.L t.L n)
      ((afterRows celloff v q t colScore st0 n).score_vec k)
      ((afterRows celloff v q t colScore st0 n).i2_vec k)
      ((afterRows celloff v q t colScore st0 n).j2_vec k))
    (j : Nat) (hj : j ≤ t.L) :
    TrackInv (evVal celloff v q t colScore st0 k) (-v.FLT_MAX)
      (seenEvCell v.local_mode q.L t.L (n + 1) j)
      ((stateAtCell celloff v q t colScore st0 (n + 1) j).score_vec k)
      ((stateAtCell celloff v q t colScore st0 (n + 1) j).i2_vec k)
      ((stateAtCell celloff v q t colScore st0 (n + 1) j).j2_vec k) := by
  induction j with
  | zero =>
    refine TrackInv.track_congr hrows ?_
    intro a b
    unfold seenEvCell seenEvRows
    constructor
    · rintro (⟨h1, h2⟩ | ⟨_, h3, h4, _⟩)
      · exact ⟨by omega, h2⟩
      · omega
    · rintro ⟨h1, h2⟩
      exact Or.inl ⟨by omega, h2⟩
  | succ j ih =>
    have ih1 := ih (by omega)
    obtain ⟨hsi, hsj⟩ := stateAtCell_ij celloff v q t colScore st0 (n + 1) j (by omega)
    obtain ⟨hci, hcj⟩ := cellStep_coords celloff v q t colScore
      (stateAtCell celloff v q t colScore st0 (n + 1) j) k
    rw [stateAtCell_succ]
    show TrackInv _ _ _
      ((cellStep celloff v q t colScore
        (stateAtCell celloff v q t colScore st0 (n + 1) j)).score_vec k)
      ((cellStep celloff v q t colScore
        (stateAtCell celloff v q t colScore st0 (n + 1) j)).i2_vec k)
      ((cellStep celloff v q t colScore
        (stateAtCell celloff v q t colScore st0 (n + 1) j)).j2_vec k)
    rw [cellStep_score, hci, hcj, hsi, hsj]
    by_cases hc : v.local_mode = true ∨ n + 1 = q.L
    · rw [if_pos hc, if_pos hc, if_pos hc]
      have e : (cellStep celloff v q t colScore
          (stateAtCell celloff v q t colScore st0 (n + 1) j)).sMM_i_j k =
          evVal celloff v q t colScore st0 k (n + 1) (j + 1) := by
        unfold evVal
        rw [Nat.min_eq_left hj]
        rfl
      rw [e]
      refine TrackInv.track_insert ih1 (n + 1) (j + 1) ?_ ?_
      · unfold seenEvCell
        rintro (⟨h1, _⟩ | ⟨_, _, h3, _⟩) <;> omega
      · intro a b
        unfold seenEvCell
        constructor
        · rintro (h | ⟨h1, h2, h3, h4⟩)
          · exact Or.inl (Or.inl h)
          · by_cases hb : b = j + 1
            · exact Or.inr ⟨h1, hb⟩
            · exact Or.inl (Or.inr ⟨h1, h2, by omega, h4⟩)
        · rintro ((h | ⟨h1, h2, h3, h4⟩) | ⟨h1, h2⟩)
          · exact Or.inl h
          · exact Or.inr ⟨h1, h2, by omega, h4⟩
          · exact Or.inr ⟨h1, by omega, by omega, hc⟩
    · rw [if_neg hc, if_neg hc, if_neg hc]
      refine TrackInv.track_congr ih1 ?_
      intro a b
      unfold seenEvCell
      constructor
      · rintro (h | ⟨_, _, _, h4⟩)
        · exact Or.inl h
        · exact absurd h4 hc
      · rintro (h | ⟨_, _, _, h4⟩)
        · exact Or.inl h
        · exact absurd h4 hc

/-- Invariant of the running score and coordinates after `n` rows. -/
theorem track_invariant_rows (celloff : Bool) (v : Viterbi F) (q t : HMMSimd F)
    (colScore : Nat → Nat → simd_float F) (st0 : KState F) (k : Lane)
    (n : Nat) (hn : n ≤ q.L) :
    TrackInv (evVal celloff v q t colScore st0 k) (-v.FLT_MAX)
      (seenEvRows v.local_mode q.L t.L n)
      ((afterRows celloff v q t colScore st0 n).score_vec k)
      ((afterRows celloff v q t colScore st0 n).i2_vec k)
      ((afterRows celloff v q t colScore st0 n).j2_vec k) := by
  induction n with
  | zero =>
    have e : afterRows celloff v q t colScore st0 0 = { afterTopRow v t st0 with i := 1 } :=
      rfl
    have hs : (afterRows celloff v q t colScore st0 0).score_vec k = -v.FLT_MAX := by
      rw [e]
      exact afterTopRow_score v t st0 k
    have hi : (afterRows celloff v q t colScore st0 0).i2_vec k = 0 := by
      rw [e]
      exact (afterTopRow_coords v t st0 k).1
    have hj : (afterRows celloff v q t colScore st0 0).j2_vec k = 0 := by
      rw [e]
      exact (afterTopRow_coords v t st0 k).2
    have hempty : ∀ a b, ¬ seenEvRows v.local_mode q.L t.L 0 a b := by
      intro a b hab
      unfold seenEvRows isEv at hab
      omega
    rw [hs, hi, hj]
    exact
      { best := ⟨le_refl _, fun a b hab => absurd hab (hempty a b), Or.inl rfl⟩
        a_lt := by decide
        b_lt := by decide
        bot_zero := fun _ => ⟨rfl, rfl⟩
        unique_pos := fun i j hp => absurd hp (hempty i j)
        tie_zero := fun i j _ _ hp => absurd hp (hempty i j) }
  | succ n ih =>
    have hcell := track_invariant_cell celloff v q t colScore st0 k n (ih (by omega))
      t.L (le_refl _)
    obtain ⟨hsi, hsj⟩ := stateAtCell_ij celloff v q t colScore st0 (n + 1) t.L (by omega)
    rw [afterRows_succ, rowBody_eq]
    by_cases hloc : v.local_mode = true
    · have e : (!v.local_mode) = false := by simp [hloc]
      rw [e]
      show TrackInv _ _ _ ((stateAtCell celloff v q t colScore st0 (n + 1) t.L).score_vec k)
        ((stateAtCell celloff v q t colScore st0 (n + 1) t.L).i2_vec k)
        ((stateAtCell celloff v q t colScore st0 (n + 1) t.L).j2_vec k)
      refine TrackInv.track_congr hcell ?_
      intro a b
      unfold seenEvRows seenEvCell isEv
      constructor
      · rintro ⟨h1, h2, h3, h4⟩
        by_cases ha : a = n + 1
        · rcases h4 with ⟨h4, h5, _⟩ | ⟨_, h5⟩
          · exact Or.inr ⟨ha, h4, h5, Or.inl hloc⟩
          · rw [hloc] at h5
            exact absurd h5 (by decide)
        · exact Or.inl ⟨by omega, h2, h3, h4⟩
      · rintro (⟨h1, h2⟩ | ⟨h1, h2, h3, h4⟩)
        · exact ⟨by omega, h2⟩
        · exact ⟨by omega, by omega, by omega, Or.inl ⟨h2, h3, Or.inl hloc⟩⟩
    · have hglob : v.local_mode = false := by simpa using hloc
      have e : (!v.local_mode) = true := by simp [hglob]
      rw [e]
      show TrackInv _ _ _
        ((updateBest (stateAtCell celloff v q t colScore st0 (n + 1) t.L)).score_vec k)
        ((updateBest (stateAtCell celloff v q t colScore st0 (n + 1) t.L)).i2_vec k)
        ((updateBest (stateAtCell celloff v q t colScore st0 (n + 1) t.L)).j2_vec k)
      rw [updateBest_score, (updateBest_coords _ k).1, (updateBest_coords _ k).2, hsi, hsj]
      have e2 : (stateAtCell celloff v q t colScore st0 (n + 1) t.L).sMM_i_j k =
          evVal celloff v q t colScore st0 k (n + 1) (t.L + 1) := by
        unfold evVal
        rw [Nat.min_eq_right (Nat.le_succ _)]
        rfl
      rw [e2]
      refine TrackInv.track_insert hcell (n + 1) (t.L + 1) ?_ ?_
      · unfold seenEvCell isEv
        rintro (⟨h1, _⟩ | ⟨_, _, h3, _⟩) <;> omega
      · intro a b
        unfold seenEvRows seenEvCell isEv
        constructor
        · rintro ⟨h1, h2, h3, h4⟩
          by_cases ha : a = n + 1
          · rcases h4 with ⟨h4, h5, h6⟩ | ⟨h4, _⟩
            · rcases h6 with h6 | h6
              · exact absurd h6 hloc
              · exact Or.inl (Or.inr ⟨ha, h4, h5, Or.inr (by omega)⟩)
            · exact Or.inr ⟨ha, h4⟩
          · exact Or.inl (Or.inl ⟨by omega, h2, h3, h4⟩)
        · rintro ((⟨h1, h2⟩ | ⟨h1, h2, h3, h4⟩) | ⟨h1, h2⟩)
          · exact ⟨by omega, h2⟩
          · rcases h4 with h4 | h4
            · exact absurd h4 hloc
            · exact ⟨by omega, by omega, by omega, Or.inl ⟨h2, h3, Or.inr (by omega)⟩⟩
          · exact ⟨by omega, by omega, by omega, Or.inr ⟨h2, hglob⟩⟩

/-- The invariant on the state that the kernel returns. -/
theorem track_final (celloff : Bool) (v : Viterbi F) (q t : HMMSimd F)
    (colScore : Nat → Nat → simd_float F) (st0 : KState F) (k : Lane) :
    TrackInv (evVal celloff v q t colScore st0 k) (-v.FLT_MAX)
      (isEv v.local_mode q.L t.L)
      ((runKernel celloff v q t colScore st0).score_vec k)
      ((runKernel celloff v q t colScore st0).i2_vec k)
      ((runKernel celloff v q t colScore st0).j2_vec k) := by
  refine TrackInv.track_congr (track_invariant_rows celloff v q t colScore st0 k q.L (le_refl _)) ?_
  intro a b
  unfold seenEvRows isEv
  constructor
  · rintro ⟨h1, h2, h3⟩
    exact ⟨h2, h1, h2, h3⟩
  · rintro ⟨_, h⟩
    exact h

end Track

/-! ## Claims on the reported coordinates -/

section CoordClaims

variable {F : Type} [LinearOrderedRing F]

/-- Without `VITERBI_CELLOFF` the compared value is the MM score of the full matrix. -/
theorem evVal_fullMatrix (v : Viterbi F) (q t : HMMSimd F)
    (colScore : Nat → Nat → simd_float F) (st0 : KState F) (k : Lane) (a b : Nat)
    (ha : 1 ≤ a) (hb : 1 ≤ b) (hL : 1 ≤ t.L) :
    evVal false v q t colScore st0 k a b = (fullMatrix v q t colScore k a (min b t.L)).MM :=
  congrArg Cell5.MM
    ((kernel_eq_fullMatrix v q t colScore st0 k a (min b t.L) ha (Nat.min_le_right _ _)).2.2.2
      (le_min hb hL))

/-- C22: in local mode, for every lane `k` copied out and lengths in the range of `int`,
if the cell `(i,j)` of the grid has an MM score greater than `-FLT_MAX` and strictly
greater than the MM score of every other cell of the grid, then `AlignWithOutCellOff`
reports that score and the coordinates `(i,j)`. -/
theorem C22_local_unique_max (v : Viterbi F) (q t : HMMSimd F)
    (colScore : Nat → Nat → simd_float F) (maxres : Nat) (st0 : KState F)
    (res0 : ViterbiResult F) (k : Lane) (hloc : v.local_mode = true) (hk : k.val < maxres)
    (hLq : q.L < 2147483648) (hLt : t.L < 2147483648)
    (i j : Nat) (hi1 : 1 ≤ i) (hi2 : i ≤ q.L) (hj1 : 1 ≤ j) (hj2 : j ≤ t.L)
    (hmax : ∀ a b, 1 ≤ a → a ≤ q.L → 1 ≤ b → b ≤ t.L → ¬ (a = i ∧ b = j) →
      (fullMatrix v q t colScore k a b).MM < (fullMatrix v q t colScore k i j).MM)
    (hgt : -v.FLT_MAX < (fullMatrix v q t colScore k i j).MM) :
    (AlignWithOutCellOff v q t colScore maxres st0 res0).1.score k.val =
      (fullMatrix v q t colScore k i j).MM ∧
    (AlignWithOutCellOff v q t colScore maxres st0 res0).1.i k.val = i ∧
    (AlignWithOutCellOff v q t colScore maxres st0 res0).1.j k.val = j := by
  obtain ⟨r1, r2, r3⟩ := extractResult_lane maxres (runKernel false v q t colScore st0)
    res0 k hk
  have T := track_final false v q t colScore st0 k
  rw [hloc] at T
  have hL : 1 ≤ t.L := le_trans hj1 hj2
  have hval : ∀ a b, isEv true q.L t.L a b →
      evVal false v q t colScore st0 k a b = (fullMatrix v q t colScore k a b).MM := by
    intro a b hab
    unfold isEv at hab
    obtain ⟨h1, _, h3 | h3⟩ := hab
    · rw [evVal_fullMatrix v q t colScore st0 k a b h1 h3.1 hL, Nat.min_eq_left h3.2.1]
    · exact absurd h3.2 (by decide)
  have hP : isEv true q.L t.L i j := ⟨hi1, hi2, Or.inl ⟨hj1, hj2, Or.inl rfl⟩⟩
  have hle : ∀ a b, isEv true q.L t.L a b →
      evVal false v q t colScore st0 k a b ≤ (fullMatrix v q t colScore k i j).MM := by
    intro a b hab
    rw [hval a b hab]
    by_cases hc : a = i ∧ b = j
    · rw [hc.1, hc.2]
    · obtain ⟨h1, h2, h3 | h3⟩ := hab
      · exact le_of_lt (hmax a b h1 h2 h3.1 h3.2.1 hc)
      · exact absurd h3.2 (by decide)
  obtain ⟨hb1, hb2, hb3⟩ := T.best
  have hs : (runKernel false v q t colScore st0).score_vec k =
      (fullMatrix v q t colScore k i j).MM := by
    apply le_antisymm
    · rcases hb3 with hb3 | ⟨a, b, hab, hx⟩
      · rw [hb3]
        exact le_of_lt hgt
      · rw [hx]
        exact hle a b hab
    · rw [← hval i j hP]
      exact hb2 i j hP
  have huniq : ∀ a b, isEv true q.L t.L a b →
      evVal false v q t colScore st0 k a b = (runKernel false v q t colScore st0).score_vec k →
      a = i ∧ b = j := by
    intro a b hab hv
    by_contra hc
    rw [hval a b hab, hs] at hv
    obtain ⟨h1, h2, h3 | h3⟩ := hab
    · exact absurd hv (ne_of_lt (hmax a b h1 h2 h3.1 h3.2.1 hc))
    · exact absurd h3.2 (by decide)
  obtain ⟨ci, cj⟩ := T.unique_pos i j hP ((hval i j hP).trans hs.symm) (by rw [hs]; exact hgt)
    huniq
  refine ⟨r1.trans hs, r2.trans ?_, r3.trans ?_⟩
  · rw [ci]
    exact Nat.mod_eq_of_lt (by omega)
  · rw [cj]
    exact Nat.mod_eq_of_lt (by omega)

set_option maxRecDepth 1000000 in
/-- C22 on lane 0 of the local 3 x 3 instance over the integers: the cell `(3,3)` holds
the unique maximum 6 and is reported. -/
theorem C22_local_unique_max_witness :
    (exViterbi true).local_mode = true ∧ (0 : Lane).val < 4 ∧
    (exHMM 3).L < 2147483648 ∧ 1 ≤ 3 ∧ 3 ≤ (exHMM 3).L ∧
    (∀ a b, 1 ≤ a → a ≤ (exHMM 3).L → 1 ≤ b → b ≤ (exHMM 3).L → ¬ (a = 3 ∧ b = 3) →
      (fullMatrix (exViterbi true) (exHMM 3) (exHMM 3) exDiag 0 a b).MM <
        (fullMatrix (exViterbi true) (exHMM 3) (exHMM 3) exDiag 0 3 3).MM) ∧
    -(exViterbi true).FLT_MAX <
      (fullMatrix (exViterbi true) (exHMM 3) (exHMM 3) exDiag 0 3 3).MM ∧
    (AlignWithOutCellOff (exViterbi true) (exHMM 3) (exHMM 3) exDiag 4 exState0
      exRes0).1.i (0 : Lane).val = 3 ∧
    (AlignWithOutCellOff (exViterbi true) (exHMM 3) (exHMM 3) exDiag 4 exState0
      exRes0).1.j (0 : Lane).val = 3 :=
  have hmax : ∀ a b, 1 ≤ a → a ≤ (exHMM 3).L → 1 ≤ b → b ≤ (exHMM 3).L → ¬ (a = 3 ∧ b = 3) →
      (fullMatrix (exViterbi true) (exHMM 3) (exHMM 3) exDiag 0 a b).MM <
        (fullMatrix (exViterbi true) (exHMM 3) (exHMM 3) exDiag 0 3 3).MM := by
    intro a b h1 h2 h3 h4
    have h2a : a ≤ 3 := h2
    have h4a : b ≤ 3 := h4
    interval_cases a <;> interval_cases b <;> decide
  have hgt : -(exViterbi true).FLT_MAX <
      (fullMatrix (exViterbi true) (exHMM 3) (exHMM 3) exDiag 0 3 3).MM := by decide
  ⟨rfl, by decide, by decide, by decide, by decide, hmax, hgt,
    (C22_local_unique_max (exViterbi true) (exHMM 3) (exHMM 3) exDiag 4 exState0 exRes0 0
      rfl (by decide) (by decide) (by decide) 3 3 (by decide) (by decide) (by decide)
      (by decide) hmax hgt).2⟩

/-- C23: a tie resets the coordinates. For every state and lane, when `sMM_i_j` equals
the running best score, the update of lines 415-431 and 444-460 sets both running
coordinates to 0 and leaves the score unchanged. In global mode with `Lq ≥ 1` and
`Lt ≥ 1`, for every lane copied out by `AlignWithOutCellOff`: whenever the MM score of
the bottom-right cell `(Lq,Lt)` is at least the MM score of every cell of the last row
and of the last column, the reported coordinates are `(0,0)`; and the reported
coordinates are never `(Lq,Lt)`. -/
theorem C23_tie_resets_coordinates (v : Viterbi F) (q t : HMMSimd F)
    (colScore : Nat → Nat → simd_float F) (maxres : Nat) (st0 : KState F)
    (res0 : ViterbiResult F) (k : Lane) (hglob : v.local_mode = false)
    (hLq : 1 ≤ q.L) (hLt : 1 ≤ t.L) (hk : k.val < maxres) :
    (∀ st : KState F, st.sMM_i_j k = st.score_vec k →
      (updateBest st).i2_vec k = 0 ∧ (updateBest st).j2_vec k = 0 ∧
      (updateBest st).score_vec k = st.score_vec k) ∧
    ((∀ a b, 1 ≤ a → a ≤ q.L → 1 ≤ b → b ≤ t.L → (a = q.L ∨ b = t.L) →
        (fullMatrix v q t colScore k a b).MM ≤ (fullMatrix v q t colScore k q.L t.L).MM) →
      (AlignWithOutCellOff v q t colScore maxres st0 res0).1.i k.val = 0 ∧
      (AlignWithOutCellOff v q t colScore maxres st0 res0).1.j k.val = 0) ∧
    ¬ ((AlignWithOutCellOff v q t colScore maxres st0 res0).1.i k.val = q.L ∧
       (AlignWithOutCellOff v q t colScore maxres st0 res0).1.j k.val = t.L) := by
  obtain ⟨r1, r2, r3⟩ := extractResult_lane maxres (runKernel false v q t colScore st0)
    res0 k hk
  have T := track_final false v q t colScore st0 k
  rw [hglob] at T
  have hP1 : isEv false q.L t.L q.L t.L :=
    ⟨hLq, le_refl _, Or.inl ⟨hLt, le_refl _, Or.inr rfl⟩⟩
  have hP2 : isEv false q.L t.L q.L (t.L + 1) := ⟨hLq, le_refl _, Or.inr ⟨rfl, rfl⟩⟩
  have hv12 : evVal false v q t colScore st0 k q.L (t.L + 1) =
      evVal false v q t colScore st0 k q.L t.L := by
    unfold evVal
    rw [Nat.min_eq_right (Nat.le_succ _), Nat.min_self]
  have hne : ¬ (q.L = q.L ∧ t.L + 1 = t.L) := by omega
  obtain ⟨hb1, hb2, hb3⟩ := T.best
  refine ⟨?_, ?_, ?_⟩
  · intro st h
    rw [(updateBest_coords st k).1, (updateBest_coords st k).2, updateBest_score,
      coordUpdate_eq _ _ _ _ h, coordUpdate_eq _ _ _ _ h, h]
    exact ⟨rfl, rfl, max_self _⟩
  · intro hmax
    show (extractResult maxres (runKernel false v q t colScore st0) res0).i k.val = 0 ∧
      (extractResult maxres (runKernel false v q t colScore st0) res0).j k.val = 0
    rw [r2, r3]
    rcases hb3 with hb3 | ⟨a, b, hab, hx⟩
    · exact T.bot_zero hb3
    · have hle : (runKernel false v q t colScore st0).score_vec k ≤
          evVal false v q t colScore st0 k q.L t.L := by
        rw [hx, evVal_fullMatrix v q t colScore st0 k q.L t.L hLq hLt hLt, Nat.min_self]
        obtain ⟨h1, h2, h3 | h3⟩ := hab
        · rw [evVal_fullMatrix v q t colScore st0 k a b h1 h3.1 hLt, Nat.min_eq_left h3.2.1]
          exact hmax a b h1 h2 h3.1 h3.2.1
            (h3.2.2.elim (fun h => absurd h (by decide)) Or.inl)
        · rw [evVal_fullMatrix v q t colScore st0 k a b h1 (by omega) hLt, h3.1,
            Nat.min_eq_right (Nat.le_succ _)]
          exact hmax a t.L h1 h2 hLt (le_refl _) (Or.inr rfl)
      have heq : evVal false v q t colScore st0 k q.L t.L =
          (runKernel false v q t colScore st0).score_vec k :=
        le_antisymm (hb2 q.L t.L hP1) hle
      exact T.tie_zero q.L t.L q.L (t.L + 1) hP1 heq hP2 (hv12.trans heq) hne
  · show ¬ ((extractResult maxres (runKernel false v q t colScore st0) res0).i k.val = q.L ∧
      (extractResult maxres (runKernel false v q t colScore st0) res0).j k.val = t.L)
    rw [r2, r3]
    rintro ⟨ca, cb⟩
    rcases hb3 with hb3 | ⟨a, b, hab, hx⟩
    · have := (T.bot_zero hb3).1
      omega
    · have hbot : -v.FLT_MAX < (runKernel false v q t colScore st0).score_vec k := by
        rcases lt_or_eq_of_le hb1 with h | h
        · exact h
        · have := (T.bot_zero h.symm).1
          omega
      by_cases hu : ∀ a1 b1, isEv false q.L t.L a1 b1 →
          evVal false v q t colScore st0 k a1 b1 =
            (runKernel false v q t colScore st0).score_vec k → a1 = a ∧ b1 = b
      · obtain ⟨ci, cj⟩ := T.unique_pos a b hab hx.symm hbot hu
        have ha : a = q.L := by
          have := hab.2.1
          omega
        have hb : b = t.L := by
          have hb' : b ≤ t.L + 1 := by
            rcases hab.2.2 with h | h
            · exact le_trans h.2.1 (Nat.le_succ _)
            · exact le_of_eq h.1
          omega
        subst ha hb
        have := hu q.L (t.L + 1) hP2 (hv12.trans hx.symm)
        omega
      · push_neg at hu
        obtain ⟨a1, b1, h1, h2, h3⟩ := hu
        have := (T.tie_zero a b a1 b1 hab hx.symm h1 h2 (fun h => h3 h.1 h.2)).1
        omega

set_option maxRecDepth 1000000 in
/-- C23 on lane 0 of the global 3 x 3 instance over the integers: the corner cell `(3,3)`
holds the maximum 6 and the reported coordinates are `(0,0)`. -/
theorem C23_tie_resets_coordinates_witness :
    (exViterbi false).local_mode = false ∧ 1 ≤ (exHMM 3).L ∧ (0 : Lane).val < 4 ∧
    (∀ a b, 1 ≤ a → a ≤ (exHMM 3).L → 1 ≤ b → b ≤ (exHMM 3).L →
      (a = (exHMM 3).L ∨ b = (exHMM 3).L) →
      (fullMatrix (exViterbi false) (exHMM 3) (exHMM 3) exDiag 0 a b).MM ≤
        (fullMatrix (exViterbi false) (exHMM 3) (exHMM 3) exDiag 0 (exHMM 3).L
          (exHMM 3).L).MM) ∧
    (AlignWithOutCellOff (exViterbi false) (exHMM 3) (exHMM 3) exDiag 4 exState0
      exRes0).1.i (0 : Lane).val = 0 ∧
    (AlignWithOutCellOff (exViterbi false) (exHMM 3) (exHMM 3) exDiag 4 exState0
      exRes0).1.j (0 : Lane).val = 0 :=
  have hmax : ∀ a b, 1 ≤ a → a ≤ (exHMM 3).L → 1 ≤ b → b ≤ (exHMM 3).L →
      (a = (exHMM 3).L ∨ b = (exHMM 3).L) →
      (fullMatrix (exViterbi false) (exHMM 3) (exHMM 3) exDiag 0 a b).MM ≤
        (fullMatrix (exViterbi false) (exHMM 3) (exHMM 3) exDiag 0 (exHMM 3).L
          (exHMM 3).L).MM := by
    intro a b h1 h2 h3 h4 _
    have h2a : a ≤ 3 := h2
    have h4a : b ≤ 3 := h4
    interval_cases a <;> interval_cases b <;> decide
  ⟨rfl, by decide, by decide, hmax,
    (C23_tie_resets_coordinates (exViterbi false) (exHMM 3) (exHMM 3) exDiag 4 exState0
      exRes0 0 rfl (by decide) (by decide) (by decide)).2.1 hmax⟩

set_option maxRecDepth 1000000 in
/-- C24 (the claim fails without a bound on the maximum): global mode, query of length
2, template of length 1, column score `-FLT_MAX` in both cells and end-gap penalty
`FLT_MAX` for the query. The candidate cells are `(1,1)` and `(2,1)`; the last-column
cell `(1,1)` holds the unique maximum `MM(1,1) = -FLT_MAX > MM(2,1) = -2 FLT_MAX`. The
check after row 1 ties with the initial best score `-FLT_MAX`, and the reported
coordinates are `(0,0)`, not `(1,2)`. -/
theorem C24_unique_max_at_sentinel_reports_origin :
    exViterbiBig.local_mode = false ∧ (exHMM 2).L = 2 ∧ (exHMM 1).L = 1 ∧
    (fullMatrix exViterbiBig (exHMM 2) (exHMM 1) exSink 0 1 1).MM = -exViterbiBig.FLT_MAX ∧
    (fullMatrix exViterbiBig (exHMM 2) (exHMM 1) exSink 0 2 1).MM <
      (fullMatrix exViterbiBig (exHMM 2) (exHMM 1) exSink 0 1 1).MM ∧
    (AlignWithOutCellOff exViterbiBig (exHMM 2) (exHMM 1) exSink 4 exState0 exRes0).1.i 0
      = 0 ∧
    (AlignWithOutCellOff exViterbiBig (exHMM 2) (exHMM 1) exSink 4 exState0 exRes0).1.j 0
      = 0 := by
  decide

/-- C24 (amended): in global mode, for every lane `k` copied out and lengths in the
range of `int`, if a last-column cell `(i,Lt)` with `1 ≤ i < Lq` has an MM score greater
than `-FLT_MAX` and strictly greater than the MM score of every other cell of the last
row and of the last column, then `AlignWithOutCellOff` reports that score and the
coordinates `(i, Lt + 1)`, whose column is outside the grid. -/
theorem C24_last_column_reports_outside (v : Viterbi F) (q t : HMMSimd F)
    (colScore : Nat → Nat → simd_float F) (maxres : Nat) (st0 : KState F)
    (res0 : ViterbiResult F) (k : Lane) (hglob : v.local_mode = false) (hk : k.val < maxres)
    (hLq : q.L < 2147483648) (hLt : t.L < 2147483647) (hLt1 : 1 ≤ t.L)
    (i : Nat) (hi1 : 1 ≤ i) (hi2 : i < q.L)
    (hmax : ∀ a b, 1 ≤ a → a ≤ q.L → 1 ≤ b → b ≤ t.L → (a = q.L ∨ b = t.L) →
      ¬ (a = i ∧ b = t.L) →
      (fullMatrix v q t colScore k a b).MM < (fullMatrix v q t colScore k i t.L).MM)
    (hgt : -v.FLT_MAX < (fullMatrix v q t colScore k i t.L).MM) :
    (AlignWithOutCellOff v q t colScore maxres st0 res0).1.score k.val =
      (fullMatrix v q t colScore k i t.L).MM ∧
    (AlignWithOutCellOff v q t colScore maxres st0 res0).1.i k.val = i ∧
    (AlignWithOutCellOff v q t colScore maxres st0 res0).1.j k.val = t.L + 1 := by
  obtain ⟨r1, r2, r3⟩ := extractResult_lane maxres (runKernel false v q t colScore st0)
    res0 k hk
  have T := track_final false v q t colScore st0 k
  rw [hglob] at T
  have hP : isEv false q.L t.L i (t.L + 1) := ⟨hi1, le_of_lt hi2, Or.inr ⟨rfl, rfl⟩⟩
  have hvP : evVal false v q t colScore st0 k i (t.L + 1) =
      (fullMatrix v q t colScore k i t.L).MM := by
    rw [evVal_fullMatrix v q t colScore st0 k i (t.L + 1) hi1 (by omega) hLt1,
      Nat.min_eq_right (Nat.le_succ _)]
  -- every other comparison reads a smaller value
  have hlt : ∀ a b, isEv false q.L t.L a b → ¬ (a = i ∧ b = t.L + 1) →
      evVal false v q t colScore st0 k a b < (fullMatrix v q t colScore k i t.L).MM := by
    intro a b hab hc
    obtain ⟨h1, h2, h3 | h3⟩ := hab
    · rw [evVal_fullMatrix v q t colScore st0 k a b h1 h3.1 hLt1, Nat.min_eq_left h3.2.1]
      have haL : a = q.L := h3.2.2.elim (fun h => absurd h (by decide)) id
      exact hmax a b h1 h2 h3.1 h3.2.1 (Or.inl haL) (by omega)
    · rw [evVal_fullMatrix v q t colScore st0 k a b h1 (by omega) hLt1, h3.1,
        Nat.min_eq_right (Nat.le_succ _)]
      exact hmax a t.L h1 h2 hLt1 (le_refl _) (Or.inr rfl) (by omega)
  obtain ⟨hb1, hb2, hb3⟩ := T.best
  have hs : (runKernel false v q t colScore st0).score_vec k =
      (fullMatrix v q t colScore k i t.L).MM := by
    apply le_antisymm
    · rcases hb3 with hb3 | ⟨a, b, hab, hx⟩
      · rw [hb3]
        exact le_of_lt hgt
      · rw [hx]
        by_cases hc : a = i ∧ b = t.L + 1
        · rw [hc.1, hc.2, hvP]
        · exact le_of_lt (hlt a b hab hc)
    · rw [← hvP]
      exact hb2 i (t.L + 1) hP
  have huniq : ∀ a b, isEv false q.L t.L a b →
      evVal false v q t colScore st0 k a b = (runKernel false v q t colScore st0).score_vec k →
      a = i ∧ b = t.L + 1 := by
    intro a b hab hv
    by_contra hc
    rw [hs] at hv
    exact absurd hv (ne_of_lt (hlt a b hab hc))
  obtain ⟨ci, cj⟩ := T.unique_pos i (t.L + 1) hP (hvP.trans hs.symm)
    (by rw [hs]; exact hgt) huniq
  refine ⟨r1.trans hs, r2.trans ?_, r3.trans ?_⟩
  · rw [ci]
    exact Nat.mod_eq_of_lt (by omega)
  · rw [cj]
    exact Nat.mod_eq_of_lt (by omega)

set_option maxRecDepth 1000000 in
/-- C24 (amended) on lane 0 of the global 2 x 1 instance over the integers: the
last-column cell `(1,1)` holds the unique maximum 2 and `(1,2)` is reported. -/
theorem C24_last_column_reports_outside_witness :
    (exViterbi false).local_mode = false ∧ (0 : Lane).val < 4 ∧ 1 ≤ (exHMM 1).L ∧
    1 < (exHMM 2).L ∧
    (∀ a b, 1 ≤ a → a ≤ (exHMM 2).L → 1 ≤ b → b ≤ (exHMM 1).L →
      (a = (exHMM 2).L ∨ b = (exHMM 1).L) → ¬ (a = 1 ∧ b = (exHMM 1).L) →
      (fullMatrix (exViterbi false) (exHMM 2) (exHMM 1) exDiag 0 a b).MM <
        (fullMatrix (exViterbi false) (exHMM 2) (exHMM 1) exDiag 0 1 (exHMM 1).L).MM) ∧
    -(exViterbi false).FLT_MAX <
      (fullMatrix (exViterbi false) (exHMM 2) (exHMM 1) exDiag 0 1 (exHMM 1).L).MM ∧
    (AlignWithOutCellOff (exViterbi false) (exHMM 2) (exHMM 1) exDiag 4 exState0
      exRes0).1.i (0 : Lane).val = 1 ∧
    (AlignWithOutCellOff (exViterbi false) (exHMM 2) (exHMM 1) exDiag 4 exState0
      exRes0).1.j (0 : Lane).val = (exHMM 1).L + 1 :=
  have hmax : ∀ a b, 1 ≤ a → a ≤ (exHMM 2).L → 1 ≤ b → b ≤ (exHMM 1).L →
      (a = (exHMM 2).L ∨ b = (exHMM 1).L) → ¬ (a = 1 ∧ b = (exHMM 1).L) →
      (fullMatrix (exViterbi false) (exHMM 2) (exHMM 1) exDiag 0 a b).MM <
        (fullMatrix (exViterbi false) (exHMM 2) (exHMM 1) exDiag 0 1 (exHMM 1).L).MM := by
    intro a b h1 h2 h3 h4 _
    have h2a : a ≤ 2 := h2
    have h4a : b ≤ 1 := h4
    interval_cases a <;> interval_cases b <;> decide
  have hgt : -(exViterbi false).FLT_MAX <
      (fullMatrix (exViterbi false) (exHMM 2) (exHMM 1) exDiag 0 1 (exHMM 1).L).MM := by
    decide
  ⟨rfl, by decide, by decide, by decide, hmax, hgt,
    (C24_last_column_reports_outside (exViterbi false) (exHMM 2) (exHMM 1) exDiag 4 exState0
      exRes0 0 rfl (by decide) (by decide) (by decide) (by decide) 1 (by decide) (by decide)
      hmax hgt).2⟩

end CoordClaims

/-! ## Claims on the excluded cells -/

section ExclusionClaims

end ExclusionClaims

/-! ## Claims on the command line of `hhsearch` -/

section CommandLineClaims

theorem macRange_nan : macRange .nan = .nan := rfl

/-- The three cases of the range check, and its result on everything but a NaN. -/
theorem macRange_cases (x : CFloat) :
    (CFloat.ge x (.fin 1) = true → macRange x = .fin (999 / 1000)) ∧
    (CFloat.lt x (.fin 0) = true → macRange x = .fin 0) ∧
    (CFloat.le (.fin 0) x = true → CFloat.lt x (.fin 1) = true → macRange x = x) ∧
    (x ≠ .nan →
      CFloat.le (.fin 0) (macRange x) = true ∧ CFloat.lt (macRange x) (.fin 1) = true) ∧
    (macRange x = .nan ↔ x = .nan) := by
  cases x with
  | nan => simp [macRange, CFloat.ge, CFloat.le, CFloat.lt]
  | ninf => simp [macRange, CFloat.ge, CFloat.le, CFloat.lt]
  | pinf =>
    simp [macRange, CFloat.ge, CFloat.le, CFloat.lt]
    norm_num
  | fin x =>
    by_cases h1 : (1 : ℚ) ≤ x
    · have h0 : ¬ x < 0 := by linarith
      have h2 : ¬ x < 1 := by linarith
      simp [macRange, CFloat.ge, CFloat.le, CFloat.lt, h1, h0, h2]
      norm_num
    · by_cases h0 : x < 0
      · have h3 : ¬ (0 : ℚ) ≤ x := by linarith
        simp [macRange, CFloat.ge, CFloat.le, CFloat.lt, h1, h0, h3]
      · have h3 : (0 : ℚ) ≤ x := by linarith
        have h4 : x < 1 := by linarith
        simp [macRange, CFloat.ge, CFloat.le, CFloat.lt, h1, h0, h3, h4]

/-- C19 (the code departs from the claim): on the command line
`hhsearch -i q -d db -mact nan -macins nan`, with `atof` reading "nan" as a NaN, `main`
passes all its checks and goes on with `par.mact` and `par.macins` equal to NaN: both
comparisons of the range check of lines 1316-1323 are false on a NaN, and neither
`0 <= par.mact` nor `par.mact < 1` holds. -/
theorem C19_nan_passes_range_check :
    hhsearchMain exAtof [] exPar0
        ["hhsearch", "-i", "q", "-d", "db", "-mact", "nan", "-macins", "nan"] =
      .ok { exPar0 with infile := "q", dbfiles := some "db", mact := .nan, macins := .nan } ∧
    CFloat.le (.fin 0) .nan = false ∧ CFloat.lt .nan (.fin 1) = false := by
  refine ⟨by rfl, rfl, rfl⟩

/-- Whenever `main` passes its checks, for every command line, every defaults file and
every behaviour of `atof`, each of `par.mact` and `par.macins` is the result of the range
check on the value parsed; unless it is a NaN, it lies in the range `0 <= x < 1`. The
range check maps a value `>= 1` to 0.999, a value `< 0` to 0, leaves a value of the range
unchanged, and returns a NaN only on a NaN. -/
theorem mac_checks_in_range (atof : String → CFloat) (conf : List String)
    (par0 par : Par) (argv : List String)
    (h : hhsearchMain atof conf par0 argv = .ok par) :
    (∃ par3, parsed atof conf par0 argv = .ok par3 ∧ par.mact = macRange par3.mact ∧
      par.macins = macRange par3.macins) ∧
    (par.mact ≠ .nan →
      CFloat.le (.fin 0) par.mact = true ∧ CFloat.lt par.mact (.fin 1) = true) ∧
    (par.macins ≠ .nan →
      CFloat.le (.fin 0) par.macins = true ∧ CFloat.lt par.macins (.fin 1) = true) ∧
    (∀ x : CFloat,
      (CFloat.ge x (.fin 1) = true → macRange x = .fin (999 / 1000)) ∧
      (CFloat.lt x (.fin 0) = true → macRange x = .fin 0) ∧
      (CFloat.le (.fin 0) x = true → CFloat.lt x (.fin 1) = true → macRange x = x) ∧
      (macRange x = .nan ↔ x = .nan)) := by
  have hex : ∃ par3, parsed atof conf par0 argv = .ok par3 ∧ par.mact = macRange par3.mact ∧
      par.macins = macRange par3.macins := by
    unfold hhsearchMain at h
    cases hp : parsed atof conf par0 argv with
    | error c =>
      rw [hp] at h
      exact absurd h (by simp)
    | ok par3 =>
      rw [hp] at h
      dsimp only at h
      split_ifs at h
      have h' := Except.ok.inj h
      exact ⟨par3, rfl, by rw [← h'], by rw [← h']⟩
  obtain ⟨par3, hp, hm, hi⟩ := hex
  refine ⟨⟨par3, hp, hm, hi⟩, ?_, ?_, ?_⟩
  · intro hn
    rw [hm] at hn ⊢
    exact (macRange_cases par3.mact).2.2.2.1
      (fun hx => hn ((macRange_cases par3.mact).2.2.2.2.mpr hx))
  · intro hn
    rw [hi] at hn ⊢
    exact (macRange_cases par3.macins).2.2.2.1
      (fun hx => hn ((macRange_cases par3.macins).2.2.2.2.mpr hx))
  · intro x
    obtain ⟨h1, h2, h3, _, h5⟩ := macRange_cases x
    exact ⟨h1, h2, h3, h5⟩

/-- The command line `hhsearch -i q -d db -mact 2 -macins -3`: the search goes on with
`mact = 0.999` and `macins = 0`. -/
theorem mac_checks_in_range_example :
    hhsearchMain exAtof [] exPar0
        ["hhsearch", "-i", "q", "-d", "db", "-mact", "2", "-macins", "-3"] =
      .ok { exPar0 with infile := "q", dbfiles := some "db", mact := .fin (999 / 1000),
                        macins := .fin 0 } ∧
    (CFloat.fin (999 / 1000) ≠ .nan →
      CFloat.le (.fin 0) (.fin (999 / 1000)) = true ∧
      CFloat.lt (.fin (999 / 1000)) (.fin 1) = true) :=
  have h : hhsearchMain exAtof [] exPar0
        ["hhsearch", "-i", "q", "-d", "db", "-mact", "2", "-macins", "-3"] =
      .ok { exPar0 with infile := "q", dbfiles := some "db", mact := .fin (999 / 1000),
                        macins := .fin 0 } := by rfl
  ⟨h, (mac_checks_in_range exAtof [] exPar0 _ _ h).2.1⟩

/-- The options of `ProcessArguments` that require a value not starting with `-`. -/
theorem argStep_needs_value (atof : String → CFloat) (par : Par) (a : String)
    (rest : List String)
    (ha : a ∈ ["-i", "-d", "-o", "-Ofas", "-Oa2m", "-Oa3m", "-oa3m", "-ohhm", "-opsi",
      "-scores", "-atab", "-Aliout", "-contxt", "-cs"])
    (hr : rest = [] ∨ startsDash (nextArg rest) = true) :
    argStep atof par a rest = .error 4 := by
  simp only [List.mem_cons, List.mem_singleton, List.not_mem_nil, or_false] at ha
  rcases rest with _ | ⟨b, r⟩
  · rcases ha with rfl | rfl | rfl | rfl | rfl | rfl | rfl | rfl | rfl | rfl | rfl | rfl |
      rfl | rfl <;> rfl
  · have hb : startsDash b = true := by
      rcases hr with hr | hr
      · exact absurd hr (by simp)
      · exact hr
    rcases ha with rfl | rfl | rfl | rfl | rfl | rfl | rfl | rfl | rfl | rfl | rfl | rfl |
      rfl | rfl <;> simp [argStep, needValue, hb, strncmp0]

/-- An exit of the loop body ends `ProcessArguments` with the same code, at whatever
state the loop has reached. -/
theorem ProcessArguments_exit (atof : String → CFloat) (n : Nat) :
    ∀ (par0 : Par) (args : List String), args.length ≤ n →
    ∀ (p : Par) (a : String) (r : List String) (c : Nat),
      (p, a :: r) ∈ loopHeads atof par0 args → argStep atof p a r = .error c →
      ProcessArguments atof par0 args = .error c := by
  induction n with
  | zero =>
    intro par0 args hlen p a r c hmem _
    have : args = [] := List.length_eq_zero.mp (Nat.le_zero.mp hlen)
    subst this
    simp [loopHeads] at hmem
  | succ n ih =>
    intro par0 args hlen p a r c hmem hstep
    cases args with
    | nil => simp [loopHeads] at hmem
    | cons a0 rest =>
      have hlen1 : rest.length ≤ n := by
        simp only [List.length_cons] at hlen
        omega
      rw [loopHeads, List.mem_cons] at hmem
      rw [ProcessArguments]
      rcases hmem with hhead | htail
      · obtain ⟨rfl, hl⟩ := Prod.mk.inj hhead
        obtain ⟨rfl, rfl⟩ := List.cons.inj hl
        rw [hstep]
      · cases hs : argStep atof par0 a0 rest with
        | error c1 =>
          rw [hs] at htail
          simp at htail
        | ok res =>
          obtain ⟨par1, adv⟩ := res
          rw [hs] at htail
          cases adv with
          | false => exact ih par1 rest hlen1 p a r c htail hstep
          | true =>
            cases rest with
            | nil => simp at htail
            | cons b rest1 =>
              have hlen2 : rest1.length ≤ n := by
                simp only [List.length_cons] at hlen1
                omega
              exact ih par1 rest1 hlen2 p a r c htail hstep

/-- C20 (the claim fails as stated): on `hhsearch -i q -d db -e -o` the last argument is
`-o`, but it is read as the value of `-e`; `ProcessArguments` returns, `main` passes its
checks and the search goes on. On `hhsearch -h -i` the last argument is `-i`, and the
program ends at `-h` with exit code 0. -/
theorem C20_option_read_as_value :
    hhsearchMain exAtof [] exPar0 ["hhsearch", "-i", "q", "-d", "db", "-e", "-o"] =
      .ok { exPar0 with infile := "q", dbfiles := some "db",
                        mact := .fin (3501 / 10000), macins := .fin 0 } ∧
    ["hhsearch", "-i", "q", "-d", "db", "-e", "-o"].getLast? = some "-o" ∧
    hhsearchMain exAtof [] exPar0 ["hhsearch", "-h", "-i"] = .error 0 ∧
    ["hhsearch", "-h", "-i"].getLast? = some "-i" := by
  have hm : macRange (.fin (3501 / 10000)) = .fin (3501 / 10000) :=
    (macRange_cases _).2.2.1 (by simp [CFloat.le]; norm_num) (by simp [CFloat.lt]; norm_num)
  have h0 : macRange (.fin 0) = .fin 0 :=
    (macRange_cases _).2.2.1 (by simp [CFloat.le]) (by simp [CFloat.lt])
  refine ⟨?_, rfl, by rfl, rfl⟩
  show Except.ok ({ exPar0 with infile := "q", dbfiles := some "db"
                                mact := macRange (.fin (3501 / 10000))
                                macins := macRange (.fin 0) } : Par) = _
  rw [hm, h0]

/-- C20 (amended): whenever the loop of `ProcessArguments` reaches one of `-i`, `-d`,
`-o`, `-Ofas`, `-Oa2m`, `-Oa3m`, `-oa3m`, `-ohhm`, `-opsi`, `-scores`, `-atab`
(`-Aliout`), `-contxt` (`-cs`) as the option `argv[i]` to process, and that option is
the last argument or is followed by an argument starting with `-`, the loop body exits
with code 4 and so does `ProcessArguments`. `main` exits with the code with which a call
of `ProcessArguments` exits, and exits with code 4 when after parsing the input file
name is empty or no database was given. Whenever `main` does go on to the search, both
were given. -/
theorem C20_command_line_errors (atof : String → CFloat) (conf : List String)
    (par0 : Par) (argv : List String) :
    (∀ (par : Par) (a : String) (rest : List String),
      a ∈ ["-i", "-d", "-o", "-Ofas", "-Oa2m", "-Oa3m", "-oa3m", "-ohhm", "-opsi",
        "-scores", "-atab", "-Aliout", "-contxt", "-cs"] →
      (rest = [] ∨ startsDash (nextArg rest) = true) →
      argStep atof par a rest = .error 4) ∧
    (∀ (parA : Par) (args : List String) (p : Par) (a : String) (r : List String),
      (p, a :: r) ∈ loopHeads atof parA args →
      a ∈ ["-i", "-d", "-o", "-Ofas", "-Oa2m", "-Oa3m", "-oa3m", "-ohhm", "-opsi",
        "-scores", "-atab", "-Aliout", "-contxt", "-cs"] →
      (r = [] ∨ startsDash (nextArg r) = true) →
      ProcessArguments atof parA args = .error 4) ∧
    (∀ c, parsed atof conf par0 argv = .error c →
      hhsearchMain atof conf par0 argv = .error c) ∧
    (∀ par3, parsed atof conf par0 argv = .ok par3 →
      (par3.infile = "" ∨ par3.dbfiles = none) →
      hhsearchMain atof conf par0 argv = .error 4) ∧
    (∀ par, hhsearchMain atof conf par0 argv = .ok par →
      par.infile ≠ "" ∧ par.dbfiles ≠ none) := by
  refine ⟨fun par a rest => argStep_needs_value atof par a rest, ?_, ?_, ?_, ?_⟩
  · intro parA args p a r hmem ha hr
    exact ProcessArguments_exit atof args.length parA args (le_refl _) p a r 4 hmem
      (argStep_needs_value atof p a r ha hr)
  · intro c hp
    unfold hhsearchMain
    rw [hp]
  · intro par3 hp hmiss
    unfold hhsearchMain
    rw [hp]
    dsimp only
    rcases hmiss with h | h
    · rw [h]
      rfl
    · by_cases h1 : (par3.infile == "") = true
      · rw [if_pos h1]
      · rw [if_neg h1, h]
        rfl
  · intro par h
    unfold hhsearchMain at h
    cases hp : parsed atof conf par0 argv with
    | error c =>
      rw [hp] at h
      exact absurd h (by simp)
    | ok par3 =>
      rw [hp] at h
      dsimp only at h
      split_ifs at h with h1 h2
      have h' := Except.ok.inj h
      rw [← h']
      constructor
      · intro hx
        apply h1
        show (par3.infile == "") = true
        rw [show par3.infile = "" from hx]
        rfl
      · intro hx
        apply h2
        show par3.dbfiles.isNone = true
        rw [show par3.dbfiles = none from hx]
        rfl

/-- C20 (amended) on `hhsearch -i q -d db -o -x`: the loop reaches `-o` followed by
`-x`, and `ProcessArguments` exits with code 4. -/
theorem C20_command_line_errors_witness :
    (({ exPar0 with infile := "q", dbfiles := some "db" } : Par), ["-o", "-x"]) ∈
      loopHeads exAtof exPar0 ["-i", "q", "-d", "db", "-o", "-x"] ∧
    "-o" ∈ ["-i", "-d", "-o", "-Ofas", "-Oa2m", "-Oa3m", "-oa3m", "-ohhm", "-opsi",
      "-scores", "-atab", "-Aliout", "-contxt", "-cs"] ∧
    (["-x"] = [] ∨ startsDash (nextArg ["-x"]) = true) ∧
    ProcessArguments exAtof exPar0 ["-i", "q", "-d", "db", "-o", "-x"] = .error 4 :=
  have hmem : (({ exPar0 with infile := "q", dbfiles := some "db" } : Par), ["-o", "-x"]) ∈
      loopHeads exAtof exPar0 ["-i", "q", "-d", "db", "-o", "-x"] :=
    List.mem_cons_of_mem _ (List.mem_cons_of_mem _ (List.mem_cons_self _ _))
  ⟨hmem, by decide, Or.inr rfl,
    (C20_command_line_errors exAtof [] exPar0 []).2.1 exPar0
      ["-i", "q", "-d", "db", "-o", "-x"] _ "-o" ["-x"] hmem (by decide) (Or.inr rfl)⟩

end CommandLineClaims

end HHViterbi
